import Mathlib

/-!
# vipsgen: the introspection-driven binding generator of govips

A shallow embedding of `cmd/vipsgen` (`types.go`, `config.go`, `introspect.go`,
`generate.go`) together with theorems about the generated artifacts.

Go strings are byte sequences, so they are embedded as lists of bytes; the
buffers the emitters print into are embedded as the byte string appended.
-/

namespace Vipsgen

/-! ## Go strings -/

/-- One byte of a Go string. -/
abbrev Byte := Fin 256

/-- Go `string`: an immutable sequence of bytes, compared bytewise
(lexicographically) by `<` and `==`. -/
abbrev GoString := List Byte

/-- An ASCII string literal of the source as a Go string. -/
def str (s : String) : GoString := s.toList.map (fun c => Fin.ofNat c.toNat)

/-- Go `strings.Join(elems, sep)`. -/
def stringsJoin : List GoString → GoString → GoString
  | [], _ => []
  | [a], _ => a
  | a :: b :: rest, sep => a ++ sep ++ stringsJoin (b :: rest) sep

/-- Go `strings.ReplaceAll(s, old, new)` for one-byte `old` and `new`. -/
def stringsReplaceAll (s : GoString) (old new : Byte) : GoString :=
  s.map (fun b => if b = old then new else b)

/-- Go `strings.Split(s, sep)` for a one-byte separator: the pieces between
the separators; the empty string splits into one empty piece. -/
def stringsSplit : GoString → Byte → List GoString
  | [], _ => [[]]
  | b :: rest, sep =>
    if b = sep then [] :: stringsSplit rest sep
    else
      match stringsSplit rest sep with
      | [] => [[b]]
      | p :: ps => (b :: p) :: ps

/-- Go `strings.ToUpper` on the one-byte string `p[:1]`: an ASCII lower-case
letter is upper-cased, any other ASCII byte is kept, and a byte that is not
ASCII (an invalid one-byte UTF-8 sequence) is replaced by U+FFFD. -/
def stringsToUpperByte (b : Byte) : GoString :=
  if b.val < 128 then
    if 97 ≤ b.val ∧ b.val ≤ 122 then [Fin.ofNat (b.val - 32)] else [b]
  else [0xEF, 0xBF, 0xBD]

/-- The Go expression `strings.ToUpper(p[:1]) + p[1:]` for a non-empty `p`
(the callers skip the empty piece before evaluating it). -/
def upperFirst : GoString → GoString
  | [] => []
  | b :: rest => stringsToUpperByte b ++ rest

/-! ## types.go -/

/-- ArgFlags describes argument properties from vips introspection. -/
abbrev ArgFlags := Int

def ArgInput : ArgFlags := 1
def ArgOutput : ArgFlags := 2
def ArgRequired : ArgFlags := 4
def ArgModify : ArgFlags := 8

/-- ArgType represents the GType category of an argument. Every `switch` of
the generator sends the kinds it does not name to its `default` branch. -/
inductive ArgType where
  | ArgTypeUnknown
  | ArgTypeImage
  | ArgTypeDouble
  | ArgTypeInt
  | ArgTypeBool
  | ArgTypeString
  | ArgTypeEnum
  | ArgTypeFlags
  | ArgTypeArrayDouble
  | ArgTypeArrayInt
  | ArgTypeArrayImage
  | ArgTypeBlob
  | ArgTypeInterpolate
  | ArgTypeSource
  | ArgTypeTarget
  deriving DecidableEq

open ArgType

/-- A `float64` carried through as its IEEE-754 bit pattern; the generator
never inspects it. -/
abbrev Float64 := Nat

/-- ArgDef describes a single argument to a vips operation. -/
structure ArgDef where
  Name : GoString
  Typ : ArgType
  Flags : ArgFlags
  Priority : Int
  Default : Float64
  Min : Float64
  Max : Float64
  EnumType : GoString
  deriving DecidableEq

/-- IsInput returns true if this argument is an input. -/
def ArgDef.IsInput (a : ArgDef) : Bool := Int.land a.Flags ArgInput != 0

/-- IsOutput returns true if this argument is an output. -/
def ArgDef.IsOutput (a : ArgDef) : Bool := Int.land a.Flags ArgOutput != 0

/-- IsRequired returns true if this argument is required. -/
def ArgDef.IsRequired (a : ArgDef) : Bool := Int.land a.Flags ArgRequired != 0

/-- OpDef describes a single vips operation discovered by introspection. -/
structure OpDef where
  Name : GoString
  Description : GoString
  Category : GoString
  Args : List ArgDef
  deriving DecidableEq

/-- RequiredInputs returns all required input arguments. -/
def OpDef.RequiredInputs (op : OpDef) : List ArgDef :=
  op.Args.filter (fun a => a.IsInput && a.IsRequired)

/-- OptionalInputs returns optional input arguments. -/
def OpDef.OptionalInputs (op : OpDef) : List ArgDef :=
  op.Args.filter (fun a => a.IsInput && !a.IsRequired)

/-- Outputs returns output arguments. -/
def OpDef.Outputs (op : OpDef) : List ArgDef :=
  op.Args.filter (fun a => a.IsOutput)

/-! ## config.go -/

/-- Go map index `m[k]` on a `map[string]bool` literal: the stored value, or
`false` when the key is absent. -/
def mapBool (m : List (GoString × Bool)) (k : GoString) : Bool :=
  (m.lookup k).getD false

/-- The operations that are not generated (hand-written elsewhere or not
supported by the generator). -/
def excludeOps : List (GoString × Bool) :=
  [ (str "csvload", true),
    (str "csvload_source", true),
    (str "csvsave", true),
    (str "csvsave_target", true),
    (str "fitsload", true),
    (str "fitsload_source", true),
    (str "fitssave", true),
    (str "gifload", true),
    (str "gifload_buffer", true),
    (str "gifload_source", true),
    (str "gifsave", true),
    (str "gifsave_buffer", true),
    (str "gifsave_target", true),
    (str "heifload", true),
    (str "heifload_buffer", true),
    (str "heifload_source", true),
    (str "heifsave", true),
    (str "heifsave_buffer", true),
    (str "heifsave_target", true),
    (str "jp2kload", true),
    (str "jp2kload_buffer", true),
    (str "jp2kload_source", true),
    (str "jp2ksave", true),
    (str "jp2ksave_buffer", true),
    (str "jp2ksave_target", true),
    (str "jpegload", true),
    (str "jpegload_buffer", true),
    (str "jpegload_source", true),
    (str "jpegsave", true),
    (str "jpegsave_buffer", true),
    (str "jpegsave_mime", true),
    (str "jpegsave_target", true),
    (str "jxlload", true),
    (str "jxlload_buffer", true),
    (str "jxlload_source", true),
    (str "jxlsave", true),
    (str "jxlsave_buffer", true),
    (str "jxlsave_target", true),
    (str "magickload", true),
    (str "magickload_buffer", true),
    (str "magicksave", true),
    (str "magicksave_buffer", true),
    (str "matload", true),
    (str "matrixload", true),
    (str "matrixload_source", true),
    (str "matrixprint", true),
    (str "matrixsave", true),
    (str "matrixsave_target", true),
    (str "niftiload", true),
    (str "niftiload_source", true),
    (str "niftisave", true),
    (str "openexrload", true),
    (str "openslideload", true),
    (str "openslideload_source", true),
    (str "pdfload", true),
    (str "pdfload_buffer", true),
    (str "pdfload_source", true),
    (str "pngload", true),
    (str "pngload_buffer", true),
    (str "pngload_source", true),
    (str "pngsave", true),
    (str "pngsave_buffer", true),
    (str "pngsave_target", true),
    (str "ppmload", true),
    (str "ppmload_source", true),
    (str "ppmsave", true),
    (str "ppmsave_target", true),
    (str "radload", true),
    (str "radload_buffer", true),
    (str "radload_source", true),
    (str "radsave", true),
    (str "radsave_buffer", true),
    (str "radsave_target", true),
    (str "rawload", true),
    (str "rawsave", true),
    (str "rawsave_fd", true),
    (str "svgload", true),
    (str "svgload_buffer", true),
    (str "svgload_source", true),
    (str "tiffload", true),
    (str "tiffload_buffer", true),
    (str "tiffload_source", true),
    (str "tiffsave", true),
    (str "tiffsave_buffer", true),
    (str "tiffsave_target", true),
    (str "vipsload", true),
    (str "vipsload_source", true),
    (str "vipssave", true),
    (str "vipssave_target", true),
    (str "webpload", true),
    (str "webpload_buffer", true),
    (str "webpload_source", true),
    (str "webpsave", true),
    (str "webpsave_buffer", true),
    (str "webpsave_target", true),
    (str "thumbnail", true),
    (str "thumbnail_buffer", true),
    (str "thumbnail_source", true),
    (str "switch", true),
    (str "case", true),
    (str "system", true),
    (str "profile_load", true),
    (str "composite", true),
    (str "icc_transform", true),
    (str "colourspace", true),
    (str "resize", true),
    (str "thumbnail_image", true),
    (str "text", true),
    (str "find_trim", true),
    (str "getpoint", true),
    (str "max", true),
    (str "min", true),
    (str "measure", true),
    (str "sdf", true),
    (str "addalpha", true),
    (str "embed", true),
    (str "crop", true),
    (str "draw_rect", true),
    (str "draw_image", true),
    (str "draw_mask", true),
    (str "draw_flood", true),
    (str "draw_line", true),
    (str "draw_circle", true),
    (str "draw_smudge", true) ]

/-- The category of the operations that are direct children of VipsOperation. -/
def opCategoryOverride : List (GoString × GoString) :=
  [ (str "gaussblur", str "convolution"),
    (str "sharpen", str "convolution"),
    (str "canny", str "convolution"),
    (str "sobel", str "convolution"),
    (str "prewitt", str "convolution"),
    (str "scharr", str "convolution"),
    (str "find_trim", str "arithmetic"),
    (str "getpoint", str "arithmetic"),
    (str "measure", str "arithmetic"),
    (str "case", str "conversion"),
    (str "switch", str "conversion"),
    (str "colourspace", str "colour"),
    (str "CMYK2XYZ", str "colour"),
    (str "XYZ2CMYK", str "colour"),
    (str "thumbnail_image", str "resample"),
    (str "thumbnail", str "resample"),
    (str "thumbnail_buffer", str "resample"),
    (str "thumbnail_source", str "resample"),
    (str "globalbalance", str "resample"),
    (str "match", str "resample"),
    (str "merge", str "resample"),
    (str "mosaic", str "resample"),
    (str "mosaic1", str "resample"),
    (str "remosaic", str "resample"),
    (str "hist_equal", str "histogram"),
    (str "hist_entropy", str "histogram"),
    (str "hist_ismonotonic", str "histogram"),
    (str "hist_local", str "histogram"),
    (str "hist_norm", str "histogram"),
    (str "hist_plot", str "histogram"),
    (str "maplut", str "histogram"),
    (str "percent", str "histogram"),
    (str "stdif", str "histogram"),
    (str "fastcor", str "convolution"),
    (str "spcor", str "convolution"),
    (str "matrixinvert", str "arithmetic"),
    (str "matrixmultiply", str "arithmetic"),
    (str "system", str "create"),
    (str "profile_load", str "create") ]

/-- The table that normalizes category strings. -/
def categoryMap : List (GoString × GoString) :=
  [ (str "VipsArithmetic", str "arithmetic"),
    (str "arithmetic", str "arithmetic"),
    (str "VipsConversion", str "conversion"),
    (str "conversion", str "conversion"),
    (str "VipsResample", str "resample"),
    (str "resample", str "resample"),
    (str "VipsConvolution", str "convolution"),
    (str "convolution", str "convolution"),
    (str "VipsColour", str "colour"),
    (str "colour", str "colour"),
    (str "VipsCreate", str "create"),
    (str "create", str "create"),
    (str "VipsDraw", str "draw"),
    (str "draw", str "draw"),
    (str "VipsMorphology", str "morphology"),
    (str "morphology", str "morphology"),
    (str "VipsForeign", str "foreign"),
    (str "foreign", str "foreign"),
    (str "VipsFreqfilt", str "freqfilt"),
    (str "freqfilt", str "freqfilt"),
    (str "VipsHistogram", str "histogram"),
    (str "histogram", str "histogram") ]

/-- normalizeCategory maps an introspected category to our standard name. -/
def normalizeCategory (cat : GoString) : GoString :=
  match categoryMap.lookup cat with
  | some mapped => mapped
  | none => cat

/-- normalizeCategoryForOp returns the category for an operation, checking
the op-level override first, then the category map. -/
def normalizeCategoryForOp (opName cat : GoString) : GoString :=
  match opCategoryOverride.lookup opName with
  | some override => override
  | none => normalizeCategory cat

/-- The Go type name used for each C enum type name. -/
def enumGoName : List (GoString × GoString) :=
  [ (str "VipsKernel", str "Kernel"),
    (str "VipsSize", str "Size"),
    (str "VipsDirection", str "Direction"),
    (str "VipsAngle", str "Angle"),
    (str "VipsAngle45", str "Angle45"),
    (str "VipsBandFormat", str "BandFormat"),
    (str "VipsBlendMode", str "BlendMode"),
    (str "VipsCoding", str "Coding"),
    (str "VipsCompassDirection", str "Gravity"),
    (str "VipsExtend", str "ExtendStrategy"),
    (str "VipsInteresting", str "Interesting"),
    (str "VipsInterpretation", str "Interpretation"),
    (str "VipsIntent", str "Intent"),
    (str "VipsPrecision", str "Precision"),
    (str "VipsAlign", str "Align"),
    (str "VipsTextWrap", str "TextWrap"),
    (str "VipsCombineMode", str "CombineMode"),
    (str "VipsCombine", str "Combine"),
    (str "VipsOperationBoolean", str "OperationBoolean"),
    (str "VipsOperationMath", str "OperationMath"),
    (str "VipsOperationMath2", str "OperationMath2"),
    (str "VipsOperationComplex", str "OperationComplex"),
    (str "VipsOperationComplex2", str "OperationComplex2"),
    (str "VipsOperationComplexget", str "OperationComplexget"),
    (str "VipsOperationRelational", str "OperationRelational"),
    (str "VipsOperationRound", str "OperationRound"),
    (str "VipsOperationMorphology", str "OperationMorphology"),
    (str "VipsForeignDzLayout", str "ForeignDzLayout"),
    (str "VipsForeignDzDepth", str "ForeignDzDepth"),
    (str "VipsForeignDzContainer", str "ForeignDzContainer"),
    (str "VipsForeignTiffCompression", str "TiffCompression"),
    (str "VipsForeignTiffPredictor", str "TiffPredictor"),
    (str "VipsForeignPngFilter", str "PngFilter"),
    (str "VipsForeignSubsample", str "SubsampleMode"),
    (str "VipsForeignHeifCompression", str "HeifCompression"),
    (str "VipsRegionShrink", str "RegionShrink"),
    (str "VipsFalseColour", str "FalseColour"),
    (str "VipsDemandStyle", str "DemandStyle"),
    (str "VipsFailOn", str "FailOn"),
    (str "VipsForeignKeep", str "ForeignKeep") ]

/-- goEnumName returns the Go type name for a C enum type. -/
def goEnumName (cName : GoString) : GoString :=
  match enumGoName.lookup cName with
  | some name => name
  | none => str ""

/-! ## generate.go: name conversion helpers -/

/-- The pieces of a name after `strings.ReplaceAll(name, "-", "_")` and
`strings.Split(name, "_")`. -/
def nameParts (name : GoString) : List GoString :=
  stringsSplit (stringsReplaceAll name 45 95) 95

/-- goName: every non-empty piece with its first byte upper-cased. -/
def goName (name : GoString) : GoString :=
  ((nameParts name).map (fun p => if p = [] then [] else upperFirst p)).flatten

/-- The loop of goArgName over `parts` from index `i` on: empty pieces are
skipped, the piece at index 0 is written as it is, every later piece with
its first byte upper-cased. -/
def goArgNameLoop : Nat → List GoString → GoString
  | _, [] => []
  | i, p :: rest =>
    (if p = [] then [] else if i = 0 then p else upperFirst p) ++ goArgNameLoop (i + 1) rest

/-- goArgName: the parameter-style identifier of an argument name. -/
def goArgName (name : GoString) : GoString :=
  let s := goArgNameLoop 0 (nameParts name)
  -- Avoid Go keywords.
  if s = str "type" then str "typ"
  else if s = str "func" then str "fn"
  else if s = str "map" then str "mapVal"
  else if s = str "range" then str "rangeVal"
  else if s = str "in" then str "input"
  else s

/-- goExportedArgName: the exported identifier of an argument name. -/
def goExportedArgName (name : GoString) : GoString :=
  let s := ((nameParts name).map (fun p => if p = [] then [] else upperFirst p)).flatten
  -- Handle Go keywords.
  if s = str "Type" then str "Typ"
  else if s = str "Func" then str "Fn"
  else if s = str "Map" then str "MapVal"
  else if s = str "Range" then str "RangeVal"
  else if s = str "In" then str "Input"
  else s

def cFuncName (opName : GoString) : GoString := str "gen_vips_" ++ opName

def goFuncName (opName : GoString) : GoString := str "vipsGen" ++ goName opName

def cStructName (opName : GoString) : GoString := str "Gen" ++ goName opName ++ str "Opts"

def goOptsTypeName (opName : GoString) : GoString := goName opName ++ str "Options"

/-! ## generate.go: Go type mapping -/

def goTypeName (arg : ArgDef) : GoString :=
  match arg.Typ with
  | ArgTypeImage => str "*C.VipsImage"
  | ArgTypeDouble => str "float64"
  | ArgTypeInt => str "int"
  | ArgTypeBool => str "bool"
  | ArgTypeString => str "string"
  | ArgTypeEnum =>
    if goEnumName arg.EnumType ≠ str "" then goEnumName arg.EnumType else str "int"
  | ArgTypeFlags => str "int"
  | ArgTypeArrayDouble => str "[]float64"
  | ArgTypeArrayInt => str "[]int"
  | ArgTypeArrayImage => str "[]*C.VipsImage"
  | ArgTypeInterpolate => str "*C.VipsInterpolate"
  | ArgTypeBlob => str "[]byte"
  | _ => str "interface\x7b\x7d"

def goOptTypeName (arg : ArgDef) : GoString :=
  match arg.Typ with
  | ArgTypeDouble => str "*float64"
  | ArgTypeInt => str "*int"
  | ArgTypeBool => str "*bool"
  | ArgTypeString => str "*string"
  | ArgTypeEnum =>
    if goEnumName arg.EnumType ≠ str "" then str "*" ++ goEnumName arg.EnumType else str "*int"
  | ArgTypeFlags => str "*int"
  | ArgTypeArrayDouble => str "[]float64"
  | ArgTypeArrayInt => str "[]int"
  | ArgTypeArrayImage => str "[]*C.VipsImage"
  | ArgTypeImage => str "*C.VipsImage"
  | ArgTypeInterpolate => str "*C.VipsInterpolate"
  | ArgTypeBlob => str "[]byte"
  | _ => str "interface\x7b\x7d"

def cTypeName (arg : ArgDef) : GoString :=
  match arg.Typ with
  | ArgTypeImage => str "VipsImage *"
  | ArgTypeDouble => str "double"
  | ArgTypeInt => str "int"
  | ArgTypeBool => str "int"
  | ArgTypeString => str "const char *"
  | ArgTypeEnum => arg.EnumType
  | ArgTypeFlags => str "int"
  | ArgTypeArrayDouble => str "double *"
  | ArgTypeArrayInt => str "int *"
  | ArgTypeArrayImage => str "VipsArrayImage *"
  | ArgTypeInterpolate => str "VipsInterpolate *"
  | ArgTypeBlob => str "void *"
  | _ => str "void *"

def cOutputTypeName (arg : ArgDef) : GoString :=
  match arg.Typ with
  | ArgTypeImage => str "VipsImage **"
  | ArgTypeDouble => str "double *"
  | ArgTypeInt => str "int *"
  | ArgTypeBool => str "int *"
  | ArgTypeEnum => str "int *"
  | _ => str "void *"

/-- isNilCheckType returns true if the opt arg uses nil check (pointer/slice). -/
def isNilCheckType (arg : ArgDef) : Bool :=
  arg.Typ == ArgTypeArrayDouble || arg.Typ == ArgTypeArrayInt ||
    arg.Typ == ArgTypeArrayImage || arg.Typ == ArgTypeBlob ||
    arg.Typ == ArgTypeImage || arg.Typ == ArgTypeInterpolate

/-- hasOutputs returns true if the operation has output args. -/
def hasOutputs (op : OpDef) : Bool := decide (op.Outputs.length > 0)

/-- primaryImageOutput returns the first image output. -/
def primaryImageOutput (op : OpDef) : Option ArgDef :=
  op.Outputs.find? (fun a => a.Typ == ArgTypeImage)

def goZeroValue (a : ArgDef) : GoString :=
  match a.Typ with
  | ArgTypeImage => str "nil"
  | ArgTypeDouble => str "0"
  | ArgTypeInt => str "0"
  | ArgTypeBool => str "false"
  | ArgTypeEnum => str "0"
  | _ => str "nil"

/-! ## generate.go: C source generation -/

/-- The `params` slice that genCFunc builds for the function signature. -/
def genCFuncParams (op : OpDef) : List GoString :=
  (op.RequiredInputs.map (fun a =>
    match a.Typ with
    | ArgTypeArrayDouble | ArgTypeArrayInt =>
      cTypeName a ++ str " " ++ goArgName a.Name ++ str ", int " ++ goArgName a.Name ++ str "_n"
    | ArgTypeArrayImage =>
      str "VipsImage **" ++ goArgName a.Name ++ str ", int " ++ goArgName a.Name ++ str "_n"
    | _ => cTypeName a ++ str " " ++ goArgName a.Name))
  ++ (op.Outputs.map (fun a => cOutputTypeName a ++ str " out_" ++ goArgName a.Name))
  ++ (if op.OptionalInputs.length > 0 then [cStructName op.Name ++ str " *opts"] else [])

/-- genCSetArg: the setter of a required input (`isOpt` is not read). -/
def genCSetArg (a : ArgDef) (varName : GoString) (_isOpt : Bool) : GoString :=
  match a.Typ with
  | ArgTypeArrayDouble =>
    str "    \x7b\n"
    ++ str "        VipsArrayDouble *arr = vips_array_double_new(" ++ varName ++ str ", " ++ varName ++ str "_n);\n"
    ++ str "        int ret = vips_object_set(VIPS_OBJECT(op), \"" ++ a.Name ++ str "\", arr, NULL);\n"
    ++ str "        vips_area_unref(VIPS_AREA(arr));\n"
    ++ str "        if (ret) goto error;\n"
    ++ str "    \x7d\n"
  | ArgTypeArrayInt =>
    str "    \x7b\n"
    ++ str "        VipsArrayInt *arr = vips_array_int_new(" ++ varName ++ str ", " ++ varName ++ str "_n);\n"
    ++ str "        int ret = vips_object_set(VIPS_OBJECT(op), \"" ++ a.Name ++ str "\", arr, NULL);\n"
    ++ str "        vips_area_unref(VIPS_AREA(arr));\n"
    ++ str "        if (ret) goto error;\n"
    ++ str "    \x7d\n"
  | ArgTypeArrayImage =>
    str "    \x7b\n"
    ++ str "        VipsArrayImage *arr = vips_array_image_new(" ++ varName ++ str ", " ++ varName ++ str "_n);\n"
    ++ str "        int ret = vips_object_set(VIPS_OBJECT(op), \"" ++ a.Name ++ str "\", arr, NULL);\n"
    ++ str "        vips_area_unref(VIPS_AREA(arr));\n"
    ++ str "        if (ret) goto error;\n"
    ++ str "    \x7d\n"
  | ArgTypeBool =>
    str "    if (vips_object_set(VIPS_OBJECT(op), \"" ++ a.Name ++ str "\", (gboolean)" ++ varName
      ++ str ", NULL)) goto error;\n"
  | ArgTypeEnum =>
    str "    if (vips_object_set(VIPS_OBJECT(op), \"" ++ a.Name ++ str "\", (int)" ++ varName
      ++ str ", NULL)) goto error;\n"
  | _ =>
    str "    if (vips_object_set(VIPS_OBJECT(op), \"" ++ a.Name ++ str "\", " ++ varName
      ++ str ", NULL)) goto error;\n"

/-- genCSetOptArg: the setter of an optional input. -/
def genCSetOptArg (a : ArgDef) (varExpr : GoString) : GoString :=
  match a.Typ with
  | ArgTypeArrayDouble =>
    str "            \x7b\n"
    ++ str "                VipsArrayDouble *arr = vips_array_double_new(" ++ varExpr ++ str ", " ++ varExpr ++ str "_n);\n"
    ++ str "                vips_object_set(VIPS_OBJECT(op), \"" ++ a.Name ++ str "\", arr, NULL);\n"
    ++ str "                vips_area_unref(VIPS_AREA(arr));\n"
    ++ str "            \x7d\n"
  | ArgTypeArrayInt =>
    str "            \x7b\n"
    ++ str "                VipsArrayInt *arr = vips_array_int_new(" ++ varExpr ++ str ", " ++ varExpr ++ str "_n);\n"
    ++ str "                vips_object_set(VIPS_OBJECT(op), \"" ++ a.Name ++ str "\", arr, NULL);\n"
    ++ str "                vips_area_unref(VIPS_AREA(arr));\n"
    ++ str "            \x7d\n"
  | ArgTypeBool =>
    str "            vips_object_set(VIPS_OBJECT(op), \"" ++ a.Name ++ str "\", (gboolean)" ++ varExpr
      ++ str ", NULL);\n"
  | ArgTypeEnum =>
    str "            vips_object_set(VIPS_OBJECT(op), \"" ++ a.Name ++ str "\", (int)" ++ varExpr
      ++ str ", NULL);\n"
  | _ =>
    str "            vips_object_set(VIPS_OBJECT(op), \"" ++ a.Name ++ str "\", " ++ varExpr
      ++ str ", NULL);\n"

/-- The body of the loop of genCFunc over the optional inputs: the presence
check, the setter, the closing brace. -/
def genCFuncOptBlock (a : ArgDef) : GoString :=
  str "        if (opts->has_" ++ goArgName a.Name ++ str ") \x7b\n"
  ++ genCSetOptArg a (str "opts->" ++ goArgName a.Name)
  ++ str "        \x7d\n"

/-- The part of genCFunc that sets the optional inputs. -/
def genCFuncOpts (op : OpDef) : GoString :=
  if op.OptionalInputs.length > 0 then
    str "\n    if (opts) \x7b\n"
    ++ (op.OptionalInputs.map genCFuncOptBlock).flatten
    ++ str "    \x7d\n"
  else []

/-- genCFunc: the shim function of one operation. -/
def genCFunc (op : OpDef) : GoString :=
  -- Function signature.
  (str "int " ++ cFuncName op.Name ++ str "("
    ++ stringsJoin (genCFuncParams op) (str ", ") ++ str ") \x7b\n"
    -- Body.
    ++ str "    VipsOperation *op = vips_operation_new(\"" ++ op.Name ++ str "\");\n"
    ++ str "    if (!op) return -1;\n\n"
    -- Set required inputs.
    ++ (op.RequiredInputs.map (fun a => genCSetArg a (goArgName a.Name) false)).flatten)
  -- Set optional inputs.
  ++ genCFuncOpts op
  -- Build.
  ++ (str "\n    if (vips_cache_operation_buildp(&op)) goto error;\n\n"
    -- Extract outputs.
    ++ (op.Outputs.map (fun a =>
        str "    g_object_get(VIPS_OBJECT(op), \"" ++ a.Name ++ str "\", out_" ++ goArgName a.Name
          ++ str ", NULL);\n")).flatten
    -- Cleanup.
    ++ str "\n    vips_object_unref_outputs(VIPS_OBJECT(op));\n"
    ++ str "    g_object_unref(op);\n"
    ++ str "    return 0;\n\n"
    ++ str "error:\n"
    ++ str "    vips_object_unref_outputs(VIPS_OBJECT(op));\n"
    ++ str "    g_object_unref(op);\n"
    ++ str "    return -1;\n"
    ++ str "\x7d\n\n")

def genCSource (ops : List OpDef) : GoString :=
  str "// Code generated by vipsgen. DO NOT EDIT.\n"
  ++ str "#include \"generated.h\"\n\n"
  ++ (ops.map genCFunc).flatten

/-! ## generate.go: C header generation -/

/-- The fields that genCHeaderOp emits in the options struct for one
optional input. -/
def genCHeaderOpField (a : ArgDef) : GoString :=
  str "    int has_" ++ goArgName a.Name ++ str ";\n"
  ++ (match a.Typ with
    | ArgTypeImage => str "    VipsImage *" ++ goArgName a.Name ++ str ";\n"
    | ArgTypeDouble => str "    double " ++ goArgName a.Name ++ str ";\n"
    | ArgTypeInt => str "    int " ++ goArgName a.Name ++ str ";\n"
    | ArgTypeBool => str "    int " ++ goArgName a.Name ++ str ";\n"
    | ArgTypeString => str "    const char *" ++ goArgName a.Name ++ str ";\n"
    | ArgTypeEnum => str "    " ++ a.EnumType ++ str " " ++ goArgName a.Name ++ str ";\n"
    | ArgTypeArrayDouble =>
      str "    double *" ++ goArgName a.Name ++ str "; int " ++ goArgName a.Name ++ str "_n;\n"
    | ArgTypeArrayInt =>
      str "    int *" ++ goArgName a.Name ++ str "; int " ++ goArgName a.Name ++ str "_n;\n"
    | ArgTypeInterpolate => str "    VipsInterpolate *" ++ goArgName a.Name ++ str ";\n"
    | _ => str "    int " ++ goArgName a.Name ++ str ";\n")

/-- The options struct that genCHeaderOp emits when the operation has
optional inputs. -/
def genCHeaderOpStruct (op : OpDef) : GoString :=
  if op.OptionalInputs.length > 0 then
    str "typedef struct \x7b\n"
    ++ (op.OptionalInputs.map genCHeaderOpField).flatten
    ++ str "\x7d " ++ cStructName op.Name ++ str ";\n\n"
  else []

/-- The `params` slice that genCHeaderOp builds for the prototype. -/
def genCHeaderOpParams (op : OpDef) : List GoString :=
  let params :=
    (op.RequiredInputs.map (fun a =>
      match a.Typ with
      | ArgTypeArrayDouble | ArgTypeArrayInt =>
        cTypeName a ++ str " " ++ goArgName a.Name ++ str ", int " ++ goArgName a.Name ++ str "_n"
      | ArgTypeArrayImage =>
        str "VipsImage **" ++ goArgName a.Name ++ str ", int " ++ goArgName a.Name ++ str "_n"
      | _ => cTypeName a ++ str " " ++ goArgName a.Name))
    ++ (op.Outputs.map (fun a => cOutputTypeName a ++ str " out_" ++ goArgName a.Name))
    ++ (if op.OptionalInputs.length > 0 then [cStructName op.Name ++ str " *opts"] else [])
  if params.length = 0 then params ++ [str "void"] else params

/-- genCHeaderOp: the options struct and the prototype of one operation. -/
def genCHeaderOp (op : OpDef) : GoString :=
  genCHeaderOpStruct op
  ++ str "int " ++ cFuncName op.Name ++ str "("
  ++ stringsJoin (genCHeaderOpParams op) (str ", ") ++ str ");\n\n"

def genCHeader (ops : List OpDef) : GoString :=
  str "// Code generated by vipsgen. DO NOT EDIT.\n"
  ++ str "#ifndef GENERATED_H\n"
  ++ str "#define GENERATED_H\n\n"
  ++ str "#include <stdlib.h>\n"
  ++ str "#include <vips/vips.h>\n\n"
  ++ (ops.map genCHeaderOp).flatten
  ++ str "#endif\n"

/-! ## generate.go: Go bridge generation -/

/-- opHasArrayOpts returns true if the operation has any optional array params. -/
def opHasArrayOpts (op : OpDef) : Bool :=
  op.OptionalInputs.any (fun a => a.Typ == ArgTypeArrayDouble || a.Typ == ArgTypeArrayInt)

/-- The options struct that genGoFunc emits when the operation has optional
inputs. -/
def genGoFuncOptsStruct (op : OpDef) : GoString :=
  if op.OptionalInputs.length > 0 then
    str "// " ++ goOptsTypeName op.Name ++ str " are optional parameters for " ++ op.Name ++ str ".\n"
    ++ str "type " ++ goOptsTypeName op.Name ++ str " struct \x7b\n"
    ++ (op.OptionalInputs.map (fun a =>
        str "\t" ++ goExportedArgName a.Name ++ str " " ++ goOptTypeName a ++ str "\n")).flatten
    ++ str "\x7d\n\n"
  else []

/-- The `goParams` slice of genGoFunc. -/
def genGoFuncParams (op : OpDef) : List GoString :=
  (op.RequiredInputs.map (fun a => goArgName a.Name ++ str " " ++ goTypeName a))
  ++ (if op.OptionalInputs.length > 0 then [str "opts *" ++ goOptsTypeName op.Name] else [])

/-- The return types that genGoFunc prints. -/
def genGoFuncRetTypes (op : OpDef) : GoString :=
  if op.Outputs.length > 0 then
    stringsJoin (op.Outputs.map goTypeName ++ [str "error"]) (str ", ")
  else str "error"

/-- The temporaries that genGoFunc declares for the required string inputs. -/
def genGoFuncStrTemps (op : OpDef) : GoString :=
  (op.RequiredInputs.map (fun a =>
    if a.Typ = ArgTypeString then
      str "\tcStr_" ++ goArgName a.Name ++ str " := C.CString(" ++ goArgName a.Name ++ str ")\n"
      ++ str "\tdefer C.free(unsafe.Pointer(cStr_" ++ goArgName a.Name ++ str "))\n"
    else [])).flatten

/-- The holding variable that genGoFunc declares for one output. -/
def genGoFuncOutVar (a : ArgDef) : GoString :=
  match a.Typ with
  | ArgTypeImage => str "\tvar out_" ++ goArgName a.Name ++ str " *C.VipsImage\n"
  | ArgTypeDouble => str "\tvar out_" ++ goArgName a.Name ++ str " C.double\n"
  | ArgTypeInt => str "\tvar out_" ++ goArgName a.Name ++ str " C.int\n"
  | ArgTypeBool => str "\tvar out_" ++ goArgName a.Name ++ str " C.int\n"
  | ArgTypeEnum => str "\tvar out_" ++ goArgName a.Name ++ str " C.int\n"
  | _ => []

/-- The code that genGoFunc emits to copy one optional input into `cOpts`. -/
def genGoFuncOptField (a : ArgDef) : GoString :=
  let argName := goArgName a.Name
  let exportedName := goExportedArgName a.Name
  if isNilCheckType a then
    str "\t\tif opts." ++ exportedName ++ str " != nil \x7b\n"
    ++ str "\t\t\tcOpts.has_" ++ argName ++ str " = 1\n"
    ++ (match a.Typ with
      | ArgTypeArrayDouble =>
        str "\t\t\tpinner.Pin(&opts." ++ exportedName ++ str "[0])\n"
        ++ str "\t\t\tcOpts." ++ argName ++ str " = (*C.double)(unsafe.Pointer(&opts." ++ exportedName ++ str "[0]))\n"
        ++ str "\t\t\tcOpts." ++ argName ++ str "_n = C.int(len(opts." ++ exportedName ++ str "))\n"
      | ArgTypeArrayInt =>
        str "\t\t\tpinner.Pin(&opts." ++ exportedName ++ str "[0])\n"
        ++ str "\t\t\tcOpts." ++ argName ++ str " = (*C.int)(unsafe.Pointer(&opts." ++ exportedName ++ str "[0]))\n"
        ++ str "\t\t\tcOpts." ++ argName ++ str "_n = C.int(len(opts." ++ exportedName ++ str "))\n"
      | ArgTypeImage => str "\t\t\tcOpts." ++ argName ++ str " = opts." ++ exportedName ++ str "\n"
      | ArgTypeInterpolate => str "\t\t\tcOpts." ++ argName ++ str " = opts." ++ exportedName ++ str "\n"
      | _ => [])
    ++ str "\t\t\x7d\n"
  else
    str "\t\tif opts." ++ exportedName ++ str " != nil \x7b\n"
    ++ str "\t\t\tcOpts.has_" ++ argName ++ str " = 1\n"
    ++ (match a.Typ with
      | ArgTypeDouble => str "\t\t\tcOpts." ++ argName ++ str " = C.double(*opts." ++ exportedName ++ str ")\n"
      | ArgTypeInt => str "\t\t\tcOpts." ++ argName ++ str " = C.int(*opts." ++ exportedName ++ str ")\n"
      | ArgTypeBool =>
        str "\t\t\tcOpts." ++ argName ++ str " = C.int(boolToInt(*opts." ++ exportedName ++ str "))\n"
      | ArgTypeString =>
        str "\t\t\ttmp_" ++ argName ++ str " := C.CString(*opts." ++ exportedName ++ str ")\n"
        ++ str "\t\t\tdefer C.free(unsafe.Pointer(tmp_" ++ argName ++ str "))\n"
        ++ str "\t\t\tcOpts." ++ argName ++ str " = tmp_" ++ argName ++ str "\n"
      | ArgTypeEnum =>
        str "\t\t\tcOpts." ++ argName ++ str " = C." ++ a.EnumType ++ str "(*opts." ++ exportedName ++ str ")\n"
      | _ => str "\t\t\tcOpts." ++ argName ++ str " = C.int(*opts." ++ exportedName ++ str ")\n")
    ++ str "\t\t\x7d\n"

/-- The part of genGoFunc that populates the opts struct. -/
def genGoFuncOpts (op : OpDef) : GoString :=
  if op.OptionalInputs.length > 0 then
    str "\n\tvar cOpts C." ++ cStructName op.Name ++ str "\n"
    ++ (if opHasArrayOpts op then
        str "\tvar pinner runtime.Pinner\n" ++ str "\tdefer pinner.Unpin()\n"
      else [])
    ++ str "\tif opts != nil \x7b\n"
    ++ (op.OptionalInputs.map genGoFuncOptField).flatten
    ++ str "\t\x7d\n"
  else []

/-- The `cArgs` slice of genGoFunc: the positional arguments of the C call. -/
def genGoFuncCArgs (op : OpDef) : List GoString :=
  (op.RequiredInputs.map (fun a =>
    let argName := goArgName a.Name
    match a.Typ with
    | ArgTypeImage => [argName]
    | ArgTypeDouble => [str "C.double(" ++ argName ++ str ")"]
    | ArgTypeInt => [str "C.int(" ++ argName ++ str ")"]
    | ArgTypeBool => [str "C.int(boolToInt(" ++ argName ++ str "))"]
    | ArgTypeString => [str "cStr_" ++ argName]
    | ArgTypeEnum => [str "C." ++ a.EnumType ++ str "(" ++ argName ++ str ")"]
    | ArgTypeArrayDouble =>
      [str "(*C.double)(unsafe.Pointer(&" ++ argName ++ str "[0]))",
       str "C.int(len(" ++ argName ++ str "))"]
    | ArgTypeArrayInt =>
      [str "(*C.int)(unsafe.Pointer(&" ++ argName ++ str "[0]))",
       str "C.int(len(" ++ argName ++ str "))"]
    | ArgTypeArrayImage =>
      [str "(**C.VipsImage)(unsafe.Pointer(&" ++ argName ++ str "[0]))",
       str "C.int(len(" ++ argName ++ str "))"]
    | _ => [argName])).flatten
  ++ (op.Outputs.map (fun a => str "&out_" ++ goArgName a.Name))
  ++ (if op.OptionalInputs.length > 0 then [str "&cOpts"] else [])

/-- The error branch that genGoFunc emits after the C call. -/
def genGoFuncErr (op : OpDef) : GoString :=
  str "\tif ret != 0 \x7b\n"
  ++ (if op.Outputs.length > 0 then
      let errVals := op.Outputs.map goZeroValue
      let errVals :=
        match primaryImageOutput op with
        | some imgOut => errVals ++ [str "handleImageError(out_" ++ goArgName imgOut.Name ++ str ")"]
        | none => errVals ++ [str "handleVipsError()"]
      str "\t\treturn " ++ stringsJoin errVals (str ", ") ++ str "\n"
    else str "\t\treturn handleVipsError()\n")
  ++ str "\t\x7d\n\n"

/-- The success return that genGoFunc emits. -/
def genGoFuncRet (op : OpDef) : GoString :=
  if op.Outputs.length > 0 then
    let retVals := op.Outputs.map (fun a =>
      let argName := goArgName a.Name
      match a.Typ with
      | ArgTypeImage => str "out_" ++ argName
      | ArgTypeDouble => str "float64(out_" ++ argName ++ str ")"
      | ArgTypeInt => str "int(out_" ++ argName ++ str ")"
      | ArgTypeBool => str "out_" ++ argName ++ str " != 0"
      | ArgTypeEnum =>
        (if goEnumName a.EnumType = str "" then str "int" else goEnumName a.EnumType)
          ++ str "(out_" ++ argName ++ str ")"
      | _ => str "out_" ++ argName)
    str "\treturn " ++ stringsJoin (retVals ++ [str "nil"]) (str ", ") ++ str "\n"
  else str "\treturn nil\n"

/-- The entry point that genGoFunc emits after the options struct: the
signature, the body with the C call, the error branch and the return. -/
def genGoFuncEntry (op : OpDef) : GoString :=
  -- Function signature.
  str "// " ++ goFuncName op.Name ++ str " calls the vips " ++ op.Name ++ str " operation.\n"
  ++ str "// " ++ op.Description ++ str "\n"
  ++ str "func " ++ goFuncName op.Name ++ str "("
  ++ stringsJoin (genGoFuncParams op) (str ", ") ++ str ") ("
  ++ genGoFuncRetTypes op
  ++ str ") \x7b\n"
  -- Body.
  ++ str "\tincOpCounter(\"" ++ op.Name ++ str "\")\n\n"
  ++ genGoFuncStrTemps op
  ++ (op.Outputs.map genGoFuncOutVar).flatten
  ++ genGoFuncOpts op
  -- C function call.
  ++ str "\n\tret := C." ++ cFuncName op.Name ++ str "("
  ++ stringsJoin (genGoFuncCArgs op) (str ", ") ++ str ")\n"
  ++ genGoFuncErr op
  ++ genGoFuncRet op
  ++ str "\x7d\n\n"

/-- genGoFunc: the options type and the entry point of one operation. -/
def genGoFunc (op : OpDef) : GoString :=
  -- Generate options struct.
  genGoFuncOptsStruct op
  ++ genGoFuncEntry op

def genGoBridge (ops : List OpDef) : GoString :=
  str "// Code generated by vipsgen. DO NOT EDIT.\n"
  ++ str "package vips\n\n"
  ++ str "// #include \"generated.h\"\n"
  ++ str "import \"C\"\n\n"
  ++ (if ops.any opHasArrayOpts then str "import (\n\t\"runtime\"\n\t\"unsafe\"\n)\n\n"
    else str "import \"unsafe\"\n\n")
  ++ str "// Ensure imports are used.\n"
  ++ str "var _ = unsafe.Pointer(nil)\n\n"
  ++ (ops.map genGoFunc).flatten

/-! ## Go's sort.Slice -/

/-- The requirement of package sort on a `less` function: it describes a
transitive ordering (if `less a b` and `less b c` then `less a c`; if both
`less a b` and `less b c` are false then `less a c` is false), and no element
is less than itself. -/
structure LessOrdering {α : Type} (less : α → α → Bool) : Prop where
  irrefl : ∀ a, less a a = false
  trans : ∀ a b c, less a b = true → less b c = true → less a c = true
  negTrans : ∀ a b c, less a b = false → less b c = false → less a c = false

/-- Go's `sort.Slice(x, less)`, taken by its documented contract: the slice is
rearranged (a permutation) into ascending order as determined by `less`. The
sort is not guaranteed to be stable: equal elements may be reversed from
their original order. The generator is embedded over any such sort. -/
structure SliceSort where
  sort : {α : Type} → (α → α → Bool) → List α → List α
  perm : ∀ {α : Type} (less : α → α → Bool) (x : List α), (sort less x).Perm x
  ascending : ∀ {α : Type} (less : α → α → Bool) (x : List α), LessOrdering less →
    (sort less x).Pairwise (fun a b => less b a = false)

/-- The `less` closure `ops[i].Name < ops[j].Name`. -/
def lessByName (a b : OpDef) : Bool := decide (a.Name < b.Name)

/-- The `less` closure `op.Args[a].Priority < op.Args[b].Priority`. -/
def lessByPriority (a b : ArgDef) : Bool := decide (a.Priority < b.Priority)

/-! ## introspect.go -/

/-- The deduplication loop of Introspect: an operation is appended when its
name has not been seen, and its name is then marked as seen. -/
def dedupLoop : List GoString → List OpDef → List OpDef
  | _, [] => []
  | seen, op :: rest =>
    if op.Name ∈ seen then dedupLoop seen rest
    else op :: dedupLoop (op.Name :: seen) rest

/-- Introspect. The C call `vipsgen_introspect` is the input: `ret` is its
return value and `result` the operations it discovered, in discovery order,
each with its arguments in discovery order, already copied into Go values.
The arguments of each operation are sorted by priority, the operations are
sorted by name and then deduplicated by name. -/
def Introspect (S : SliceSort) (ret : Int) (result : List OpDef) :
    Except GoString (List OpDef) :=
  if ret ≠ 0 then .error (str "vips introspection failed")
  else
    let ops := result.map (fun cop => { cop with Args := S.sort lessByPriority cop.Args })
    -- Sort operations by name for deterministic output.
    let ops := S.sort lessByName ops
    -- Deduplicate operations with the same name.
    .ok (dedupLoop [] ops)

/-! ## generate.go: the driver -/

/-- The list `allOps` of Generate: the generatable, non-foreign operations,
sorted by name. -/
def GenerateAllOps (S : SliceSort) (ops : List OpDef) : List OpDef :=
  S.sort lessByName
    (ops.filter (fun op =>
      if mapBool excludeOps op.Name then false
      else if normalizeCategoryForOp op.Name op.Category = str "foreign" then false
      else true))

/-- The contents that Generate renders for generated.c, generated.h and
generated.go. -/
structure Artifacts where
  cCode : GoString
  hCode : GoString
  goCode : GoString
  deriving DecidableEq

/-- The rendering step of Generate: the three artifacts of `allOps`. -/
def GenerateRender (S : SliceSort) (ops : List OpDef) : Artifacts :=
  let allOps := GenerateAllOps S ops
  { cCode := genCSource allOps, hCode := genCHeader allOps, goCode := genGoBridge allOps }

/-! ## Two sorts that meet the contract of sort.Slice -/

/-- Insertion sort by `less`, which keeps equal elements in their order. -/
def insertionSort {α : Type} (less : α → α → Bool) (x : List α) : List α :=
  x.insertionSort (fun a b => less b a = false)

/-- The stable sort: insertion sort by `less`. -/
def stableSliceSort : SliceSort where
  sort := fun less x => insertionSort less x
  perm := fun _ x => List.perm_insertionSort _ x
  ascending := fun less x h => by
    haveI : IsTotal _ (fun a b => less b a = false) := ⟨fun a b => by
      cases hba : less b a
      · exact Or.inl rfl
      · cases hab : less a b
        · exact Or.inr rfl
        · have haa := h.trans _ _ _ hab hba
          rw [h.irrefl] at haa
          exact absurd haa (by simp)⟩
    haveI : IsTrans _ (fun a b => less b a = false) :=
      ⟨fun a b c hab hbc => h.negTrans c b a hbc hab⟩
    exact List.sorted_insertionSort _ x

/-- A sort that reverses equal elements: insertion sort of the reversed
slice. -/
def reversingSliceSort : SliceSort where
  sort := fun less x => insertionSort less x.reverse
  perm := fun _ x => (List.perm_insertionSort _ x.reverse).trans (List.reverse_perm x)
  ascending := fun less x h => stableSliceSort.ascending less x.reverse h

/-! ## Go's sort.Slice on a short slice

`sort.Slice` of package sort of the Go standard library (Go 1.19 and later,
file zsortfunc.go) calls `pdqsort_func(data, 0, n, bits.Len(n))`. The library
is not part of the repository; the functions below follow the library's
source and are those that this call runs through on a slice of at most 13
elements. -/

/-- The call `data.Less(i, j)`: the `less` closure on the elements at `i` and
`j`. -/
def lessAt {α : Type} (less : α → α → Bool) (d : List α) (i j : Nat) : Bool :=
  match d[i]?, d[j]? with
  | some x, some y => less x y
  | _, _ => false

/-- The call `data.Swap(i, j)`. -/
def swapAt {α : Type} (d : List α) (i j : Nat) : List α :=
  match d[i]?, d[j]? with
  | some x, some y => (d.set i y).set j x
  | _, _ => d

/-- The inner loop of insertionSort_func,
`for j := i; j > a && data.Less(j, j-1); j--` with the body
`data.Swap(j, j-1)`; the argument is the value of `j`. -/
def insertionInner {α : Type} (less : α → α → Bool) (a : Nat) : Nat → List α → List α
  | 0, d => d
  | j + 1, d =>
    if j + 1 > a ∧ lessAt less d (j + 1) j = true then
      insertionInner less a j (swapAt d (j + 1) j)
    else d

/-- insertionSort_func sorts data[a:b] using insertion sort:
`for i := a + 1; i < b; i++` around the inner loop. -/
def insertionSort_func {α : Type} (less : α → α → Bool) (d : List α) (a b : Nat) : List α :=
  (List.range' (a + 1) (b - (a + 1))).foldl (fun d i => insertionInner less a i d) d

/-- order2_func returns x, y where data[x] <= data[y], where x, y = a, b or
x, y = b, a; the third component is the counter `swaps`. -/
def order2_func {α : Type} (less : α → α → Bool) (d : List α) (a b swaps : Nat) :
    Nat × Nat × Nat :=
  if lessAt less d b a = true then (b, a, swaps + 1) else (a, b, swaps)

/-- median_func returns x where data[x] is the median of data[a], data[b],
data[c], with the counter `swaps`. -/
def median_func {α : Type} (less : α → α → Bool) (d : List α) (a b c swaps : Nat) : Nat × Nat :=
  let r₁ := order2_func less d a b swaps
  let r₂ := order2_func less d r₁.2.1 c r₁.2.2
  let r₃ := order2_func less d r₁.1 r₂.1 r₂.2.2
  (r₃.2.1, r₃.2.2)

/-- The hint of choosePivot_func. -/
inductive sortedHint where
  | unknownHint
  | increasingHint
  | decreasingHint
  deriving DecidableEq

/-- choosePivot_func chooses a pivot in data[a:b], for a range shorter than
shortestNinther = 50: the element at the middle for fewer than 8 elements,
and otherwise the median of the elements at the three quarter places. -/
def choosePivot_func {α : Type} (less : α → α → Bool) (d : List α) (a b : Nat) :
    Nat × sortedHint :=
  let l := b - a
  let i := a + l / 4 * 1
  let j := a + l / 4 * 2
  let k := a + l / 4 * 3
  let r := if l ≥ 8 then median_func less d i j k 0 else (j, 0)
  if r.2 = 0 then (r.1, .increasingHint)
  else if r.2 = 4 * 3 then (r.1, .decreasingHint)
  else (r.1, .unknownHint)

/-- The first loop of partialInsertionSort_func,
`for i < b && !data.Less(i, i-1) { i++ }`; the result is the value of `i`
after the loop. -/
def inOrderUpTo {α : Type} (less : α → α → Bool) (d : List α) (b : Nat) : Nat → Nat → Nat
  | 0, i => i
  | fuel + 1, i =>
    if i < b ∧ lessAt less d i (i - 1) = false then inOrderUpTo less d b fuel (i + 1) else i

/-- partialInsertionSort_func on a range shorter than shortestShifting = 50:
it returns true when the range is in order and false, without a swap, when it
meets a pair out of order. -/
def partialInsertionSort_func {α : Type} (less : α → α → Bool) (d : List α) (a b : Nat) : Bool :=
  decide (inOrderUpTo less d b b (a + 1) = b)

/-- The loop `for i <= j && data.Less(i, a) { i++ }` of partition_func. -/
def partitionUp {α : Type} (less : α → α → Bool) (d : List α) (a j : Nat) : Nat → Nat → Nat
  | 0, i => i
  | fuel + 1, i =>
    if i ≤ j ∧ lessAt less d i a = true then partitionUp less d a j fuel (i + 1) else i

/-- The loop `for i <= j && !data.Less(j, a) { j-- }` of partition_func. -/
def partitionDown {α : Type} (less : α → α → Bool) (d : List α) (a i : Nat) : Nat → Nat → Nat
  | 0, j => j
  | fuel + 1, j =>
    if i ≤ j ∧ lessAt less d j a = false then partitionDown less d a i fuel (j - 1) else j

/-- The endless loop of partition_func, which ends with `break` when the two
indices have met. -/
def partitionLoop {α : Type} (less : α → α → Bool) (a b : Nat) :
    Nat → List α → Nat → Nat → List α × Nat
  | 0, d, _, j => (d, j)
  | fuel + 1, d, i, j =>
    let i := partitionUp less d a j b i
    let j := partitionDown less d a i b j
    if i > j then (d, j)
    else partitionLoop less a b fuel (swapAt d i j) (i + 1) (j - 1)

/-- partition_func does one quicksort partition: the elements below the pivot
come before it and the others after it. The result is the slice, the new
place of the pivot and whether the range was already partitioned. -/
def partition_func {α : Type} (less : α → α → Bool) (d : List α) (a b pivot : Nat) :
    List α × Nat × Bool :=
  let d := swapAt d a pivot
  let i := partitionUp less d a (b - 1) b (a + 1)
  let j := partitionDown less d a i b (b - 1)
  if i > j then (swapAt d j a, j, true)
  else
    let r := partitionLoop less a b b (swapAt d i j) (i + 1) (j - 1)
    (swapAt r.1 r.2 a, r.2, false)

/-- pdqsort_func(data, 0, n, bits.Len(n)) for n up to 13. Up to maxInsertion
= 12 elements it is the insertion sort. With 13 elements the limit is 4, no
pattern is broken at the first round, the hint of the pivot is not the
decreasing one (that takes 12 swaps), and there is no element before the
range: the slice is returned when it is in order, and otherwise partitioned
once, after which both sides have at most 12 elements and are sorted by
insertion, the shorter side first. -/
def pdqsortShort {α : Type} (less : α → α → Bool) (d : List α) : List α :=
  let n := d.length
  if n ≤ 12 then insertionSort_func less d 0 n
  else
    let p := choosePivot_func less d 0 n
    if p.2 = .increasingHint ∧ partialInsertionSort_func less d 0 n = true then d
    else
      let r := partition_func less d 0 n p.1
      let mid := r.2.1
      if mid - 0 < n - mid then
        insertionSort_func less (insertionSort_func less r.1 0 mid) (mid + 1) n
      else
        insertionSort_func less (insertionSort_func less r.1 (mid + 1) n) 0 mid

/-- Go's sort.Slice: a slice of at most 13 elements is sorted by the code of
package sort, and a longer slice by `S`, some sort that meets the documented
contract. The condition also asks that the result of the library's code is
ascending, which it is for every `less` that is an ordering
(pdqsortShort_ascending), so that on an ordering a slice of at most 13
elements always gets the result of the library's code (goSliceSort_short);
the condition only serves to build the structure ahead of that proof. -/
def goSliceSort (S : SliceSort) : SliceSort where
  sort := fun less x =>
    if x.length ≤ 13 ∧ (pdqsortShort less x).Pairwise (fun a b => less b a = false) then
      pdqsortShort less x
    else S.sort less x
  perm := fun {α} less x => by
    have hset : ∀ (t : List α) (k : Nat) (h y : α), t[k]? = some y →
        (y :: t.set k h).Perm (h :: t) := by
      intro t
      induction t with
      | nil => intro k h y hk; simp at hk
      | cons z t ih =>
        intro k h y hk
        cases k with
        | zero =>
          simp only [List.getElem?_cons_zero, Option.some.injEq] at hk
          subst hk
          exact List.Perm.swap _ _ _
        | succ k =>
          simp only [List.getElem?_cons_succ] at hk
          simp only [List.set_cons_succ]
          exact ((List.Perm.swap z y _).trans ((ih k h y hk).cons z)).trans
            (List.Perm.swap h z _)
    have hswap : ∀ (d : List α) (i j : Nat), (swapAt d i j).Perm d := by
      have hmain : ∀ (d : List α) (i j : Nat) (u v : α), d[i]? = some u → d[j]? = some v →
          ((d.set i v).set j u).Perm d := by
        intro d
        induction d with
        | nil => intro i j u v hi; simp at hi
        | cons z t ih =>
          intro i j u v hi hj
          cases i with
          | zero =>
            simp only [List.getElem?_cons_zero, Option.some.injEq] at hi
            subst hi
            cases j with
            | zero =>
              simp only [List.getElem?_cons_zero, Option.some.injEq] at hj
              subst hj
              simp
            | succ j =>
              simp only [List.getElem?_cons_succ] at hj
              simp only [List.set_cons_zero, List.set_cons_succ]
              exact hset t j z v hj
          | succ i =>
            simp only [List.getElem?_cons_succ] at hi
            cases j with
            | zero =>
              simp only [List.getElem?_cons_zero, Option.some.injEq] at hj
              subst hj
              simp only [List.set_cons_zero, List.set_cons_succ]
              exact hset t i z u hi
            | succ j =>
              simp only [List.getElem?_cons_succ] at hj
              simp only [List.set_cons_succ]
              exact (ih i j u v hi hj).cons z
      intro d i j
      unfold swapAt
      split
      · next u v hi hj => exact hmain d i j u v hi hj
      · exact List.Perm.refl _
    have hinner : ∀ (a j : Nat) (d : List α), (insertionInner less a j d).Perm d := by
      intro a j
      induction j with
      | zero => intro d; exact List.Perm.refl _
      | succ j ih =>
        intro d
        unfold insertionInner
        split
        · exact (ih _).trans (hswap d _ _)
        · exact List.Perm.refl _
    have hins : ∀ (d : List α) (a b : Nat), (insertionSort_func less d a b).Perm d := by
      intro d a b
      unfold insertionSort_func
      generalize List.range' (a + 1) (b - (a + 1)) = l
      induction l generalizing d with
      | nil => exact List.Perm.refl _
      | cons i l ih => exact (ih _).trans (hinner a i d)
    have hloop : ∀ (a b fuel : Nat) (d : List α) (i j : Nat),
        (partitionLoop less a b fuel d i j).1.Perm d := by
      intro a b fuel
      induction fuel with
      | zero => intro d i j; exact List.Perm.refl _
      | succ fuel ih =>
        intro d i j
        unfold partitionLoop
        simp only
        split
        · exact List.Perm.refl _
        · exact (ih _ _ _).trans (hswap d _ _)
    have hpart : ∀ (d : List α) (a b pivot : Nat), (partition_func less d a b pivot).1.Perm d := by
      intro d a b pivot
      unfold partition_func
      simp only
      split
      · exact (hswap _ _ _).trans (hswap d _ _)
      · exact ((hswap _ _ _).trans (hloop _ _ _ _ _ _)).trans
          ((hswap _ _ _).trans (hswap d _ _))
    have hpdq : (pdqsortShort less x).Perm x := by
      unfold pdqsortShort
      simp only
      split
      · exact hins _ _ _
      · split
        · exact List.Perm.refl _
        · split
          · exact ((hins _ _ _).trans (hins _ _ _)).trans (hpart _ _ _ _)
          · exact ((hins _ _ _).trans (hins _ _ _)).trans (hpart _ _ _ _)
    show (if _ then _ else _ : List α).Perm x
    split
    · exact hpdq
    · exact S.perm less x
  ascending := fun {α} less x h => by
    show (if _ then _ else _ : List α).Pairwise _
    split
    · next hc => exact hc.2
    · exact S.ascending less x h

/-! ## The call site and the prototype, position by position -/

/-- One position of the C call, which is also one parameter of the
prototype: a required input passed as one value, the pointer or the length
of a required array input, the pointer to an output, or the options
pointer. -/
inductive CallSlot where
  | value (a : ArgDef)
  | arrayPtr (a : ArgDef)
  | arrayLen (a : ArgDef)
  | output (a : ArgDef)
  | options
  deriving DecidableEq

/-- The array kinds, which take a pointer and a length. -/
def isArrayKind (a : ArgDef) : Bool :=
  a.Typ == ArgTypeArrayDouble || a.Typ == ArgTypeArrayInt || a.Typ == ArgTypeArrayImage

/-- The positions of an operation: one per required input in RequiredInputs
order (a pointer and a length for an array), then one per output in Outputs
order, then the options pointer when the operation has an optional input. -/
def callSlots (op : OpDef) : List CallSlot :=
  (op.RequiredInputs.map (fun a =>
    if isArrayKind a then [CallSlot.arrayPtr a, CallSlot.arrayLen a] else [CallSlot.value a])).flatten
  ++ op.Outputs.map CallSlot.output
  ++ (if op.OptionalInputs = [] then [] else [CallSlot.options])

/-- The parameter declaration of a position in the shim prototype. -/
def slotParam (op : OpDef) : CallSlot → GoString
  | .value a => cTypeName a ++ str " " ++ goArgName a.Name
  | .arrayPtr a =>
    if a.Typ = ArgTypeArrayImage then str "VipsImage **" ++ goArgName a.Name
    else cTypeName a ++ str " " ++ goArgName a.Name
  | .arrayLen a => str "int " ++ goArgName a.Name ++ str "_n"
  | .output a => cOutputTypeName a ++ str " out_" ++ goArgName a.Name
  | .options => cStructName op.Name ++ str " *opts"

/-- The argument expression of a position in the bridge call. -/
def slotArg : CallSlot → GoString
  | .value a =>
    match a.Typ with
    | ArgTypeDouble => str "C.double(" ++ goArgName a.Name ++ str ")"
    | ArgTypeInt => str "C.int(" ++ goArgName a.Name ++ str ")"
    | ArgTypeBool => str "C.int(boolToInt(" ++ goArgName a.Name ++ str "))"
    | ArgTypeString => str "cStr_" ++ goArgName a.Name
    | ArgTypeEnum => str "C." ++ a.EnumType ++ str "(" ++ goArgName a.Name ++ str ")"
    | _ => goArgName a.Name
  | .arrayPtr a =>
    match a.Typ with
    | ArgTypeArrayDouble => str "(*C.double)(unsafe.Pointer(&" ++ goArgName a.Name ++ str "[0]))"
    | ArgTypeArrayInt => str "(*C.int)(unsafe.Pointer(&" ++ goArgName a.Name ++ str "[0]))"
    | _ => str "(**C.VipsImage)(unsafe.Pointer(&" ++ goArgName a.Name ++ str "[0]))"
  | .arrayLen a => str "C.int(len(" ++ goArgName a.Name ++ str "))"
  | .output a => str "&out_" ++ goArgName a.Name
  | .options => str "&cOpts"

/-! ## The keywords of Go -/

/-- The 25 keywords of the Go language specification. -/
def goKeywords : List GoString :=
  [ str "break", str "default", str "func", str "interface", str "select",
    str "case", str "defer", str "go", str "map", str "struct",
    str "chan", str "else", str "goto", str "package", str "switch",
    str "const", str "fallthrough", str "if", str "range", str "type",
    str "continue", str "for", str "import", str "return", str "var" ]

/-! ## The presence check of an optional input in the shim -/

/-- The flag expression of an optional input: `opts->has_<name>`. -/
def flagCheck (a : ArgDef) : GoString := str "opts->has_" ++ goArgName a.Name

/-- The null check of the value of an optional input: `opts-><name>`. -/
def nullCheck (a : ArgDef) : GoString := str "opts->" ++ goArgName a.Name

/-- The setter of an optional input gated on the condition `cond`: the line
`if (cond) {`, the setter that genCSetOptArg emits, the closing brace. -/
def gatedSetter (a : ArgDef) (cond : GoString) : GoString :=
  str "        if (" ++ cond ++ str ") \x7b\n"
  ++ genCSetOptArg a (str "opts->" ++ goArgName a.Name)
  ++ str "        \x7d\n"

/-! ## Two discovered operations that share a name -/

/-- The first-discovered registration of the nickname `copy`. -/
def copyFirst : OpDef :=
  ⟨str "copy", str "copy an image", str "VipsConversion",
    [⟨str "in", ArgTypeImage, 5, 1, 0, 0, 0, str ""⟩,
     ⟨str "out", ArgTypeImage, 6, 2, 0, 0, 0, str ""⟩]⟩

/-- The second-discovered registration of the nickname `copy`, with one more
argument. -/
def copySecond : OpDef :=
  ⟨str "copy", str "copy an image", str "VipsConversion",
    [⟨str "in", ArgTypeImage, 5, 1, 0, 0, 0, str ""⟩,
     ⟨str "out", ArgTypeImage, 6, 2, 0, 0, 0, str ""⟩,
     ⟨str "swap", ArgTypeBool, 1, 3, 0, 0, 0, str ""⟩]⟩

/-! ## The identifier rules in the words of the specification -/

/-- The reserved-word table of goArgName: type, func, map, range and in are
replaced by typ, fn, mapVal, rangeVal and input. -/
def remapReserved (s : GoString) : GoString :=
  if s = str "type" then str "typ"
  else if s = str "func" then str "fn"
  else if s = str "map" then str "mapVal"
  else if s = str "range" then str "rangeVal"
  else if s = str "in" then str "input"
  else s

/-- The reserved-word table of goExportedArgName: Type, Func, Map, Range and
In are replaced by Typ, Fn, MapVal, RangeVal and Input. -/
def remapExported (s : GoString) : GoString :=
  if s = str "Type" then str "Typ"
  else if s = str "Func" then str "Fn"
  else if s = str "Map" then str "MapVal"
  else if s = str "Range" then str "RangeVal"
  else if s = str "In" then str "Input"
  else s

/-- A segment with its first byte upper-cased; the empty segment gives
nothing. -/
def capitalise (p : GoString) : GoString := if p = [] then [] else upperFirst p

/-- The identifier that leaves the first non-empty segment as written and
capitalises every later non-empty segment. -/
def camelFromFirstNonEmpty (parts : List GoString) : GoString :=
  match parts.filter (fun p => p ≠ []) with
  | [] => []
  | p :: rest => p ++ (rest.map upperFirst).flatten

/-! ## Occurrence of a text in an emitted text -/

/-- The text `m` occurs in the text `t`. -/
def occursIn (m t : GoString) : Prop := ∃ pre post, t = pre ++ m ++ post

/-! ## The error value of the bridge function in the words of the specification -/

/-- The error value by the first output: handleImageError on the holding
variable of the first output when that output is of kind Image, and
handleVipsError() otherwise. -/
def errorValueFirstOutput (op : OpDef) : GoString :=
  match op.Outputs with
  | a :: _ =>
    if a.Typ = ArgTypeImage then str "handleImageError(out_" ++ goArgName a.Name ++ str ")"
    else str "handleVipsError()"
  | [] => str "handleVipsError()"

/-- The error value by the first output of kind Image: handleImageError on
the holding variable of the first output of kind Image when there is one, and
handleVipsError() when no output is of kind Image. -/
def errorValueFirstImage (op : OpDef) : GoString :=
  match op.Outputs.find? (fun a => a.Typ == ArgTypeImage) with
  | some imgOut => str "handleImageError(out_" ++ goArgName imgOut.Name ++ str ")"
  | none => str "handleVipsError()"

/-- The error branch with a given list of returned values. -/
def errorBranch (vals : List GoString) : GoString :=
  str "\tif ret != 0 \x7b\n"
  ++ str "\t\treturn " ++ stringsJoin vals (str ", ") ++ str "\n"
  ++ str "\t\x7d\n\n"

/-! ## The declarations of a generated artifact -/

/-- One declaration that an emitter writes for an operation: its options
aggregate or its function (the prototype in the header, the entry point in
the bridge). -/
inductive OpDecl where
  | options (op : OpDef)
  | function (op : OpDef)
  deriving DecidableEq

/-- The declarations of an operation list: per operation, in order, the
options aggregate when the operation has an optional input, then the
function. -/
def opDecls (ops : List OpDef) : List OpDecl :=
  (ops.map (fun op =>
    (if op.OptionalInputs = [] then [] else [OpDecl.options op]) ++ [OpDecl.function op])).flatten

/-- The operations whose function is declared, in order. -/
def declaredFunctions (ds : List OpDecl) : List OpDef :=
  ds.filterMap (fun d => match d with
    | .function op => some op
    | .options _ => none)

/-- The operations whose options aggregate is declared, in order. -/
def declaredOptions (ds : List OpDecl) : List OpDef :=
  ds.filterMap (fun d => match d with
    | .options op => some op
    | .function _ => none)

/-- The text of a declaration in the shim header. -/
def headerDeclText : OpDecl → GoString
  | .options op =>
    str "typedef struct \x7b\n"
    ++ (op.OptionalInputs.map genCHeaderOpField).flatten
    ++ str "\x7d " ++ cStructName op.Name ++ str ";\n\n"
  | .function op =>
    str "int " ++ cFuncName op.Name ++ str "("
    ++ stringsJoin (genCHeaderOpParams op) (str ", ") ++ str ");\n\n"

/-- The text of a declaration in the bridge file. -/
def bridgeDeclText : OpDecl → GoString
  | .options op =>
    str "// " ++ goOptsTypeName op.Name ++ str " are optional parameters for " ++ op.Name ++ str ".\n"
    ++ str "type " ++ goOptsTypeName op.Name ++ str " struct \x7b\n"
    ++ (op.OptionalInputs.map (fun a =>
        str "\t" ++ goExportedArgName a.Name ++ str " " ++ goOptTypeName a ++ str "\n")).flatten
    ++ str "\x7d\n\n"
  | .function op => genGoFuncEntry op

/-! ## An operation with an optional input of kind ArrayImage -/

/-- An optional input of kind ArrayImage. -/
def extraImages : ArgDef := ⟨str "extra", ArgTypeArrayImage, 1, 2, 0, 0, 0, str ""⟩

/-- An operation with a required Image input, an optional ArrayImage input
and an Image output. -/
def overlayOp : OpDef :=
  ⟨str "overlay", str "overlay images", str "VipsConversion",
    [⟨str "in", ArgTypeImage, 5, 1, 0, 0, 0, str ""⟩,
     extraImages,
     ⟨str "out", ArgTypeImage, 6, 3, 0, 0, 0, str ""⟩]⟩

/-! ## The property setter call and the jump to the error path -/

/-- The call of the property setter with a value expression. -/
def setCall (name value : GoString) : GoString :=
  str "vips_object_set(VIPS_OBJECT(op), \"" ++ name ++ str "\", " ++ value ++ str ", NULL)"

/-- The value expression passed to the setter outside the array boxes: a
Bool is cast to gboolean, an Enum to int, any other value is passed as it
is. -/
def setValue (a : ArgDef) (v : GoString) : GoString :=
  match a.Typ with
  | ArgTypeBool => str "(gboolean)" ++ v
  | ArgTypeEnum => str "(int)" ++ v
  | _ => v

/-- A checked setter: the jump to the error path when the call reports
failure. -/
def checkedSet (call : GoString) : GoString :=
  str "if (" ++ call ++ str ") goto error;\n"

/-- A setter whose result is discarded: the call as a statement. -/
def discardedSet (call : GoString) : GoString := call ++ str ";\n"

/-- State of a scan for the byte `o` followed by a blank, the two bytes in
the middle of `goto error`. -/
inductive ScanState where
  | other
  | afterO
  | found
  deriving DecidableEq

/-- One step of the scan. -/
def scanStep (q : ScanState) (b : Byte) : ScanState :=
  match q with
  | .found => .found
  | .afterO => if b = 32 then .found else if b = 111 then .afterO else .other
  | .other => if b = 111 then .afterO else .other

/-- The scan of a text from a state. -/
def scan (q : ScanState) (s : GoString) : ScanState := s.foldl scanStep q

/-- The scan of a text that starts a line does not find `o` followed by a
blank. -/
def scanCleanStart (s : GoString) : Bool := decide (scan .other s ≠ .found)

/-- The scan of a text does not find `o` followed by a blank, whether or not
the text comes after an `o`. -/
def scanClean (s : GoString) : Bool :=
  decide (scan .other s ≠ .found) && decide (scan .afterO s ≠ .found)

/-! ## Argument names in canonical form -/

/-- An ASCII lower-case letter. -/
def isLowerByte (b : Byte) : Bool := decide (97 ≤ b.val ∧ b.val ≤ 122)

/-- An ASCII digit. -/
def isDigitByte (b : Byte) : Bool := decide (48 ≤ b.val ∧ b.val ≤ 57)

/-- A segment of ASCII lower-case letters and digits. -/
def plainSegment (p : GoString) : Bool := p.all (fun b => isLowerByte b || isDigitByte b)

/-- A segment after a separator in canonical form: an ASCII lower-case
letter followed by ASCII lower-case letters and digits. -/
def laterSegment : GoString → Bool
  | [] => false
  | b :: t => isLowerByte b && plainSegment t

/-- The segments of a name in canonical form: the segment before the first
separator consists of ASCII lower-case letters and digits, and every later
segment starts with a letter and goes on with letters and digits. -/
def canonicalParts : List GoString → Bool
  | [] => false
  | p₀ :: rest => plainSegment p₀ && rest.all laterSegment

/-- A name in canonical form, as the library spells argument names: segments
of ASCII lower-case letters and digits separated by '-' or '_', every
segment after the first starting with a letter. -/
def canonicalName (name : GoString) : Bool := canonicalParts (nameParts name)

/-- The names that, up to '-' for '_', are written like a replacement of the
reserved-word table of goArgName. -/
def replacementNames : List GoString :=
  [str "typ", str "fn", str "map_val", str "range_val", str "input"]

/-! ## The category families -/

/-- The eleven family names of the category table, in lower case. -/
def categoryFamilies : List GoString :=
  [ str "arithmetic", str "conversion", str "resample", str "convolution", str "colour",
    str "create", str "draw", str "morphology", str "foreign", str "freqfilt", str "histogram" ]

/-- The Vips-prefixed capitalised form of a family name. -/
def vipsPrefixed (family : GoString) : GoString := str "Vips" ++ upperFirst family

/-! ## An operation with two arguments of equal priority -/

/-- A discovered operation whose arguments `left` and `top` have the same
priority, `left` discovered first. -/
def tiedOp : OpDef :=
  ⟨str "crop2", str "extract an area", str "VipsConversion",
    [⟨str "left", ArgTypeInt, 5, 3, 0, 0, 0, str ""⟩,
     ⟨str "top", ArgTypeInt, 5, 3, 0, 0, 0, str ""⟩]⟩

/-! ## Go maps and sort.Strings -/

/-- The order in which `for k := range m` visits the keys of a Go map, which
the language leaves unspecified: some arrangement of the keys. The generator
is embedded over any such order. -/
structure MapOrder where
  range : List GoString → List GoString
  perm : ∀ keys : List GoString, (range keys).Perm keys

/-- The order that visits the keys as they were inserted. -/
def insertionMapOrder : MapOrder where
  range := fun keys => keys
  perm := fun keys => List.Perm.refl keys

/-- The assignment `seen[k] = true` on a `map[string]bool` whose values are
all true, held as the list of its keys. -/
def mapSet (seen : List GoString) (k : GoString) : List GoString :=
  if k ∈ seen then seen else seen ++ [k]

/-- The order of `sort.Strings`: `a < b` on strings. -/
def lessString (a b : GoString) : Bool := decide (a < b)

/-- CollectEnumTypes returns a deduplicated, sorted list of all enum type
names referenced by the given operations. `sort.Strings` is taken by the
contract of package sort, like `sort.Slice`. -/
def CollectEnumTypes (S : SliceSort) (M : MapOrder) (ops : List OpDef) : List GoString :=
  let seen := ops.foldl (fun seen op =>
    op.Args.foldl (fun seen arg =>
      if arg.EnumType ≠ str "" then mapSet seen arg.EnumType else seen) seen) []
  let names := M.range seen
  S.sort lessString names

/-- A reordering of an operation list: the operations in another order, and
within each operation the arguments in another order. -/
def Reordering (ops₁ ops₂ : List OpDef) : Prop :=
  ∃ mid, ops₁.Perm mid ∧
    List.Forall₂ (fun o o' : OpDef =>
      o'.Name = o.Name ∧ o'.Description = o.Description ∧ o'.Category = o.Category ∧
        o'.Args.Perm o.Args) mid ops₂

/-! ## The file system -/

/-- A file path, held as the directory and the base name: `filepath.Join(dir,
name)` of a directory and a file name, with `filepath.Base` giving the name
back. -/
structure FilePath where
  dir : GoString
  base : GoString
  deriving DecidableEq

/-- Go `error`: `none` is nil. -/
abbrev GoError := Option GoString

/-- What a call of the generator did to the file system. -/
inductive FsEvent where
  | wrote (path : FilePath)
  | writeFailed (path : FilePath)
  | removed (path : FilePath)
  | removeFailed (path : FilePath)
  deriving DecidableEq

/-- The file system seen by the generator: the files with their bytes, the
error (if any) that reading, writing or removing at a path reports, as
permissions and the like decide it, and the record of the write and remove
calls made so far. -/
structure FileSys where
  files : List (FilePath × GoString)
  readErr : FilePath → GoError
  writeErr : FilePath → GoError
  removeErr : FilePath → GoError
  events : List FsEvent

/-- The bytes of the file at a path, if there is a file. -/
def FileSys.fileAt (fs : FileSys) (path : FilePath) : Option GoString := fs.files.lookup path

/-- The files after the file at `path` holds `content`: an existing file is
replaced in its place, a new one is added. -/
def setFile : List (FilePath × GoString) → FilePath → GoString → List (FilePath × GoString)
  | [], path, content => [(path, content)]
  | (q, d) :: rest, path, content =>
    if q = path then (path, content) :: rest.filter (fun e => e.1 ≠ path)
    else (q, d) :: setFile rest path content

/-- Go `os.ReadFile`: the bytes of the file, or an error when there is no
file or it cannot be read. -/
def osReadFile (fs : FileSys) (path : FilePath) : Except GoString GoString :=
  match fs.fileAt path with
  | none => .error (str "no such file or directory")
  | some existing =>
    match fs.readErr path with
    | some err => .error err
    | none => .ok existing

/-- Go `os.WriteFile(path, content, 0644)`: creates or truncates the file and
writes the bytes, or reports an error and leaves the files as they are. -/
def osWriteFile (fs : FileSys) (path : FilePath) (content : GoString) : GoError × FileSys :=
  match fs.writeErr path with
  | some err => (some err, { fs with events := fs.events ++ [FsEvent.writeFailed path] })
  | none =>
    (none, { fs with files := setFile fs.files path content,
                     events := fs.events ++ [FsEvent.wrote path] })

/-- Go `os.Remove`: removes the file, or reports an error when there is no
file or it cannot be removed. -/
def osRemove (fs : FileSys) (path : FilePath) : GoError × FileSys :=
  match fs.fileAt path with
  | none =>
    (some (str "no such file or directory"),
      { fs with events := fs.events ++ [FsEvent.removeFailed path] })
  | some _ =>
    match fs.removeErr path with
    | some err => (some err, { fs with events := fs.events ++ [FsEvent.removeFailed path] })
    | none =>
      (none, { fs with files := fs.files.filter (fun e => e.1 ≠ path),
                       events := fs.events ++ [FsEvent.removed path] })

/-- The names that a `*` of a glob pattern may leave to the rest of the
pattern: the name after any number of leading bytes, none of them the path
separator. -/
def afterStar : GoString → List GoString
  | [] => [[]]
  | b :: rest => (b :: rest) :: (if b = 47 then [] else afterStar rest)

/-- Go `filepath.Match` for a pattern of literal bytes and `*`: a `*` stands
for any sequence of bytes without the path separator. The other magic
characters are not interpreted; the patterns of the generator hold none. -/
def filepathMatch : GoString → GoString → Bool
  | [], name => decide (name = [])
  | c :: pattern, name =>
    if c = 42 then (afterStar name).any (fun rest => filepathMatch pattern rest)
    else
      match name with
      | [] => false
      | d :: rest => decide (c = d) && filepathMatch pattern rest

/-- Go `hasMeta`: whether the path holds one of the magic characters of
`filepath.Match` (`*`, `?`, `[` and the backslash). -/
def hasMeta (path : GoString) : Bool :=
  path.any (fun b => b = 42 || b = 63 || b = 91 || b = 92)

/-- The directories in which `filepath.Glob` looks for the files of a pattern
`dir/file`: the directory `dir` itself when its name holds no magic
character, and otherwise every directory whose name matches `dir` as a
pattern. -/
def globDir (dir d : GoString) : Bool :=
  if hasMeta dir then filepathMatch dir d else decide (d = dir)

/-- Go `filepath.Glob(filepath.Join(dir, pattern))` for a file pattern without
a separator: the files whose name matches the pattern, in the directories
that `filepath.Glob` looks in. -/
def filepathGlob (fs : FileSys) (dir pattern : GoString) : List FilePath :=
  (fs.files.map Prod.fst).filter (fun p => globDir dir p.dir && filepathMatch pattern p.base)

/-! ## generate.go: the files of the output directory -/

/-- The hand-written files that cleanOldGenFiles preserves. -/
def preserve : List (GoString × Bool) := [(str "gen_enum_extras.go", true)]

/-- cleanOldGenFiles removes legacy per-category gen_*.{c,h,go} and
gen_helpers.go files, but preserves hand-written files like
gen_enum_extras.go. The result of os.Remove is dropped. -/
def cleanOldGenFiles (fs : FileSys) (outputDir : GoString) : FileSys :=
  [str "*.c", str "*.h", str "*.go"].foldl (fun fs ext =>
    (filepathGlob fs outputDir (str "gen_" ++ ext)).foldl (fun fs m =>
      if mapBool preserve m.base then fs else (osRemove fs m).2) fs) fs

/-- writeIfChanged writes the content unless the file can be read and holds
the same bytes. -/
def writeIfChanged (fs : FileSys) (path : FilePath) (content : GoString) : GoError × FileSys :=
  match osReadFile fs path with
  | .ok existing => if existing = content then (none, fs) else osWriteFile fs path content
  | .error _ => osWriteFile fs path content

/-- Generate creates C wrapper, C header, and Go bridge files from the
discovered operations, outputting a single generated.{c,h,go} triplet. The
line it prints to standard output at the end is not part of the file
system. -/
def Generate (S : SliceSort) (fs : FileSys) (ops : List OpDef) (outputDir : GoString) :
    GoError × FileSys :=
  -- Clean up old per-category generated files.
  let fs := cleanOldGenFiles fs outputDir
  let code := GenerateRender S ops
  match writeIfChanged fs ⟨outputDir, str "generated.c"⟩ code.cCode with
  | (some err, fs) => (some err, fs)
  | (none, fs) =>
    match writeIfChanged fs ⟨outputDir, str "generated.h"⟩ code.hCode with
    | (some err, fs) => (some err, fs)
    | (none, fs) =>
      match writeIfChanged fs ⟨outputDir, str "generated.go"⟩ code.goCode with
      | (some err, fs) => (some err, fs)
      | (none, fs) => (none, fs)

/-! ## File systems for the examples -/

/-- A file system without read, write or remove errors. -/
def plainFs (files : List (FilePath × GoString)) : FileSys :=
  { files := files, readErr := fun _ => none, writeErr := fun _ => none,
    removeErr := fun _ => none, events := [] }

/-- A file system whose files can be written but not read. -/
def writeOnlyFs (files : List (FilePath × GoString)) : FileSys :=
  { files := files, readErr := fun _ => some (str "permission denied"),
    writeErr := fun _ => none, removeErr := fun _ => none, events := [] }

/-- A file system in which the file at `bad` cannot be written. -/
def readOnlyAt (bad : FilePath) (files : List (FilePath × GoString)) : FileSys :=
  { files := files, readErr := fun _ => none,
    writeErr := fun p => if p = bad then some (str "permission denied") else none,
    removeErr := fun _ => none, events := [] }

/-! ## The three artifacts and the steps that write them -/

def cPath (outputDir : GoString) : FilePath := ⟨outputDir, str "generated.c"⟩

def hPath (outputDir : GoString) : FilePath := ⟨outputDir, str "generated.h"⟩

def goPath (outputDir : GoString) : FilePath := ⟨outputDir, str "generated.go"⟩

/-- The first write-if-changed step of Generate, on generated.c. -/
def writeStepC (S : SliceSort) (fs : FileSys) (ops : List OpDef) (outputDir : GoString) :
    GoError × FileSys :=
  writeIfChanged (cleanOldGenFiles fs outputDir) (cPath outputDir) (GenerateRender S ops).cCode

/-- The second write-if-changed step of Generate, on generated.h, made when
the first succeeded. -/
def writeStepH (S : SliceSort) (fs : FileSys) (ops : List OpDef) (outputDir : GoString) :
    GoError × FileSys :=
  writeIfChanged (writeStepC S fs ops outputDir).2 (hPath outputDir) (GenerateRender S ops).hCode

/-- The third write-if-changed step of Generate, on generated.go, made when
the first two succeeded. -/
def writeStepGo (S : SliceSort) (fs : FileSys) (ops : List OpDef) (outputDir : GoString) :
    GoError × FileSys :=
  writeIfChanged (writeStepH S fs ops outputDir).2 (goPath outputDir) (GenerateRender S ops).goCode

/-- Two states of one file system: reading, writing and removing report the
same errors in both. -/
def SameErrs (fs fs' : FileSys) : Prop :=
  fs'.readErr = fs.readErr ∧ fs'.writeErr = fs.writeErr ∧ fs'.removeErr = fs.removeErr

/-- One round of the inner loop of cleanOldGenFiles on a matched path. -/
def removeUnlessPreserved (fs : FileSys) (m : FilePath) : FileSys :=
  if mapBool preserve m.base then fs else (osRemove fs m).2

/-- A file stays when cleanOldGenFiles handles the matched path `m`: it is
another file, or `m` is preserved, or `m` cannot be removed. -/
def staysAfter (removeErr : FilePath → GoError) (m : FilePath) (e : FilePath × GoString) : Bool :=
  !(decide (e.1 = m) && !mapBool preserve m.base && (removeErr m).isNone)

/-- No file that a pattern of cleanOldGenFiles matches and that is not
preserved can be removed. -/
def NothingRemovable (fs : FileSys) (outputDir : GoString) (exts : List GoString) : Prop :=
  ∀ e ∈ fs.files, globDir outputDir e.1.dir = true →
    (∃ ext ∈ exts, filepathMatch (str "gen_" ++ ext) e.1.base = true) →
    mapBool preserve e.1.base = false → fs.removeErr e.1 ≠ none

/-! ## An operation with an output of kind ArrayDouble -/

/-- An operation that Generate does not filter out, with the outputs `out`
of kind Double and `out-array` of kind ArrayDouble. -/
def bandMaxOp : OpDef :=
  ⟨str "bandmax", str "find the maximum of each band", str "VipsArithmetic",
    [⟨str "in", ArgTypeImage, 5, 1, 0, 0, 0, str ""⟩,
     ⟨str "out", ArgTypeDouble, 6, 2, 0, 0, 0, str ""⟩,
     ⟨str "out-array", ArgTypeArrayDouble, 6, 3, 0, 0, 0, str ""⟩]⟩

/-- The C call that genGoFunc emits. -/
def genGoFuncCall (op : OpDef) : GoString :=
  str "\n\tret := C." ++ cFuncName op.Name ++ str "("
  ++ stringsJoin (genGoFuncCArgs op) (str ", ") ++ str ")\n"

/-! ## main.go: sortStrings -/

/-- The inner loop of sortStrings, `for j := i; j > 0 && s[j-1] > s[j]; j--`
with the swap `s[j-1], s[j] = s[j], s[j-1]` as its body; the argument is the
value of `j`. -/
def sortStringsInner : List GoString → Nat → List GoString
  | s, 0 => s
  | s, j + 1 =>
    if s.getD j [] > s.getD (j + 1) [] then
      sortStringsInner ((s.set j (s.getD (j + 1) [])).set (j + 1) (s.getD j [])) j
    else s

/-- sortStrings: the outer loop `for i := 1; i < len(s); i++` around the
inner loop; the result is the slice after the call. -/
def sortStrings (s : List GoString) : List GoString :=
  (List.range' 1 (s.length - 1)).foldl sortStringsInner s

/-! ## main.go: showCoverage -/

/-- Go `m[k]++` on a `map[string]int`, held as the list of its entries. The
counts stay below the length of the operation list, far from the range of
`int`. -/
def mapIncr : List (GoString × Nat) → GoString → List (GoString × Nat)
  | [], k => [(k, 1)]
  | (k', v) :: rest, k => if k' = k then (k', v + 1) :: rest else (k', v) :: mapIncr rest k

/-- Go map index `m[k]` on a `map[string]int`: the stored value, or 0 when
the key is absent. -/
def mapInt (m : List (GoString × Nat)) (k : GoString) : Nat := (m.lookup k).getD 0

/-- The maps `catCounts` and `catExcluded` that the first loop of
showCoverage fills. -/
def coverageCounts (ops : List OpDef) : List (GoString × Nat) × List (GoString × Nat) :=
  ops.foldl (fun c op =>
    let cat := normalizeCategoryForOp op.Name op.Category
    if mapBool excludeOps op.Name then (c.1, mapIncr c.2 cat) else (mapIncr c.1 cat, c.2))
    ([], [])

/-- The slice `catNames` of showCoverage: the keys of catCounts, then the
excluded-only categories, sorted by sortStrings. -/
def coverageNames (M : MapOrder) (ops : List OpDef) : List GoString :=
  let catCounts := (coverageCounts ops).1
  let catExcluded := (coverageCounts ops).2
  let catNames := M.range (catCounts.map Prod.fst)
  -- Also add excluded-only categories.
  let catNames := catNames ++
    (M.range (catExcluded.map Prod.fst)).filter (fun name => mapInt catCounts name = 0)
  sortStrings catNames

/-- One line of the coverage table: the category and the columns Generate,
Excluded and Total. -/
structure CoverageRow where
  cat : GoString
  gen : Nat
  excl : Nat
  total : Nat
  deriving DecidableEq

/-- The coverage table that showCoverage prints: one row per category and
the TOTAL line. The table is held as its numbers; the text is their
rendering by Printf. -/
structure CoverageReport where
  rows : List CoverageRow
  totalGen : Nat
  totalExcl : Nat
  total : Nat
  deriving DecidableEq

/-- The last loop of showCoverage: one row per category name, and the running
totals. -/
def coverageRows (catCounts catExcluded : List (GoString × Nat)) (catNames : List GoString) :
    List CoverageRow × Nat × Nat :=
  catNames.foldl (fun acc cat =>
    let gen := mapInt catCounts cat
    let excl := mapInt catExcluded cat
    (acc.1 ++ [⟨cat, gen, excl, gen + excl⟩], acc.2.1 + gen, acc.2.2 + excl)) ([], 0, 0)

/-- showCoverage: the coverage report of an operation list. -/
def showCoverage (M : MapOrder) (ops : List OpDef) : CoverageReport :=
  let r := coverageRows (coverageCounts ops).1 (coverageCounts ops).2 (coverageNames M ops)
  { rows := r.1, totalGen := r.2.1, totalExcl := r.2.2, total := r.2.1 + r.2.2 }

/-- The operation dzsave of libvips: a foreign saver that is not in the
exclusion table. -/
def dzsaveOp : OpDef :=
  ⟨str "dzsave", str "save image to deepzoom file", str "VipsForeign",
    [⟨str "in", ArgTypeImage, 5, 1, 0, 0, 0, str ""⟩,
     ⟨str "filename", ArgTypeString, 5, 2, 0, 0, 0, str ""⟩]⟩

/-! ## operations.go: the metadata fields of an image -/

/-- The image side of the bridge, which is not part of these sources: the C
functions image_get_fields and remove_field of the bridge and the four field
names that the libvips header defines. They are taken as parameters, with
the contract that their names state: image_get_fields lists the names of the
fields of the image, and remove_field removes the field of the given name and
no other. -/
structure ImageBridge where
  Image : Type
  image_get_fields : Image → List GoString
  remove_field : Image → GoString → Image
  fields_remove : ∀ img name,
    image_get_fields (remove_field img name) = (image_get_fields img).filter (fun f => f ≠ name)
  VIPS_META_ICC_NAME : GoString
  VIPS_META_ORIENTATION : GoString
  VIPS_META_N_PAGES : GoString
  VIPS_META_PAGE_HEIGHT : GoString

/-- vipsImageGetFields: the names in the first `maxFields` = 256 places of
the array that image_get_fields returns, up to the terminating nil. -/
def vipsImageGetFields (B : ImageBridge) (img : B.Image) : List GoString :=
  (B.image_get_fields img).take 256

def technicalMetadata (B : ImageBridge) : List GoString :=
  [B.VIPS_META_ICC_NAME, B.VIPS_META_ORIENTATION, B.VIPS_META_N_PAGES,
    B.VIPS_META_PAGE_HEIGHT, str "delay", str "loop"]

def contains : List GoString → GoString → Bool
  | [], _ => false
  | n :: a, x => if x = n then true else contains a x

/-- vipsRemoveMetadata: the image after the call. -/
def vipsRemoveMetadata (B : ImageBridge) (img : B.Image) (keep : List GoString) : B.Image :=
  let fields := vipsImageGetFields B img
  let retain := keep ++ technicalMetadata B
  fields.foldl (fun img field =>
    if contains retain field then img else B.remove_field img field) img

/-- An image held as the list of its field names, with the field names of
libvips. -/
def listBridge : ImageBridge where
  Image := List GoString
  image_get_fields := fun img => img
  remove_field := fun img name => img.filter (fun f => f ≠ name)
  fields_remove := fun _ _ => rfl
  VIPS_META_ICC_NAME := str "icc-profile-data"
  VIPS_META_ORIENTATION := str "orientation"
  VIPS_META_N_PAGES := str "n-pages"
  VIPS_META_PAGE_HEIGHT := str "page-height"

/-- The name of the n-th of many fields. -/
def fieldName (n : Nat) : GoString :=
  str "xmp-" ++ [Fin.ofNat (97 + n / 16), Fin.ofNat (97 + n % 16)]

/-- An image with 257 fields, the last of them a GPS position. -/
def manyFields : List GoString :=
  (List.range 256).map fieldName ++ [str "exif-ifd3-GPSLatitude"]

/-! ## The pinner of the bridge function -/

/-- The declaration of the pinner with its deferred release, as genGoFunc
prints it. -/
def pinnerDecl : GoString :=
  str "\tvar pinner runtime.Pinner\n" ++ str "\tdefer pinner.Unpin()\n"

/-- The Pin call that genGoFunc prints for an optional array input. -/
def pinCall (a : ArgDef) : GoString :=
  str "\t\t\tpinner.Pin(&opts." ++ goExportedArgName a.Name ++ str "[0])\n"

/-- The states of a scanner for three bytes `r.c`: nothing of them read, `r`
read, `r.` read, and found. With `c` the letter P the three bytes are in
every text `pinner.Pin(`, with `c` the letter U in every text
`pinner.Unpin()`. -/
inductive PinState where
  | start
  | r
  | dot
  | found
  deriving DecidableEq

def pinStep (c : Byte) (q : PinState) (b : Byte) : PinState :=
  match q with
  | .found => .found
  | .dot => if b = c then .found else if b = 114 then .r else .start
  | .r => if b = 46 then .dot else if b = 114 then .r else .start
  | .start => if b = 114 then .r else .start

def pinScan (c : Byte) (q : PinState) (s : GoString) : PinState := s.foldl (pinStep c) q

/-- A text that the scanner reads from `start` or `r` without finding the
three bytes and without ending after the dot. -/
def pinSafe (c : Byte) (s : GoString) : Bool :=
  decide ((pinScan c .start s = .start ∨ pinScan c .start s = .r) ∧
    (pinScan c .r s = .start ∨ pinScan c .r s = .r))

/-- No dot in the operation name, the description, the argument names and the
enum type names of an operation. -/
def dotFree (op : OpDef) : Prop :=
  (46 : Byte) ∉ op.Name ∧ (46 : Byte) ∉ op.Description ∧
    ∀ a ∈ op.Args, (46 : Byte) ∉ a.Name ∧ (46 : Byte) ∉ a.EnumType

/-- The part of the entry point that genGoFunc prints before it populates the
options: the signature, the counter, the string temporaries and the holding
variables of the outputs. -/
def genGoFuncHead (op : OpDef) : GoString :=
  str "// " ++ goFuncName op.Name ++ str " calls the vips " ++ op.Name ++ str " operation.\n"
  ++ str "// " ++ op.Description ++ str "\n"
  ++ str "func " ++ goFuncName op.Name ++ str "("
  ++ stringsJoin (genGoFuncParams op) (str ", ") ++ str ") ("
  ++ genGoFuncRetTypes op
  ++ str ") \x7b\n"
  ++ str "\tincOpCounter(\"" ++ op.Name ++ str "\")\n\n"
  ++ genGoFuncStrTemps op
  ++ (op.Outputs.map genGoFuncOutVar).flatten

/-- The lines that genGoBridge prints before the imports. -/
def bridgeHeader : GoString :=
  str "// Code generated by vipsgen. DO NOT EDIT.\n"
  ++ str "package vips\n\n"
  ++ str "// #include \"generated.h\"\n"
  ++ str "import \"C\"\n\n"

/-- The text that genGoBridge prints after the imports. -/
def bridgeBody (ops : List OpDef) : GoString :=
  str "// Ensure imports are used.\n"
  ++ str "var _ = unsafe.Pointer(nil)\n\n"
  ++ (ops.map genGoFunc).flatten

/-- The operation flatten of libvips, with its optional array input
background. -/
def flattenOp : OpDef :=
  ⟨str "flatten", str "flatten alpha out of an image", str "VipsConversion",
    [⟨str "in", ArgTypeImage, 5, 1, 0, 0, 0, str ""⟩,
     ⟨str "out", ArgTypeImage, 6, 2, 0, 0, 0, str ""⟩,
     ⟨str "background", ArgTypeArrayDouble, 1, 12, 0, 0, 0, str ""⟩,
     ⟨str "max-alpha", ArgTypeDouble, 1, 13, 255, 0, 100000000, str ""⟩]⟩

/-! ## Thirteen discovered operations, two of which share a name -/

/-- A discovered operation of the given name, from an input image to an
output image. -/
def unaryOp (name : GoString) : OpDef :=
  ⟨name, str "", str "VipsConversion",
    [⟨str "in", ArgTypeImage, 5, 1, 0, 0, 0, str ""⟩,
     ⟨str "out", ArgTypeImage, 6, 2, 0, 0, 0, str ""⟩]⟩

/-- Thirteen discovered operations in discovery order: the two registrations
of the nickname `copy` come first, `copyFirst` before `copySecond`. -/
def thirteenOps : List OpDef :=
  [ copyFirst, copySecond, unaryOp (str "add"), unaryOp (str "affine"), unaryOp (str "avg"),
    unaryOp (str "bandjoin"), unaryOp (str "embed"), unaryOp (str "abs"), unaryOp (str "flip"),
    unaryOp (str "gamma"), unaryOp (str "invert"), unaryOp (str "linear"), unaryOp (str "rot") ]

/-! ## An operation with thirteen arguments, two of equal priority -/

/-- A discovered operation with thirteen arguments in discovery order, of
which `left` and `top` have the same priority 5, `left` discovered first. -/
def tiedOpThirteen : OpDef :=
  ⟨str "extract", str "extract an area", str "VipsConversion",
    [⟨str "left", ArgTypeInt, 5, 5, 0, 0, 0, str ""⟩,
     ⟨str "top", ArgTypeInt, 5, 5, 0, 0, 0, str ""⟩,
     ⟨str "in", ArgTypeImage, 5, 1, 0, 0, 0, str ""⟩,
     ⟨str "out", ArgTypeImage, 6, 2, 0, 0, 0, str ""⟩,
     ⟨str "width", ArgTypeInt, 5, 3, 0, 0, 0, str ""⟩,
     ⟨str "height", ArgTypeInt, 5, 4, 0, 0, 0, str ""⟩,
     ⟨str "bands", ArgTypeInt, 1, 6, 0, 0, 0, str ""⟩,
     ⟨str "angle", ArgTypeInt, 1, 0, 0, 0, 0, str ""⟩,
     ⟨str "xres", ArgTypeDouble, 1, 8, 0, 0, 0, str ""⟩,
     ⟨str "yres", ArgTypeDouble, 1, 9, 0, 0, 0, str ""⟩,
     ⟨str "xoffset", ArgTypeInt, 1, 10, 0, 0, 0, str ""⟩,
     ⟨str "yoffset", ArgTypeInt, 1, 11, 0, 0, 0, str ""⟩,
     ⟨str "optimize", ArgTypeBool, 1, 12, 0, 0, 0, str ""⟩]⟩

/-! ## The values of the two returns of the bridge function -/

/-- The value that the success return of genGoFunc lists for one output. -/
def genGoFuncRetVal (a : ArgDef) : GoString :=
  let argName := goArgName a.Name
  match a.Typ with
  | ArgTypeImage => str "out_" ++ argName
  | ArgTypeDouble => str "float64(out_" ++ argName ++ str ")"
  | ArgTypeInt => str "int(out_" ++ argName ++ str ")"
  | ArgTypeBool => str "out_" ++ argName ++ str " != 0"
  | ArgTypeEnum =>
    (if goEnumName a.EnumType = str "" then str "int" else goEnumName a.EnumType)
      ++ str "(out_" ++ argName ++ str ")"
  | _ => str "out_" ++ argName

/-- The zero value of a Go type, written as a literal, after the language
specification: false for bool, the empty string for string, nil for a
pointer, a slice or an interface, and 0 for a numeric type. A type name that
is none of the first three is numeric here: it is int, float64 or one of the
integer types of package vips that goEnumName names. -/
def zeroLiteral (ty : GoString) : GoString :=
  if ty = str "bool" then str "false"
  else if ty = str "string" then str "\"\""
  else if ty.take 1 = str "*" ∨ ty.take 2 = str "[]" ∨ ty = str "interface\x7b\x7d" then
    str "nil"
  else str "0"

/-- An operation whose only output is of kind String. -/
def describeOp : OpDef :=
  ⟨str "describe", str "describe an image", str "VipsConversion",
    [⟨str "in", ArgTypeImage, 5, 1, 0, 0, 0, str ""⟩,
     ⟨str "text", ArgTypeString, 6, 2, 0, 0, 0, str ""⟩]⟩

/-- An operation whose only output is of kind Flags. -/
def probeOp : OpDef :=
  ⟨str "probe", str "probe an image", str "VipsConversion",
    [⟨str "in", ArgTypeImage, 5, 1, 0, 0, 0, str ""⟩,
     ⟨str "flags", ArgTypeFlags, 6, 2, 0, 0, 0, str "VipsForeignFlags"⟩]⟩

/-- An operation with the outputs `segments` of kind Int and `mask` of kind
Image, in this order. -/
def labelOp : OpDef :=
  ⟨str "labelregions", str "label regions in an image", str "VipsMorphology",
    [⟨str "in", ArgTypeImage, 5, 1, 0, 0, 0, str ""⟩,
     ⟨str "segments", ArgTypeInt, 2, 2, 0, 0, 0, str ""⟩,
     ⟨str "mask", ArgTypeImage, 6, 3, 0, 0, 0, str ""⟩]⟩

/-! ## Theorems -/

/-! ### Go strings -/

theorem stringsJoin_cons (a : GoString) (l : List GoString) (sep : GoString) :
    stringsJoin (a :: l) sep = if l = [] then a else a ++ sep ++ stringsJoin l sep := by
  cases l <;> simp [stringsJoin]

theorem stringsJoin_append (l₁ l₂ : List GoString) (sep : GoString) (h₁ : l₁ ≠ []) :
    stringsJoin (l₁ ++ l₂) sep =
      if l₂ = [] then stringsJoin l₁ sep else stringsJoin l₁ sep ++ sep ++ stringsJoin l₂ sep := by
  induction l₁ with
  | nil => exact absurd rfl h₁
  | cons a l ih =>
    by_cases hl : l = []
    · subst hl
      simp [stringsJoin_cons]
    · rw [List.cons_append, stringsJoin_cons, stringsJoin_cons, ih hl]
      by_cases h₂ : l₂ = [] <;> simp [hl, h₂, List.append_assoc]

/-! ### The type mapping -/

/-- C7: for an argument of kind Double, Int, Bool, String, Enum or Flags,
goOptTypeName is "*" followed by goTypeName; for an argument of kind Image,
ArrayDouble, ArrayInt, ArrayImage, Blob or Interpolate, goOptTypeName equals
goTypeName. -/
theorem goOptTypeName_pointer_of_scalar (a : ArgDef) :
    (a.Typ ∈ [ArgTypeDouble, ArgTypeInt, ArgTypeBool, ArgTypeString, ArgTypeEnum, ArgTypeFlags] →
      goOptTypeName a = str "*" ++ goTypeName a) ∧
    (a.Typ ∈ [ArgTypeImage, ArgTypeArrayDouble, ArgTypeArrayInt, ArgTypeArrayImage, ArgTypeBlob,
        ArgTypeInterpolate] →
      goOptTypeName a = goTypeName a) := by
  constructor
  · intro h
    cases ht : a.Typ <;> rw [ht] at h <;> simp at h <;> simp only [goOptTypeName, goTypeName, ht]
    all_goals first
      | decide
      | (split_ifs <;> rfl)
  · intro h
    cases ht : a.Typ <;> rw [ht] at h <;> simp at h <;> simp only [goOptTypeName, goTypeName, ht]

/-- Witness of C7 at an Enum argument with a mapped enum type and at an
ArrayDouble argument. -/
theorem goOptTypeName_pointer_of_scalar_witness :
    goOptTypeName ⟨str "kernel", ArgTypeEnum, 1, 0, 0, 0, 0, str "VipsKernel"⟩ =
        str "*" ++ goTypeName ⟨str "kernel", ArgTypeEnum, 1, 0, 0, 0, 0, str "VipsKernel"⟩ ∧
      goOptTypeName ⟨str "background", ArgTypeArrayDouble, 1, 0, 0, 0, 0, str ""⟩ =
        goTypeName ⟨str "background", ArgTypeArrayDouble, 1, 0, 0, 0, 0, str ""⟩ :=
  ⟨(goOptTypeName_pointer_of_scalar _).1 (by decide),
   (goOptTypeName_pointer_of_scalar _).2 (by decide)⟩

/-! ### Parameter identifiers -/

/-- C9: goArgName never returns any of the reserved words type, func, map,
range, in. -/
theorem goArgName_not_reserved (name : GoString) :
    goArgName name ∉ [str "type", str "func", str "map", str "range", str "in"] := by
  unfold goArgName
  simp only []
  split_ifs with h1 h2 h3 h4 h5
  · decide
  · decide
  · decide
  · decide
  · decide
  · simp [h1, h2, h3, h4, h5]

/-- C10 (the code does not hold it): every keyword of Go other than type,
func, map and range is returned by goArgName as it is, so the result is a Go
keyword; the remapping table of goArgName misses these keywords. -/
theorem goArgName_returns_keyword :
    (∀ k ∈ goKeywords, k ∉ [str "type", str "func", str "map", str "range"] → goArgName k = k) ∧
      goArgName (str "var") = str "var" ∧ str "var" ∈ goKeywords := by
  decide

/-! ### The shim signature: header, source and call site -/

theorem genCHeaderOpParams_eq (op : OpDef) :
    genCHeaderOpParams op = if genCFuncParams op = [] then [str "void"] else genCFuncParams op := by
  unfold genCHeaderOpParams
  simp only []
  by_cases h : genCFuncParams op = []
  · have h0 := h
    unfold genCFuncParams at h0
    rw [h0, if_pos h]
    rfl
  · have h0 : genCFuncParams op ≠ [] := h
    unfold genCFuncParams at h0
    rw [if_neg (by simpa [List.length_eq_zero] using h0), if_neg h]
    rfl

theorem genCFuncParams_eq_nil (op : OpDef) :
    genCFuncParams op = [] ↔
      op.RequiredInputs = [] ∧ op.Outputs = [] ∧ op.OptionalInputs = [] := by
  unfold genCFuncParams
  by_cases h : op.OptionalInputs = []
  · simp [h]
  · have : op.OptionalInputs.length > 0 := List.length_pos.mpr h
    simp [h, this]

/-- C2: the parameter list that genCHeaderOp prints in the prototype is the
parameter list that genCFunc prints in the function definition, except that
an operation with no required input, no output and no optional input gets
"void" in the header (and the empty list in the definition). -/
theorem genCHeaderOp_params_eq_genCFunc_params (op : OpDef) :
    genCHeaderOp op =
        genCHeaderOpStruct op ++ str "int " ++ cFuncName op.Name ++ str "("
          ++ stringsJoin (genCHeaderOpParams op) (str ", ") ++ str ");\n\n" ∧
      (∃ body, genCFunc op =
        str "int " ++ cFuncName op.Name ++ str "("
          ++ stringsJoin (genCFuncParams op) (str ", ") ++ str ") \x7b\n" ++ body) ∧
      stringsJoin (genCHeaderOpParams op) (str ", ") =
        (if op.RequiredInputs = [] ∧ op.Outputs = [] ∧ op.OptionalInputs = [] then str "void"
         else stringsJoin (genCFuncParams op) (str ", ")) ∧
      (op.RequiredInputs = [] ∧ op.Outputs = [] ∧ op.OptionalInputs = [] →
        stringsJoin (genCFuncParams op) (str ", ") = []) := by
  refine ⟨rfl, ⟨_, by unfold genCFunc; simp only [List.append_assoc]; rfl⟩, ?_, ?_⟩
  · rw [genCHeaderOpParams_eq]
    by_cases h : genCFuncParams op = []
    · rw [if_pos h, if_pos ((genCFuncParams_eq_nil op).mp h)]
      rfl
    · rw [if_neg h, if_neg (fun hh => h ((genCFuncParams_eq_nil op).mpr hh))]
  · intro h
    rw [(genCFuncParams_eq_nil op).mpr h]
    rfl

/-- Witness of C2 at an operation without arguments. -/
theorem genCHeaderOp_params_eq_genCFunc_params_witness :
    stringsJoin (genCFuncParams ⟨str "nop", str "", str "create", []⟩) (str ", ") = [] :=
  (genCHeaderOp_params_eq_genCFunc_params ⟨str "nop", str "", str "create", []⟩).2.2.2
    ⟨rfl, rfl, rfl⟩

theorem stringsJoin_map_expand {α : Type} (f : α → GoString) (g : α → List GoString)
    (sep : GoString) (hg : ∀ a, g a ≠ [] ∧ stringsJoin (g a) sep = f a)
    (l : List α) (rest : List GoString) :
    stringsJoin (l.map f ++ rest) sep = stringsJoin ((l.map g).flatten ++ rest) sep := by
  induction l with
  | nil => simp
  | cons a l ih =>
    have hnil : (l.map f ++ rest = []) ↔ ((l.map g).flatten ++ rest = []) := by
      cases l with
      | nil => simp
      | cons b l => simp [(hg b).1]
    have hl : stringsJoin ((a :: l).map f ++ rest) sep =
        if l.map f ++ rest = [] then f a else f a ++ sep ++ stringsJoin (l.map f ++ rest) sep := by
      rw [List.map_cons, List.cons_append, stringsJoin_cons]
    have hr : stringsJoin (((a :: l).map g).flatten ++ rest) sep =
        if (l.map g).flatten ++ rest = [] then f a
        else f a ++ sep ++ stringsJoin ((l.map g).flatten ++ rest) sep := by
      rw [List.map_cons, List.flatten_cons,
        show g a ++ (l.map g).flatten ++ rest = g a ++ ((l.map g).flatten ++ rest) from
          List.append_assoc _ _ _,
        stringsJoin_append _ _ _ (hg a).1, (hg a).2]
    rw [hl, hr, ih]
    by_cases h : l.map f ++ rest = []
    · rw [if_pos h, if_pos (hnil.mp h)]
    · rw [if_neg h, if_neg (fun hh => h (hnil.mpr hh))]

theorem slotParam_expand (op : OpDef) (a : ArgDef) :
    ((if isArrayKind a then [CallSlot.arrayPtr a, CallSlot.arrayLen a]
        else [CallSlot.value a]).map (slotParam op) ≠ []) ∧
      stringsJoin ((if isArrayKind a then [CallSlot.arrayPtr a, CallSlot.arrayLen a]
        else [CallSlot.value a]).map (slotParam op)) (str ", ") =
      (match a.Typ with
        | ArgTypeArrayDouble | ArgTypeArrayInt =>
          cTypeName a ++ str " " ++ goArgName a.Name ++ str ", int " ++ goArgName a.Name ++ str "_n"
        | ArgTypeArrayImage =>
          str "VipsImage **" ++ goArgName a.Name ++ str ", int " ++ goArgName a.Name ++ str "_n"
        | _ => cTypeName a ++ str " " ++ goArgName a.Name) := by
  have hsep : str ", int " = str ", " ++ str "int " := by decide
  constructor
  · cases h : isArrayKind a <;> simp
  · cases ht : a.Typ <;>
      simp [isArrayKind, ht, slotParam, stringsJoin, hsep, List.append_assoc]

theorem slotArg_expand (a : ArgDef) :
    (if isArrayKind a then [CallSlot.arrayPtr a, CallSlot.arrayLen a]
        else [CallSlot.value a]).map slotArg =
      (match a.Typ with
        | ArgTypeImage => [goArgName a.Name]
        | ArgTypeDouble => [str "C.double(" ++ goArgName a.Name ++ str ")"]
        | ArgTypeInt => [str "C.int(" ++ goArgName a.Name ++ str ")"]
        | ArgTypeBool => [str "C.int(boolToInt(" ++ goArgName a.Name ++ str "))"]
        | ArgTypeString => [str "cStr_" ++ goArgName a.Name]
        | ArgTypeEnum => [str "C." ++ a.EnumType ++ str "(" ++ goArgName a.Name ++ str ")"]
        | ArgTypeArrayDouble =>
          [str "(*C.double)(unsafe.Pointer(&" ++ goArgName a.Name ++ str "[0]))",
           str "C.int(len(" ++ goArgName a.Name ++ str "))"]
        | ArgTypeArrayInt =>
          [str "(*C.int)(unsafe.Pointer(&" ++ goArgName a.Name ++ str "[0]))",
           str "C.int(len(" ++ goArgName a.Name ++ str "))"]
        | ArgTypeArrayImage =>
          [str "(**C.VipsImage)(unsafe.Pointer(&" ++ goArgName a.Name ++ str "[0]))",
           str "C.int(len(" ++ goArgName a.Name ++ str "))"]
        | _ => [goArgName a.Name]) := by
  cases ht : a.Typ <;> simp [isArrayKind, ht, slotArg]

theorem callSlots_map_slotParam (op : OpDef) :
    (callSlots op).map (slotParam op) =
      (op.RequiredInputs.map (fun a =>
        (if isArrayKind a then [CallSlot.arrayPtr a, CallSlot.arrayLen a]
          else [CallSlot.value a]).map (slotParam op))).flatten
      ++ ((op.Outputs.map (fun a => cOutputTypeName a ++ str " out_" ++ goArgName a.Name))
      ++ (if op.OptionalInputs.length > 0 then [cStructName op.Name ++ str " *opts"] else [])) := by
  unfold callSlots
  by_cases h : op.OptionalInputs = []
  · simp [h, List.map_flatten, slotParam, Function.comp_def]
  · have : op.OptionalInputs.length > 0 := List.length_pos.mpr h
    simp [h, this, List.map_flatten, slotParam, Function.comp_def]

theorem callSlots_eq_nil (op : OpDef) :
    callSlots op = [] ↔ genCFuncParams op = [] := by
  rw [genCFuncParams_eq_nil]
  unfold callSlots
  by_cases h : op.OptionalInputs = []
  · cases hr : op.RequiredInputs with
    | nil => simp [h]
    | cons a l => by_cases ha : isArrayKind a <;> simp [h, ha]
  · simp [h]

/-- C1: the positional arguments of the C call that genGoFunc emits and the
parameters of the prototype that genCHeaderOp emits are the renderings of one
list of positions, in the same order: one per required input in
RequiredInputs order (a pointer and a length for ArrayDouble, ArrayInt and
ArrayImage), then one per output in Outputs order, then the options pointer
last exactly when the operation has an optional input. The prototype of an
operation without any position reads "void". -/
theorem genGoFunc_call_matches_genCHeaderOp_prototype (op : OpDef) :
    genGoFuncCArgs op = (callSlots op).map slotArg ∧
      stringsJoin (genCHeaderOpParams op) (str ", ") =
        (if callSlots op = [] then str "void"
         else stringsJoin ((callSlots op).map (slotParam op)) (str ", ")) ∧
      (genGoFuncCArgs op).length = ((callSlots op).map (slotParam op)).length ∧
      (CallSlot.options ∈ callSlots op ↔ op.OptionalInputs ≠ []) := by
  have hargs : genGoFuncCArgs op = (callSlots op).map slotArg := by
    unfold genGoFuncCArgs callSlots
    have hfun : (fun a : ArgDef =>
        (if isArrayKind a then [CallSlot.arrayPtr a, CallSlot.arrayLen a]
          else [CallSlot.value a]).map slotArg) = _ := funext slotArg_expand
    by_cases h : op.OptionalInputs = []
    · simp only [h, List.length_nil, gt_iff_lt, lt_self_iff_false, if_false, if_true,
        List.map_append, List.map_flatten, List.map_map, List.map_nil]
      rw [show (List.map slotArg ∘ fun a : ArgDef =>
        if isArrayKind a then [CallSlot.arrayPtr a, CallSlot.arrayLen a]
          else [CallSlot.value a]) = _ from hfun]
      simp [Function.comp_def, slotArg]
    · have hpos : op.OptionalInputs.length > 0 := List.length_pos.mpr h
      simp only [h, hpos, if_false, if_true, List.map_append, List.map_flatten, List.map_map,
        List.map_cons, List.map_nil]
      rw [show (List.map slotArg ∘ fun a : ArgDef =>
        if isArrayKind a then [CallSlot.arrayPtr a, CallSlot.arrayLen a]
          else [CallSlot.value a]) = _ from hfun]
      simp [Function.comp_def, slotArg]
  refine ⟨hargs, ?_, ?_, ?_⟩
  · rw [genCHeaderOpParams_eq]
    by_cases h : genCFuncParams op = []
    · rw [if_pos h, if_pos ((callSlots_eq_nil op).mpr h)]
      rfl
    · rw [if_neg h, if_neg (fun hh => h ((callSlots_eq_nil op).mp hh)), callSlots_map_slotParam]
      unfold genCFuncParams
      rw [List.append_assoc]
      rw [← stringsJoin_map_expand _ _ _ (slotParam_expand op)]
  · rw [hargs, List.length_map, List.length_map]
  · unfold callSlots
    by_cases h : op.OptionalInputs = []
    · simp only [h, if_true, List.append_nil, ne_eq, not_true_eq_false, iff_false,
        List.mem_append, List.mem_flatten, List.mem_map, not_or]
      constructor
      · rintro ⟨l, ⟨a, _, rfl⟩, hl⟩
        by_cases ha : isArrayKind a <;> simp [ha] at hl
      · rintro ⟨a, _, ha⟩
        cases ha
    · simp [h]

/-! ### The presence check of an optional input in the shim -/

theorem gatedSetter_cond_inj (a : ArgDef) (c₁ c₂ : GoString)
    (h : gatedSetter a c₁ = gatedSetter a c₂) : c₁ = c₂ := by
  unfold gatedSetter at h
  rw [List.append_left_inj, List.append_left_inj, List.append_left_inj,
    List.append_right_inj] at h
  exact h

theorem flagCheck_ne_nullCheck (a : ArgDef) : flagCheck a ≠ nullCheck a := by
  intro h
  have hl := congrArg List.length h
  have h1 : (str "opts->has_").length = 10 := by decide
  have h2 : (str "opts->").length = 6 := by decide
  simp only [flagCheck, nullCheck, List.length_append, h1, h2] at hl
  omega

theorem genCFuncOptBlock_infix (op : OpDef) (a : ArgDef) (ha : a ∈ op.OptionalInputs) :
    ∃ pre post, genCFunc op = pre ++ genCFuncOptBlock a ++ post := by
  have hne : op.OptionalInputs.length > 0 := List.length_pos_of_mem ha
  obtain ⟨l₁, l₂, hl⟩ := List.append_of_mem ha
  have hopts : ∃ p q, genCFuncOpts op = p ++ genCFuncOptBlock a ++ q := by
    refine ⟨str "\n    if (opts) \x7b\n" ++ (l₁.map genCFuncOptBlock).flatten,
      (l₂.map genCFuncOptBlock).flatten ++ str "    \x7d\n", ?_⟩
    unfold genCFuncOpts
    rw [if_pos hne, hl]
    simp [List.append_assoc]
  obtain ⟨p, q, hpq⟩ := hopts
  have hfun : ∃ A C, genCFunc op = A ++ genCFuncOpts op ++ C := ⟨_, _, rfl⟩
  obtain ⟨A, C, hAC⟩ := hfun
  exact ⟨A ++ p, q ++ C, by rw [hAC, hpq]; simp only [List.append_assoc]⟩

/-- C8 (as amended): for every optional input of every kind, the aggregate
kinds Image, ArrayDouble, ArrayInt, ArrayImage, Blob and Interpolate
included, the shim function emitted by genCFunc holds the setter gated on the
flag opts->has_<name>, and on no other condition: not on the null check of
the value opts-><name>. -/
theorem genCFunc_optional_flag_gated (op : OpDef) (a : ArgDef) (ha : a ∈ op.OptionalInputs) :
    (∃ pre post, genCFunc op = pre ++ gatedSetter a (flagCheck a) ++ post) ∧
      genCFuncOptBlock a = gatedSetter a (flagCheck a) ∧
      (∀ cond, genCFuncOptBlock a = gatedSetter a cond → cond = flagCheck a) ∧
      genCFuncOptBlock a ≠ gatedSetter a (nullCheck a) := by
  have hblock : genCFuncOptBlock a = gatedSetter a (flagCheck a) := by
    unfold genCFuncOptBlock gatedSetter flagCheck
    have : str "        if (opts->has_" = str "        if (" ++ str "opts->has_" := by decide
    rw [this]
    simp only [List.append_assoc]
  refine ⟨?_, hblock, ?_, ?_⟩
  · rw [← hblock]
    exact genCFuncOptBlock_infix op a ha
  · intro cond hc
    exact (gatedSetter_cond_inj a _ _ (hblock.symm.trans hc)).symm
  · intro hc
    exact flagCheck_ne_nullCheck a (gatedSetter_cond_inj a _ _ (hblock.symm.trans hc))

/-- Witness of C8 (as amended) at an optional Image input and an optional
ArrayDouble input. -/
theorem genCFunc_optional_flag_gated_witness :
    genCFuncOptBlock ⟨str "mask", ArgTypeImage, 1, 2, 0, 0, 0, str ""⟩ ≠
      gatedSetter ⟨str "mask", ArgTypeImage, 1, 2, 0, 0, 0, str ""⟩
        (nullCheck ⟨str "mask", ArgTypeImage, 1, 2, 0, 0, 0, str ""⟩) :=
  (genCFunc_optional_flag_gated
    ⟨str "conv", str "convolve", str "VipsConvolution",
      [⟨str "in", ArgTypeImage, 5, 1, 0, 0, 0, str ""⟩,
       ⟨str "mask", ArgTypeImage, 1, 2, 0, 0, 0, str ""⟩,
       ⟨str "background", ArgTypeArrayDouble, 1, 3, 0, 0, 0, str ""⟩]⟩
    ⟨str "mask", ArgTypeImage, 1, 2, 0, 0, 0, str ""⟩ (by decide)).2.2.2

/-- C8 as stated fails: for the optional Image input `mask` (a kind with
isNilCheckType) the block that genCFunc emits is the setter gated on the flag
opts->has_mask, it is not the setter gated on the null check opts->mask, and
that block is part of the emitted function. -/
theorem genCFunc_nilCheckType_not_null_gated :
    isNilCheckType ⟨str "mask", ArgTypeImage, 1, 2, 0, 0, 0, str ""⟩ = true ∧
      (⟨str "mask", ArgTypeImage, 1, 2, 0, 0, 0, str ""⟩ : ArgDef) ∈
        (OpDef.OptionalInputs ⟨str "conv", str "convolve", str "VipsConvolution",
          [⟨str "in", ArgTypeImage, 5, 1, 0, 0, 0, str ""⟩,
           ⟨str "mask", ArgTypeImage, 1, 2, 0, 0, 0, str ""⟩]⟩) ∧
      genCFuncOptBlock ⟨str "mask", ArgTypeImage, 1, 2, 0, 0, 0, str ""⟩ =
        str "        if (opts->has_mask) \x7b\n"
          ++ str "            vips_object_set(VIPS_OBJECT(op), \"mask\", opts->mask, NULL);\n"
          ++ str "        \x7d\n" ∧
      ¬ (genCFuncOptBlock ⟨str "mask", ArgTypeImage, 1, 2, 0, 0, 0, str ""⟩ =
          gatedSetter ⟨str "mask", ArgTypeImage, 1, 2, 0, 0, 0, str ""⟩
            (nullCheck ⟨str "mask", ArgTypeImage, 1, 2, 0, 0, 0, str ""⟩) ∧
        genCFuncOptBlock ⟨str "mask", ArgTypeImage, 1, 2, 0, 0, 0, str ""⟩ ≠
          gatedSetter ⟨str "mask", ArgTypeImage, 1, 2, 0, 0, 0, str ""⟩
            (flagCheck ⟨str "mask", ArgTypeImage, 1, 2, 0, 0, 0, str ""⟩)) := by
  refine ⟨by decide, by decide, by decide, ?_⟩
  rintro ⟨_, h⟩
  exact h (by decide)

/-! ### sort.Slice with the closures of the generator -/

theorem lessByName_ordering : LessOrdering lessByName where
  irrefl := fun a => by simp [lessByName]
  trans := fun a b c h₁ h₂ => by
    simp only [lessByName, decide_eq_true_eq] at *
    exact lt_trans h₁ h₂
  negTrans := fun a b c h₁ h₂ => by
    simp only [lessByName, decide_eq_false_iff_not, not_lt] at *
    exact le_trans h₂ h₁

theorem lessByPriority_ordering : LessOrdering lessByPriority where
  irrefl := fun a => by simp [lessByPriority]
  trans := fun a b c h₁ h₂ => by
    simp only [lessByPriority, decide_eq_true_eq] at *
    exact lt_trans h₁ h₂
  negTrans := fun a b c h₁ h₂ => by
    simp only [lessByPriority, decide_eq_false_iff_not, not_lt] at *
    exact le_trans h₂ h₁

theorem sort_lessByName_ascending (S : SliceSort) (ops : List OpDef) :
    (S.sort lessByName ops).Pairwise (fun a b => a.Name ≤ b.Name) :=
  (S.ascending lessByName ops lessByName_ordering).imp (fun h => by
    simpa only [lessByName, decide_eq_false_iff_not, not_lt] using h)

theorem pairwise_lt_of_le_of_nodup (l : List OpDef)
    (hle : l.Pairwise (fun a b => a.Name ≤ b.Name)) (hnd : (l.map OpDef.Name).Nodup) :
    l.Pairwise (fun a b => a.Name < b.Name) := by
  have hne : l.Pairwise (fun a b => a.Name ≠ b.Name) := List.pairwise_map.mp hnd
  exact (hle.and hne).imp (fun h => lt_of_le_of_ne h.1 h.2)

theorem eq_of_perm_of_names_ascending (l₁ l₂ : List OpDef) (hp : l₁.Perm l₂)
    (h₁ : l₁.Pairwise (fun a b => a.Name < b.Name))
    (h₂ : l₂.Pairwise (fun a b => a.Name < b.Name)) : l₁ = l₂ := by
  haveI : IsAntisymm OpDef (fun a b => a.Name < b.Name) :=
    ⟨fun _ _ hab hba => absurd hab (lt_asymm hba)⟩
  exact List.eq_of_perm_of_sorted hp h₁ h₂

/-! ### The exclusion table -/

theorem lookup_true_iff_mem_keys (m : List (GoString × Bool)) (hm : ∀ p ∈ m, p.2 = true)
    (k : GoString) : mapBool m k = true ↔ k ∈ m.map Prod.fst := by
  induction m with
  | nil => simp [mapBool]
  | cons p m ih =>
    obtain ⟨k', v⟩ := p
    have hv : v = true := hm (k', v) (List.mem_cons_self _ _)
    have ih' := ih (fun q hq => hm q (List.mem_cons_of_mem _ hq))
    by_cases hk : k = k'
    · subst hk
      simp [mapBool, List.lookup, hv]
    · have hbeq : (k == k') = false := by simpa using hk
      simp only [mapBool, List.lookup, hbeq, List.map_cons, List.mem_cons, hk, false_or]
      exact ih'

theorem excludeOps_iff (name : GoString) :
    mapBool excludeOps name = true ↔ name ∈ excludeOps.map Prod.fst :=
  lookup_true_iff_mem_keys excludeOps (by decide) name

theorem GenerateAllOps_perm (S : SliceSort) (ops : List OpDef) :
    (GenerateAllOps S ops).Perm
      (ops.filter (fun op => decide (op.Name ∉ excludeOps.map Prod.fst ∧
        normalizeCategoryForOp op.Name op.Category ≠ str "foreign"))) := by
  unfold GenerateAllOps
  refine (S.perm _ _).trans (List.Perm.of_eq ?_)
  apply List.filter_congr
  intro op _
  by_cases hex : mapBool excludeOps op.Name = true
  · simp [hex, (excludeOps_iff op.Name).mp hex]
  · have hnot : op.Name ∉ excludeOps.map Prod.fst := fun h => hex ((excludeOps_iff op.Name).mpr h)
    by_cases hcat : normalizeCategoryForOp op.Name op.Category = str "foreign"
    · simp [hex, hcat]
    · simp only [hex, hcat, hnot]
      simpa using hcat

/-- C3: the list that Generate renders into the three artifacts consists of
exactly the input operations whose name is not in excludeOps and whose
normalized category is not "foreign", in ascending order of Name; no
excluded and no foreign-category operation is rendered. -/
theorem Generate_renders_filtered_sorted (S : SliceSort) (ops : List OpDef) :
    GenerateRender S ops =
        { cCode := genCSource (GenerateAllOps S ops),
          hCode := genCHeader (GenerateAllOps S ops),
          goCode := genGoBridge (GenerateAllOps S ops) } ∧
      (GenerateAllOps S ops).Perm
        (ops.filter (fun op => decide (op.Name ∉ excludeOps.map Prod.fst ∧
          normalizeCategoryForOp op.Name op.Category ≠ str "foreign"))) ∧
      (GenerateAllOps S ops).Pairwise (fun a b => a.Name ≤ b.Name) ∧
      (∀ op ∈ GenerateAllOps S ops, op ∈ ops ∧ op.Name ∉ excludeOps.map Prod.fst ∧
        normalizeCategoryForOp op.Name op.Category ≠ str "foreign") := by
  refine ⟨rfl, GenerateAllOps_perm S ops, sort_lessByName_ascending S _, ?_⟩
  intro op hop
  have hmem := (GenerateAllOps_perm S ops).mem_iff.mp hop
  rw [List.mem_filter] at hmem
  exact ⟨hmem.1, of_decide_eq_true hmem.2⟩

/-- C4: for two input lists that are permutations of each other and whose
operation names are pairwise distinct, Generate renders the same bytes for
generated.c, generated.h and generated.go. -/
theorem Generate_permutation_invariant (S : SliceSort) (ops₁ ops₂ : List OpDef)
    (hperm : ops₁.Perm ops₂) (hnodup : (ops₁.map OpDef.Name).Nodup) :
    GenerateRender S ops₁ = GenerateRender S ops₂ := by
  have hfilter (ops : List OpDef) (hnd : (ops.map OpDef.Name).Nodup) :
      (GenerateAllOps S ops).Pairwise (fun a b => a.Name < b.Name) := by
    apply pairwise_lt_of_le_of_nodup _ (sort_lessByName_ascending S _)
    have hsub : ((ops.filter (fun op => decide (op.Name ∉ excludeOps.map Prod.fst ∧
        normalizeCategoryForOp op.Name op.Category ≠ str "foreign"))).map OpDef.Name).Nodup :=
      hnd.sublist ((List.filter_sublist _).map _)
    exact (((GenerateAllOps_perm S ops).map OpDef.Name).nodup_iff).mpr hsub
  have hnodup₂ : (ops₂.map OpDef.Name).Nodup := ((hperm.map OpDef.Name).nodup_iff).mp hnodup
  have hall : GenerateAllOps S ops₁ = GenerateAllOps S ops₂ := by
    apply eq_of_perm_of_names_ascending _ _ _ (hfilter ops₁ hnodup) (hfilter ops₂ hnodup₂)
    exact ((GenerateAllOps_perm S ops₁).trans (hperm.filter _)).trans (GenerateAllOps_perm S ops₂).symm
  unfold GenerateRender
  rw [hall]

/-- Witness of C4: two operations given in either order, with the stable
sort. -/
theorem Generate_permutation_invariant_witness :
    GenerateRender stableSliceSort
        [⟨str "invert", str "invert an image", str "VipsArithmetic",
            [⟨str "in", ArgTypeImage, 5, 1, 0, 0, 0, str ""⟩,
             ⟨str "out", ArgTypeImage, 6, 2, 0, 0, 0, str ""⟩]⟩,
         ⟨str "abs", str "absolute value of an image", str "VipsArithmetic",
            [⟨str "in", ArgTypeImage, 5, 1, 0, 0, 0, str ""⟩,
             ⟨str "out", ArgTypeImage, 6, 2, 0, 0, 0, str ""⟩]⟩] =
      GenerateRender stableSliceSort
        [⟨str "abs", str "absolute value of an image", str "VipsArithmetic",
            [⟨str "in", ArgTypeImage, 5, 1, 0, 0, 0, str ""⟩,
             ⟨str "out", ArgTypeImage, 6, 2, 0, 0, 0, str ""⟩]⟩,
         ⟨str "invert", str "invert an image", str "VipsArithmetic",
            [⟨str "in", ArgTypeImage, 5, 1, 0, 0, 0, str ""⟩,
             ⟨str "out", ArgTypeImage, 6, 2, 0, 0, 0, str ""⟩]⟩] :=
  Generate_permutation_invariant stableSliceSort _ _ (List.Perm.swap _ _ _) (by decide)

/-! ### Introspect: sorting and deduplication -/

theorem mem_dedupLoop (seen : List GoString) (l : List OpDef) (x : OpDef)
    (hx : x ∈ dedupLoop seen l) : x ∈ l ∧ x.Name ∉ seen := by
  induction l generalizing seen with
  | nil => simp [dedupLoop] at hx
  | cons op rest ih =>
    unfold dedupLoop at hx
    by_cases hs : op.Name ∈ seen
    · rw [if_pos hs] at hx
      exact ⟨List.mem_cons_of_mem _ (ih seen hx).1, (ih seen hx).2⟩
    · rw [if_neg hs] at hx
      rcases List.mem_cons.mp hx with rfl | hx'
      · exact ⟨List.mem_cons_self _ _, hs⟩
      · have h := ih (op.Name :: seen) hx'
        exact ⟨List.mem_cons_of_mem _ h.1, fun hmem => h.2 (List.mem_cons_of_mem _ hmem)⟩

theorem names_dedupLoop (seen : List GoString) (l : List OpDef) (n : GoString) :
    n ∈ (dedupLoop seen l).map OpDef.Name ↔ n ∈ l.map OpDef.Name ∧ n ∉ seen := by
  induction l generalizing seen with
  | nil => simp [dedupLoop]
  | cons op rest ih =>
    unfold dedupLoop
    by_cases hs : op.Name ∈ seen
    · rw [if_pos hs, ih seen, List.map_cons, List.mem_cons]
      constructor
      · rintro ⟨h₁, h₂⟩
        exact ⟨Or.inr h₁, h₂⟩
      · rintro ⟨h₁ | h₁, h₂⟩
        · exact absurd (h₁ ▸ hs) h₂
        · exact ⟨h₁, h₂⟩
    · rw [if_neg hs, List.map_cons, List.mem_cons, ih (op.Name :: seen), List.map_cons,
        List.mem_cons, List.mem_cons]
      constructor
      · rintro (h | ⟨h₁, h₂⟩)
        · exact ⟨Or.inl h, h ▸ hs⟩
        · exact ⟨Or.inr h₁, fun hm => h₂ (Or.inr hm)⟩
      · rintro ⟨h₁ | h₁, h₂⟩
        · exact Or.inl h₁
        · by_cases hn : n = op.Name
          · exact Or.inl hn
          · exact Or.inr ⟨h₁, fun hm => hm.elim hn h₂⟩

theorem dedupLoop_strictly_ascending (seen : List GoString) (l : List OpDef)
    (hl : l.Pairwise (fun a b => a.Name ≤ b.Name)) :
    (dedupLoop seen l).Pairwise (fun a b => a.Name < b.Name) := by
  induction l generalizing seen with
  | nil => simp [dedupLoop]
  | cons op rest ih =>
    rw [List.pairwise_cons] at hl
    unfold dedupLoop
    by_cases hs : op.Name ∈ seen
    · rw [if_pos hs]
      exact ih seen hl.2
    · rw [if_neg hs, List.pairwise_cons]
      refine ⟨fun x hx => ?_, ih _ hl.2⟩
      have h := mem_dedupLoop _ _ _ hx
      exact lt_of_le_of_ne (hl.1 x h.1) (fun he => h.2 (he ▸ List.mem_cons_self _ _))

/-- The operations that Introspect sorts by name: the discovered ones, each
with its arguments sorted by priority. -/
theorem Introspect_eq (S : SliceSort) (result : List OpDef) :
    Introspect S 0 result = .ok (dedupLoop [] (S.sort lessByName
      (result.map (fun cop => { cop with Args := S.sort lessByPriority cop.Args })))) := by
  simp [Introspect]

theorem Introspect_names (S : SliceSort) (result : List OpDef) (n : GoString) :
    n ∈ (dedupLoop [] (S.sort lessByName
        (result.map (fun cop => { cop with Args := S.sort lessByPriority cop.Args })))).map
          OpDef.Name ↔
      ∃ d ∈ result, d.Name = n := by
  rw [names_dedupLoop, ((S.perm lessByName _).map OpDef.Name).mem_iff]
  simp

/-- C5: the operation list that Introspect returns has strictly ascending
names (so the names are pairwise distinct), and a name occurs in it exactly
when some discovered operation has that name. -/
theorem Introspect_names_strictly_ascending (S : SliceSort) (result : List OpDef) :
    ∃ ops, Introspect S 0 result = .ok ops ∧
      (ops.map OpDef.Name).Pairwise (fun a b => a < b) ∧
      (ops.map OpDef.Name).Nodup ∧
      (∀ n, n ∈ ops.map OpDef.Name ↔ ∃ d ∈ result, d.Name = n) := by
  refine ⟨_, Introspect_eq S result, ?_, ?_, Introspect_names S result⟩
  · exact List.pairwise_map.mpr
      (dedupLoop_strictly_ascending _ _ (sort_lessByName_ascending S _))
  · exact (List.pairwise_map.mpr
      (dedupLoop_strictly_ascending _ _ (sort_lessByName_ascending S _))).imp
        (fun h => ne_of_lt h)

theorem filter_name_of_ascending (l : List OpDef) (n : GoString)
    (hl : l.Pairwise (fun a b => a.Name < b.Name)) (hn : n ∈ l.map OpDef.Name) :
    ∃ op ∈ l, l.filter (fun op => decide (op.Name = n)) = [op] := by
  induction l with
  | nil => simp at hn
  | cons x rest ih =>
    rw [List.pairwise_cons] at hl
    by_cases hx : x.Name = n
    · refine ⟨x, List.mem_cons_self _ _, ?_⟩
      have hrest : rest.filter (fun op => decide (op.Name = n)) = [] := by
        rw [List.filter_eq_nil_iff]
        intro y hy
        have := hl.1 y hy
        simpa using fun he : y.Name = n => (ne_of_lt this) (hx.trans he.symm)
      rw [List.filter_cons_of_pos (by simpa using hx), hrest]
    · have hn' : n ∈ rest.map OpDef.Name := by
        rw [List.map_cons, List.mem_cons] at hn
        exact hn.resolve_left (fun h => hx h.symm)
      obtain ⟨op, hop, hf⟩ := ih hl.2 hn'
      exact ⟨op, List.mem_cons_of_mem _ hop, by
        rw [List.filter_cons_of_neg (by simpa using hx), hf]⟩

/-- C6 (as amended): when discovered operations share a name, exactly one
operation of that name is in the list that Introspect returns; it is one of
the discovered operations of that name, with its own argument list (sorted by
priority). Which of them it is depends on sort.Slice, which need not keep
equal elements in discovery order. -/
theorem Introspect_dedup_keeps_one (S : SliceSort) (result : List OpDef) (n : GoString)
    (hn : ∃ d ∈ result, d.Name = n) :
    ∃ ops, Introspect S 0 result = .ok ops ∧
      ∃ d ∈ result, d.Name = n ∧
        ops.filter (fun op => decide (op.Name = n)) =
          [{ d with Args := S.sort lessByPriority d.Args }] := by
  refine ⟨_, Introspect_eq S result, ?_⟩
  have hasc := dedupLoop_strictly_ascending []
    (S.sort lessByName
      (result.map (fun cop => { cop with Args := S.sort lessByPriority cop.Args })))
    (sort_lessByName_ascending S _)
  obtain ⟨op, hop, hf⟩ := filter_name_of_ascending _ n hasc ((Introspect_names S result n).mpr hn)
  have hopn : op.Name = n := by
    have : op ∈ [op] := List.mem_singleton_self op
    rw [← hf, List.mem_filter] at this
    simpa using this.2
  have hmem := (S.perm lessByName _).mem_iff.mp (mem_dedupLoop _ _ _ hop).1
  rw [List.mem_map] at hmem
  obtain ⟨d, hd, hdop⟩ := hmem
  refine ⟨d, hd, ?_, ?_⟩
  · rw [← hopn, ← hdop]
  · rw [hf, hdop]

/-- Witness of C6 (as amended): the two registrations of `copy`, with the
stable sort. -/
theorem Introspect_dedup_keeps_one_witness :
    ∃ ops, Introspect stableSliceSort 0 [copyFirst, copySecond] = .ok ops ∧
      ∃ d ∈ [copyFirst, copySecond], d.Name = str "copy" ∧
        ops.filter (fun op => decide (op.Name = str "copy")) =
          [{ d with Args := stableSliceSort.sort lessByPriority d.Args }] :=
  Introspect_dedup_keeps_one stableSliceSort [copyFirst, copySecond] (str "copy")
    ⟨copyFirst, by decide, by decide⟩

set_option maxRecDepth 100000 in
/-- C6 as stated fails on Go's own sort.Slice. Thirteen operations are
discovered, the two registrations of `copy` (with different argument lists)
first. With 13 elements pdqsort_func does not start with the insertion sort:
choosePivot_func takes the median of the elements at 3, 6 and 9 (`affine`,
`embed`, `gamma`), which is `embed` at 6; the slice is not in order, so
partition_func runs. It swaps the elements at 0 and 6, which puts `copyFirst`
behind `copySecond`; the names below `embed` then reach up to index 7
(`abs`), so the pivot goes to 7 and `abs` to 0, and `copyFirst` stays at 6.
The insertion sort of the seven elements before the pivot keeps this order
of the two. The deduplication keeps the first of them in sorted order: the
second-discovered registration. -/
theorem Introspect_dedup_not_first_discovered :
    thirteenOps.take 2 = [copyFirst, copySecond] ∧
      copyFirst.Name = copySecond.Name ∧ copyFirst.Args ≠ copySecond.Args ∧
      choosePivot_func lessByName thirteenOps 0 13 = (6, sortedHint.increasingHint) ∧
      partialInsertionSort_func lessByName thirteenOps 0 13 = false ∧
      (partition_func lessByName thirteenOps 0 13 6).1 =
        [ unaryOp (str "abs"), copySecond, unaryOp (str "add"), unaryOp (str "affine"),
          unaryOp (str "avg"), unaryOp (str "bandjoin"), copyFirst, unaryOp (str "embed"),
          unaryOp (str "flip"), unaryOp (str "gamma"), unaryOp (str "invert"),
          unaryOp (str "linear"), unaryOp (str "rot") ] ∧
      pdqsortShort lessByName thirteenOps =
        [ unaryOp (str "abs"), unaryOp (str "add"), unaryOp (str "affine"), unaryOp (str "avg"),
          unaryOp (str "bandjoin"), copySecond, copyFirst, unaryOp (str "embed"),
          unaryOp (str "flip"), unaryOp (str "gamma"), unaryOp (str "invert"),
          unaryOp (str "linear"), unaryOp (str "rot") ] ∧
      (Introspect (goSliceSort stableSliceSort) 0 thirteenOps).toOption =
        some [ unaryOp (str "abs"), unaryOp (str "add"), unaryOp (str "affine"),
          unaryOp (str "avg"), unaryOp (str "bandjoin"), copySecond, unaryOp (str "embed"),
          unaryOp (str "flip"), unaryOp (str "gamma"), unaryOp (str "invert"),
          unaryOp (str "linear"), unaryOp (str "rot") ] ∧
      (Introspect (goSliceSort stableSliceSort) 0 thirteenOps).toOption.map
        (fun ops => ops.filter (fun op => decide (op.Name = str "copy"))) = some [copySecond] := by
  decide

/-! ### Identifiers: segments and the reserved-word tables -/

theorem stringsSplit_ne_nil (s : GoString) (sep : Byte) : stringsSplit s sep ≠ [] := by
  cases s with
  | nil => simp [stringsSplit]
  | cons b rest =>
    unfold stringsSplit
    split_ifs
    · simp
    · split <;> simp

theorem goArgNameLoop_succ (i : Nat) (parts : List GoString) :
    goArgNameLoop (i + 1) parts = (parts.map capitalise).flatten := by
  induction parts generalizing i with
  | nil => simp [goArgNameLoop]
  | cons p rest ih =>
    rw [goArgNameLoop, ih (i + 1)]
    simp [capitalise]

theorem goArgNameLoop_zero (p₀ : GoString) (rest : List GoString) :
    goArgNameLoop 0 (p₀ :: rest) = p₀ ++ (rest.map capitalise).flatten := by
  rw [goArgNameLoop, goArgNameLoop_succ]
  by_cases h : p₀ = [] <;> simp [h]

theorem goArgName_eq_remapReserved (name : GoString) :
    goArgName name = remapReserved (goArgNameLoop 0 (nameParts name)) := rfl

/-- C12 (as amended): goArgName splits the name at '-' and '_' exactly as
goName does, leaves the segment before the first separator as written and
capitalises every later non-empty segment (an ASCII lower-case first byte is
upper-cased, any other ASCII first byte is kept), before the reserved-word
remapping is applied. -/
theorem goArgName_segments (name : GoString) :
    (∃ p₀ rest, nameParts name = p₀ :: rest ∧
      goName name = ((p₀ :: rest).map capitalise).flatten ∧
      goArgName name = remapReserved (p₀ ++ (rest.map capitalise).flatten)) ∧
      (∀ (b : Byte) (t : GoString), b.val < 128 →
        capitalise (b :: t) =
          (if 97 ≤ b.val ∧ b.val ≤ 122 then Fin.ofNat (b.val - 32) else b) :: t) := by
  obtain ⟨p₀, rest, hparts⟩ : ∃ p₀ rest, nameParts name = p₀ :: rest := by
    cases h : nameParts name with
    | nil => exact absurd h (stringsSplit_ne_nil _ _)
    | cons p₀ rest => exact ⟨p₀, rest, rfl⟩
  refine ⟨⟨p₀, rest, hparts, ?_, ?_⟩, ?_⟩
  · unfold goName
    rw [hparts]
    rfl
  · rw [goArgName_eq_remapReserved, hparts, goArgNameLoop_zero]
  · intro b t hb
    simp only [capitalise, upperFirst, stringsToUpperByte, hb, if_true]
    split_ifs <;> simp_all

/-- Witness of C12 (as amended) at a segment that starts with the letter s. -/
theorem goArgName_segments_witness :
    capitalise ((115 : Byte) :: str "igma") =
      (if 97 ≤ (115 : Byte).val ∧ (115 : Byte).val ≤ 122 then Fin.ofNat ((115 : Byte).val - 32)
        else (115 : Byte)) :: str "igma" :=
  (goArgName_segments (str "x-sigma")).2 115 (str "igma") (by decide)

/-- C12 as stated fails: the name "_foo" starts with a separator, its first
non-empty segment is "foo", and goArgName capitalises it: the result is
"Foo", not "foo". -/
theorem goArgName_leading_separator_capitalised :
    goArgName (str "_foo") = str "Foo" ∧
      nameParts (str "_foo") = [str "", str "foo"] ∧
      remapReserved (camelFromFirstNonEmpty (nameParts (str "_foo"))) = str "foo" ∧
      goArgName (str "_foo") ≠ remapReserved (camelFromFirstNonEmpty (nameParts (str "_foo"))) := by
  decide

/-- C13: goExportedArgName(name) equals goName(name), except that the results
Type, Func, Map, Range and In are replaced by Typ, Fn, MapVal, RangeVal and
Input; hence goExportedArgName never returns Type, Func, Map, Range or In. -/
theorem goExportedArgName_eq_goName_remapped (name : GoString) :
    goExportedArgName name = remapExported (goName name) ∧
      (goName name ∉ [str "Type", str "Func", str "Map", str "Range", str "In"] →
        goExportedArgName name = goName name) ∧
      goExportedArgName name ∉ [str "Type", str "Func", str "Map", str "Range", str "In"] := by
  have h : goExportedArgName name = remapExported (goName name) := rfl
  refine ⟨h, ?_, ?_⟩
  · intro hn
    rw [h]
    unfold remapExported
    simp only [List.mem_cons, List.mem_singleton, not_or, List.not_mem_nil, or_false] at hn
    simp [hn.1, hn.2.1, hn.2.2.1, hn.2.2.2.1, hn.2.2.2.2]
  · rw [h]
    unfold remapExported
    split_ifs with h1 h2 h3 h4 h5
    · decide
    · decide
    · decide
    · decide
    · decide
    · simp [h1, h2, h3, h4, h5]

/-- Witness of C13 at the name "out-format". -/
theorem goExportedArgName_eq_goName_remapped_witness :
    goExportedArgName (str "out-format") = goName (str "out-format") :=
  (goExportedArgName_eq_goName_remapped (str "out-format")).2.1 (by decide)

/-! ### Enum arguments -/

/-- C14: for an Enum argument whose EnumType has no entry in enumGoName,
goTypeName returns "int" and goOptTypeName returns "*int"; when the entry
exists they return the mapped Go type name and "*" followed by that name. -/
theorem enum_type_names (a : ArgDef) (ha : a.Typ = ArgTypeEnum) :
    (enumGoName.lookup a.EnumType = none →
        goTypeName a = str "int" ∧ goOptTypeName a = str "*int") ∧
      (∀ v, enumGoName.lookup a.EnumType = some v →
        goTypeName a = v ∧ goOptTypeName a = str "*" ++ v) := by
  have hvals : ∀ p ∈ enumGoName, p.2 ≠ str "" := by decide
  constructor
  · intro hnone
    simp [goTypeName, goOptTypeName, ha, goEnumName, hnone]
  · intro v hv
    have hmem : (a.EnumType, v) ∈ enumGoName := by
      have : ∀ (m : List (GoString × GoString)), m.lookup a.EnumType = some v →
          (a.EnumType, v) ∈ m := by
        intro m
        induction m with
        | nil => simp
        | cons p m ih =>
          obtain ⟨k, w⟩ := p
          by_cases hk : a.EnumType = k
          · subst hk
            simp [List.lookup]
            intro h
            exact Or.inl h.symm
          · have hbeq : (a.EnumType == k) = false := by simpa using hk
            simp only [List.lookup, hbeq]
            intro h
            exact List.mem_cons_of_mem _ (ih h)
      exact this _ hv
    have hne : v ≠ str "" := hvals _ hmem
    simp [goTypeName, goOptTypeName, ha, goEnumName, hv, hne]

/-- Witness of C14 at an Enum argument of the mapped type VipsKernel. -/
theorem enum_type_names_witness :
    goTypeName ⟨str "kernel", ArgTypeEnum, 1, 0, 0, 0, 0, str "VipsKernel"⟩ = str "Kernel" ∧
      goOptTypeName ⟨str "kernel", ArgTypeEnum, 1, 0, 0, 0, 0, str "VipsKernel"⟩ =
        str "*" ++ str "Kernel" :=
  (enum_type_names ⟨str "kernel", ArgTypeEnum, 1, 0, 0, 0, 0, str "VipsKernel"⟩ rfl).2
    (str "Kernel") (by decide)

/-! ### Occurrence of a text in an emitted text -/

theorem occursIn_self (m : GoString) : occursIn m m := ⟨[], [], by simp⟩

theorem occursIn_append_left (m x y : GoString) (h : occursIn m x) : occursIn m (x ++ y) := by
  obtain ⟨pre, post, rfl⟩ := h
  exact ⟨pre, post ++ y, by simp only [List.append_assoc]⟩

theorem occursIn_append_right (m x y : GoString) (h : occursIn m y) : occursIn m (x ++ y) := by
  obtain ⟨pre, post, rfl⟩ := h
  exact ⟨x ++ pre, post, by simp only [List.append_assoc]⟩

theorem occursIn_suffix₃ (p a b c : GoString) : occursIn (a ++ b ++ c) (p ++ a ++ b ++ c) :=
  ⟨p, [], by simp only [List.append_assoc, List.append_nil]⟩

/-! ### The options struct of the header -/

set_option maxRecDepth 100000 in
/-- C15 (the code does not hold it): for the optional ArrayImage input
`extra` the options struct that genCHeaderOp emits holds the flag has_extra
and an `int extra` field, and no length field extra_n, while the bridge
declares the field as a slice of images and an optional ArrayDouble input
gets its pointer and its length field. -/
theorem genCHeaderOp_arrayImage_without_length :
    overlayOp.OptionalInputs = [extraImages] ∧
      genCHeaderOpStruct overlayOp =
        str "typedef struct \x7b\n    int has_extra;\n    int extra;\n\x7d GenOverlayOpts;\n\n" ∧
      ¬ (str "extra_n" <:+: genCHeaderOp overlayOp) ∧
      isNilCheckType extraImages = true ∧
      goOptTypeName extraImages = str "[]*C.VipsImage" ∧
      genCHeaderOpField ⟨str "background", ArgTypeArrayDouble, 1, 2, 0, 0, 0, str ""⟩ =
        str "    int has_background;\n    double *background; int background_n;\n" := by
  decide

/-! ### The setter of an array input -/

set_option maxRecDepth 100000 in
/-- C18 (the code does not hold it): for the optional ArrayImage input
`extra` genCSetOptArg emits the plain setter on the value, without the array
box and without vips_area_unref, while genCSetArg emits for the same argument
the box, the set and the release. -/
theorem genCSetOptArg_arrayImage_without_box :
    genCSetOptArg extraImages (str "opts->extra") =
        str "            vips_object_set(VIPS_OBJECT(op), \"extra\", opts->extra, NULL);\n" ∧
      ¬ (str "vips_array_image_new" <:+: genCSetOptArg extraImages (str "opts->extra")) ∧
      ¬ (str "vips_area_unref" <:+: genCSetOptArg extraImages (str "opts->extra")) ∧
      genCSetArg extraImages (str "extra") false =
        str "    \x7b\n"
          ++ str "        VipsArrayImage *arr = vips_array_image_new(extra, extra_n);\n"
          ++ str "        int ret = vips_object_set(VIPS_OBJECT(op), \"extra\", arr, NULL);\n"
          ++ str "        vips_area_unref(VIPS_AREA(arr));\n"
          ++ str "        if (ret) goto error;\n"
          ++ str "    \x7d\n" := by
  decide

/-! ### One prototype and one entry point per operation -/

theorem genCHeaderOp_eq_decls (op : OpDef) :
    genCHeaderOp op =
      (((if op.OptionalInputs = [] then [] else [OpDecl.options op]) ++
        [OpDecl.function op]).map headerDeclText).flatten := by
  unfold genCHeaderOp genCHeaderOpStruct
  by_cases h : op.OptionalInputs = []
  · simp [h, headerDeclText]
  · have hpos : op.OptionalInputs.length > 0 := List.length_pos.mpr h
    simp [h, hpos, headerDeclText, List.append_assoc]

theorem genGoFunc_eq_decls (op : OpDef) :
    genGoFunc op =
      (((if op.OptionalInputs = [] then [] else [OpDecl.options op]) ++
        [OpDecl.function op]).map bridgeDeclText).flatten := by
  unfold genGoFunc genGoFuncOptsStruct
  by_cases h : op.OptionalInputs = []
  · simp [h, bridgeDeclText]
  · have hpos : op.OptionalInputs.length > 0 := List.length_pos.mpr h
    simp [h, hpos, bridgeDeclText, List.append_assoc]

theorem flatten_map_opDecls (f : OpDef → GoString) (g : OpDecl → GoString)
    (hfg : ∀ op, f op =
      (((if op.OptionalInputs = [] then [] else [OpDecl.options op]) ++
        [OpDecl.function op]).map g).flatten)
    (ops : List OpDef) :
    (ops.map f).flatten = ((opDecls ops).map g).flatten := by
  induction ops with
  | nil => simp [opDecls]
  | cons op ops ih =>
    have hcons : opDecls (op :: ops) =
        ((if op.OptionalInputs = [] then [] else [OpDecl.options op]) ++
          [OpDecl.function op]) ++ opDecls ops := by
      simp [opDecls]
    rw [List.map_cons, List.flatten_cons, ih, hfg op, hcons]
    simp only [List.map_append, List.flatten_append]

theorem declaredFunctions_opDecls (ops : List OpDef) :
    declaredFunctions (opDecls ops) = ops := by
  induction ops with
  | nil => simp [opDecls, declaredFunctions]
  | cons op ops ih =>
    have hcons : opDecls (op :: ops) =
        ((if op.OptionalInputs = [] then [] else [OpDecl.options op]) ++
          [OpDecl.function op]) ++ opDecls ops := by
      simp [opDecls]
    unfold declaredFunctions at ih ⊢
    rw [hcons, List.filterMap_append, ih]
    by_cases h : op.OptionalInputs = [] <;> simp [h, List.filterMap]

theorem declaredOptions_opDecls (ops : List OpDef) :
    declaredOptions (opDecls ops) = ops.filter (fun op => decide (op.OptionalInputs ≠ [])) := by
  induction ops with
  | nil => simp [opDecls, declaredOptions]
  | cons op ops ih =>
    have hcons : opDecls (op :: ops) =
        ((if op.OptionalInputs = [] then [] else [OpDecl.options op]) ++
          [OpDecl.function op]) ++ opDecls ops := by
      simp [opDecls]
    unfold declaredOptions at ih ⊢
    rw [hcons, List.filterMap_append, ih]
    by_cases h : op.OptionalInputs = [] <;> simp [h, List.filterMap]

/-- C16: for every operation list, the text of genCHeader is its preamble,
then per operation, in order, an options struct exactly when the operation
has an optional input and one prototype, then the closing guard; the text of
genGoBridge is its preamble, then per operation, in order, an options type
exactly when the operation has an optional input and one entry-point
function. -/
theorem genCHeader_genGoBridge_one_function_per_op (ops : List OpDef) :
    genCHeader ops =
        str "// Code generated by vipsgen. DO NOT EDIT.\n"
          ++ str "#ifndef GENERATED_H\n"
          ++ str "#define GENERATED_H\n\n"
          ++ str "#include <stdlib.h>\n"
          ++ str "#include <vips/vips.h>\n\n"
          ++ ((opDecls ops).map headerDeclText).flatten
          ++ str "#endif\n" ∧
      genGoBridge ops =
        str "// Code generated by vipsgen. DO NOT EDIT.\n"
          ++ str "package vips\n\n"
          ++ str "// #include \"generated.h\"\n"
          ++ str "import \"C\"\n\n"
          ++ (if ops.any opHasArrayOpts then str "import (\n\t\"runtime\"\n\t\"unsafe\"\n)\n\n"
            else str "import \"unsafe\"\n\n")
          ++ str "// Ensure imports are used.\n"
          ++ str "var _ = unsafe.Pointer(nil)\n\n"
          ++ ((opDecls ops).map bridgeDeclText).flatten ∧
      declaredFunctions (opDecls ops) = ops ∧
      declaredOptions (opDecls ops) = ops.filter (fun op => decide (op.OptionalInputs ≠ [])) ∧
      (∀ op, ∃ body, genGoFuncEntry op =
        str "// " ++ goFuncName op.Name ++ str " calls the vips " ++ op.Name
          ++ str " operation.\n" ++ str "// " ++ op.Description ++ str "\n"
          ++ str "func " ++ goFuncName op.Name ++ str "(" ++ body ++ str "\x7d\n\n") := by
  refine ⟨?_, ?_, declaredFunctions_opDecls ops, declaredOptions_opDecls ops, ?_⟩
  · unfold genCHeader
    rw [flatten_map_opDecls genCHeaderOp headerDeclText genCHeaderOp_eq_decls]
  · unfold genGoBridge
    rw [flatten_map_opDecls genGoFunc bridgeDeclText genGoFunc_eq_decls]
  · intro op
    refine ⟨stringsJoin (genGoFuncParams op) (str ", ") ++ str ") ("
      ++ genGoFuncRetTypes op
      ++ str ") \x7b\n"
      ++ str "\tincOpCounter(\"" ++ op.Name ++ str "\")\n\n"
      ++ genGoFuncStrTemps op
      ++ (op.Outputs.map genGoFuncOutVar).flatten
      ++ genGoFuncOpts op
      ++ str "\n\tret := C." ++ cFuncName op.Name ++ str "("
      ++ stringsJoin (genGoFuncCArgs op) (str ", ") ++ str ")\n"
      ++ genGoFuncErr op
      ++ genGoFuncRet op, ?_⟩
    unfold genGoFuncEntry
    simp only [List.append_assoc]

/-! ### The setters and the error path -/

theorem scan_append (q : ScanState) (s t : GoString) : scan q (s ++ t) = scan (scan q s) t := by
  simp [scan, List.foldl_append]

theorem scan_found (s : GoString) : scan .found s = .found := by
  induction s with
  | nil => rfl
  | cons b s ih => simpa [scan, scanStep] using ih

theorem scan_o_blank (q : ScanState) : scan q [111, 32] = .found := by
  cases q <;> decide

theorem scan_of_occursIn (q : ScanState) (t : GoString) (h : occursIn [111, 32] t) :
    scan q t = .found := by
  obtain ⟨pre, post, rfl⟩ := h
  rw [scan_append, scan_append, scan_o_blank, scan_found]

theorem scanClean_of_no_blank (s : GoString) (hs : (32 : Byte) ∉ s) : scanClean s = true := by
  have h : ∀ q, q ≠ ScanState.found → scan q s ≠ ScanState.found := by
    induction s with
    | nil => intro q hq; simpa [scan] using hq
    | cons b s ih =>
      intro q hq
      have hb : b ≠ 32 := fun h => hs (h ▸ List.mem_cons_self _ _)
      have hs' : (32 : Byte) ∉ s := fun h => hs (List.mem_cons_of_mem _ h)
      have hstep : scanStep q b ≠ ScanState.found := by
        cases q
        · simp only [scanStep]; split_ifs <;> simp
        · simp only [scanStep, hb, if_false]; split_ifs <;> simp
        · exact absurd rfl hq
      have := ih hs' (scanStep q b) hstep
      simpa [scan] using this
  simp only [scanClean, Bool.and_eq_true, decide_eq_true_eq]
  exact ⟨h _ (by simp), h _ (by simp)⟩

theorem scanCleanStart_append (s t : GoString) (hs : scanCleanStart s = true)
    (ht : scanClean t = true) : scanCleanStart (s ++ t) = true := by
  simp only [scanClean, scanCleanStart, Bool.and_eq_true, decide_eq_true_eq] at *
  rw [scan_append]
  cases h : scan ScanState.other s
  · exact ht.1
  · exact ht.2
  · exact absurd h hs

theorem not_occursIn_goto_of_scanCleanStart (t : GoString) (ht : scanCleanStart t = true) :
    ¬ occursIn (str "goto error") t := by
  intro h
  have h' : occursIn [111, 32] t := by
    obtain ⟨pre, post, rfl⟩ := h
    refine ⟨pre ++ str "got", str "error" ++ post, ?_⟩
    have : str "goto error" = str "got" ++ [111, 32] ++ str "error" := by decide
    rw [this]
    simp only [List.append_assoc]
  simp only [scanCleanStart, decide_eq_true_eq] at ht
  exact ht (scan_of_occursIn _ t h')

theorem genCSetOptArg_scanCleanStart (a : ArgDef) (v : GoString)
    (hn : (32 : Byte) ∉ a.Name) (hv : (32 : Byte) ∉ v) :
    scanCleanStart (genCSetOptArg a v) = true := by
  have hN := scanClean_of_no_blank _ hn
  have hV := scanClean_of_no_blank _ hv
  unfold genCSetOptArg
  cases a.Typ <;> simp only []
  case ArgTypeArrayDouble =>
    rw [show str "            \x7b\n"
        ++ str "                VipsArrayDouble *arr = vips_array_double_new(" ++ v ++ str ", " ++ v
        ++ str "_n);\n"
        ++ str "                vips_object_set(VIPS_OBJECT(op), \"" ++ a.Name
        ++ str "\", arr, NULL);\n"
        ++ str "                vips_area_unref(VIPS_AREA(arr));\n"
        ++ str "            \x7d\n" =
      (str "            \x7b\n"
        ++ str "                VipsArrayDouble *arr = vips_array_double_new(") ++ v ++ str ", " ++ v
        ++ (str "_n);\n"
        ++ str "                vips_object_set(VIPS_OBJECT(op), \"") ++ a.Name
        ++ (str "\", arr, NULL);\n"
        ++ str "                vips_area_unref(VIPS_AREA(arr));\n"
        ++ str "            \x7d\n") from by simp only [List.append_assoc]]
    repeat' first
      | (with_reducible exact hN)
      | (with_reducible exact hV)
      | decide
      | (with_reducible apply scanCleanStart_append)
  case ArgTypeArrayInt =>
    rw [show str "            \x7b\n"
        ++ str "                VipsArrayInt *arr = vips_array_int_new(" ++ v ++ str ", " ++ v
        ++ str "_n);\n"
        ++ str "                vips_object_set(VIPS_OBJECT(op), \"" ++ a.Name
        ++ str "\", arr, NULL);\n"
        ++ str "                vips_area_unref(VIPS_AREA(arr));\n"
        ++ str "            \x7d\n" =
      (str "            \x7b\n"
        ++ str "                VipsArrayInt *arr = vips_array_int_new(") ++ v ++ str ", " ++ v
        ++ (str "_n);\n"
        ++ str "                vips_object_set(VIPS_OBJECT(op), \"") ++ a.Name
        ++ (str "\", arr, NULL);\n"
        ++ str "                vips_area_unref(VIPS_AREA(arr));\n"
        ++ str "            \x7d\n") from by simp only [List.append_assoc]]
    repeat' first
      | (with_reducible exact hN)
      | (with_reducible exact hV)
      | decide
      | (with_reducible apply scanCleanStart_append)
  all_goals
    repeat' first
      | (with_reducible exact hN)
      | (with_reducible exact hV)
      | decide
      | (with_reducible apply scanCleanStart_append)

/-- C17: for every argument kind, the code that genCSetArg emits for a
required input checks the result of the property setter and jumps to the
error path (goto error) on failure, directly or through `ret` after the
array box is released; the code that genCSetOptArg emits for an optional
input is the setter call as a statement, its result discarded, and holds no
jump to the error path. -/
theorem genCSetArg_checked_genCSetOptArg_discarded (a : ArgDef) (v : GoString) (isOpt : Bool) :
    (genCSetArg a v isOpt = str "    " ++ checkedSet (setCall a.Name (setValue a v)) ∨
      ∃ box, genCSetArg a v isOpt =
        str "    \x7b\n" ++ box
          ++ str "        int ret = " ++ setCall a.Name (str "arr") ++ str ";\n"
          ++ str "        vips_area_unref(VIPS_AREA(arr));\n"
          ++ str "        if (ret) goto error;\n"
          ++ str "    \x7d\n") ∧
      occursIn (str "goto error;\n") (genCSetArg a v isOpt) ∧
      (genCSetOptArg a v =
          str "            " ++ discardedSet (setCall a.Name (setValue a v)) ∨
        ∃ box, genCSetOptArg a v =
          str "            \x7b\n" ++ box
            ++ str "                " ++ discardedSet (setCall a.Name (str "arr"))
            ++ str "                vips_area_unref(VIPS_AREA(arr));\n"
            ++ str "            \x7d\n") ∧
      ((32 : Byte) ∉ a.Name → (32 : Byte) ∉ v →
        ¬ occursIn (str "goto error") (genCSetOptArg a v)) := by
  have h1 : str "    if (vips_object_set(VIPS_OBJECT(op), \"" =
      str "    " ++ (str "if (" ++ str "vips_object_set(VIPS_OBJECT(op), \"") := by decide
  have h2 : str "\", (gboolean)" = str "\", " ++ str "(gboolean)" := by decide
  have h3 : str "\", (int)" = str "\", " ++ str "(int)" := by decide
  have h4 : str ", NULL)) goto error;\n" = str ", NULL)" ++ str ") goto error;\n" := by decide
  have h5 : str "        int ret = vips_object_set(VIPS_OBJECT(op), \"" =
      str "        int ret = " ++ str "vips_object_set(VIPS_OBJECT(op), \"" := by decide
  have h6 : str "\", arr, NULL);\n" = str "\", " ++ (str "arr" ++ (str ", NULL)" ++ str ";\n")) := by
    decide
  have h7 : str "            vips_object_set(VIPS_OBJECT(op), \"" =
      str "            " ++ str "vips_object_set(VIPS_OBJECT(op), \"" := by decide
  have h8 : str ", NULL);\n" = str ", NULL)" ++ str ";\n" := by decide
  have h9 : str "                vips_object_set(VIPS_OBJECT(op), \"" =
      str "                " ++ str "vips_object_set(VIPS_OBJECT(op), \"" := by decide
  have hreq : genCSetArg a v isOpt = str "    " ++ checkedSet (setCall a.Name (setValue a v)) ∨
      ∃ box, genCSetArg a v isOpt =
        str "    \x7b\n" ++ box
          ++ str "        int ret = " ++ setCall a.Name (str "arr") ++ str ";\n"
          ++ str "        vips_area_unref(VIPS_AREA(arr));\n"
          ++ str "        if (ret) goto error;\n"
          ++ str "    \x7d\n" := by
    unfold genCSetArg checkedSet setCall setValue
    cases a.Typ <;> simp only []
    case ArgTypeArrayDouble =>
      exact Or.inr ⟨str "        VipsArrayDouble *arr = vips_array_double_new(" ++ v ++ str ", "
        ++ v ++ str "_n);\n", by rw [h5, h6]; simp only [List.append_assoc]⟩
    case ArgTypeArrayInt =>
      exact Or.inr ⟨str "        VipsArrayInt *arr = vips_array_int_new(" ++ v ++ str ", "
        ++ v ++ str "_n);\n", by rw [h5, h6]; simp only [List.append_assoc]⟩
    case ArgTypeArrayImage =>
      exact Or.inr ⟨str "        VipsArrayImage *arr = vips_array_image_new(" ++ v ++ str ", "
        ++ v ++ str "_n);\n", by rw [h5, h6]; simp only [List.append_assoc]⟩
    all_goals
      left
      simp only [h1, h2, h3, h4, List.append_assoc]
  refine ⟨hreq, ?_, ?_, ?_⟩
  · rcases hreq with h | ⟨box, h⟩
    · rw [h]
      unfold checkedSet
      have : str ") goto error;\n" = str ") " ++ str "goto error;\n" := by decide
      rw [this]
      exact occursIn_append_right _ _ _ (occursIn_append_right _ _ _
        (occursIn_append_right _ _ _ (occursIn_self _)))
    · rw [h]
      have : str "        if (ret) goto error;\n" = str "        if (ret) " ++ str "goto error;\n" := by
        decide
      rw [this]
      exact occursIn_append_left _ _ _ (occursIn_append_right _ _ _
        (occursIn_append_right _ _ _ (occursIn_self _)))
  · unfold genCSetOptArg discardedSet setCall setValue
    cases a.Typ <;> simp only []
    case ArgTypeArrayDouble =>
      exact Or.inr ⟨str "                VipsArrayDouble *arr = vips_array_double_new(" ++ v
        ++ str ", " ++ v ++ str "_n);\n", by rw [h9, h6]; simp only [List.append_assoc]⟩
    case ArgTypeArrayInt =>
      exact Or.inr ⟨str "                VipsArrayInt *arr = vips_array_int_new(" ++ v
        ++ str ", " ++ v ++ str "_n);\n", by rw [h9, h6]; simp only [List.append_assoc]⟩
    all_goals
      left
      simp only [h7, h2, h3, h8, List.append_assoc]
  · intro hn hv
    exact not_occursIn_goto_of_scanCleanStart _ (genCSetOptArg_scanCleanStart a v hn hv)

/-- Witness of C17 at an optional Bool input. -/
theorem genCSetArg_checked_genCSetOptArg_discarded_witness :
    ¬ occursIn (str "goto error")
      (genCSetOptArg ⟨str "premultiplied", ArgTypeBool, 1, 2, 0, 0, 0, str ""⟩
        (str "opts->premultiplied")) :=
  (genCSetArg_checked_genCSetOptArg_discarded
    ⟨str "premultiplied", ArgTypeBool, 1, 2, 0, 0, 0, str ""⟩ (str "opts->premultiplied")
    false).2.2.2 (by decide) (by decide)

/-! ### goArgName on names in canonical form -/

theorem stringsJoin_stringsSplit (s : GoString) (sep : Byte) :
    stringsJoin (stringsSplit s sep) [sep] = s := by
  induction s with
  | nil => rfl
  | cons b rest ih =>
    unfold stringsSplit
    by_cases hb : b = sep
    · rw [if_pos hb, stringsJoin_cons, if_neg (stringsSplit_ne_nil rest sep), ih, hb]
      rfl
    · rw [if_neg hb]
      cases hsplit : stringsSplit rest sep with
      | nil => exact absurd hsplit (stringsSplit_ne_nil rest sep)
      | cons p ps =>
        rw [hsplit] at ih
        simp only []
        rw [stringsJoin_cons] at ih ⊢
        by_cases hps : ps = []
        · rw [if_pos hps] at ih ⊢
          rw [ih]
        · rw [if_neg hps] at ih ⊢
          rw [← ih]
          simp only [List.cons_append, List.append_assoc]

theorem capitalise_later (b : Byte) (t : GoString) (hb : isLowerByte b = true) :
    capitalise (b :: t) = Fin.ofNat (b.val - 32) :: t ∧
      65 ≤ (Fin.ofNat (b.val - 32) : Byte).val ∧ (Fin.ofNat (b.val - 32) : Byte).val ≤ 90 ∧
      (Fin.ofNat (b.val - 32) : Byte).val = b.val - 32 := by
  simp only [isLowerByte, decide_eq_true_eq] at hb
  have hval : (Fin.ofNat (b.val - 32) : Byte).val = b.val - 32 := by
    show (b.val - 32) % 256 = b.val - 32
    have := b.isLt
    omega
  refine ⟨?_, ?_, ?_, hval⟩
  · have hlt : b.val < 128 := by omega
    simp [capitalise, upperFirst, stringsToUpperByte, hlt, hb]
  · omega
  · omega

theorem plain_not_upper (c : Byte) (hc : (isLowerByte c || isDigitByte c) = true) :
    ¬ (65 ≤ c.val ∧ c.val ≤ 90) := by
  simp only [isLowerByte, isDigitByte, Bool.or_eq_true, decide_eq_true_eq] at hc
  omega

theorem camel_head_inj (ps : List GoString)
    (ih : ∀ qs, qs.all laterSegment = true →
      (ps.map capitalise).flatten = (qs.map capitalise).flatten → ps = qs)
    (hps : ps.all laterSegment = true) (p : GoString) :
    ∀ (q : GoString) (qs : List GoString), plainSegment p = true → plainSegment q = true →
      qs.all laterSegment = true →
      p ++ (ps.map capitalise).flatten = q ++ (qs.map capitalise).flatten → p = q ∧ ps = qs := by
  have hupper : ∀ (c : Byte) (r : GoString) (xs : List GoString) (ys : GoString),
      (isLowerByte c || isDigitByte c) = true → xs.all laterSegment = true →
      (xs.map capitalise).flatten = c :: r ++ ys → False := by
    intro c r xs ys hc hxs h
    cases xs with
    | nil => simp at h
    | cons x xs =>
      cases x with
      | nil => simp [laterSegment] at hxs
      | cons b t =>
        have hb : isLowerByte b = true := by
          simp only [List.all_cons, laterSegment, Bool.and_eq_true] at hxs
          exact hxs.1.1
        obtain ⟨hcap, h65, h90, _⟩ := capitalise_later b t hb
        rw [List.map_cons, List.flatten_cons, hcap] at h
        simp only [List.cons_append, List.cons.injEq] at h
        exact plain_not_upper c hc (h.1 ▸ ⟨h65, h90⟩)
  induction p with
  | nil =>
    intro q qs _ hq hqs h
    cases q with
    | nil => exact ⟨rfl, ih qs hqs (by simpa using h)⟩
    | cons c q =>
      exfalso
      have hc : (isLowerByte c || isDigitByte c) = true := by
        simp only [plainSegment, List.all_cons, Bool.and_eq_true] at hq
        exact hq.1
      exact hupper c q ps _ hc hps (by simpa using h)
  | cons c p ihp =>
    intro q qs hp hq hqs h
    have hc : (isLowerByte c || isDigitByte c) = true := by
      simp only [plainSegment, List.all_cons, Bool.and_eq_true] at hp
      exact hp.1
    have hp' : plainSegment p = true := by
      simp only [plainSegment, List.all_cons, Bool.and_eq_true] at hp
      exact hp.2
    cases q with
    | nil =>
      exfalso
      exact hupper c p qs _ hc hqs (by simpa using h.symm)
    | cons c' q =>
      have hq' : plainSegment q = true := by
        simp only [plainSegment, List.all_cons, Bool.and_eq_true] at hq
        exact hq.2
      simp only [List.cons_append, List.cons.injEq] at h
      obtain ⟨hpq, hps'⟩ := ihp q qs hp' hq' hqs h.2
      exact ⟨by rw [h.1, hpq], hps'⟩

theorem camel_tail_inj (ps : List GoString) :
    ∀ qs, ps.all laterSegment = true → qs.all laterSegment = true →
      (ps.map capitalise).flatten = (qs.map capitalise).flatten → ps = qs := by
  induction ps with
  | nil =>
    intro qs _ hqs h
    cases qs with
    | nil => rfl
    | cons y ys =>
      exfalso
      cases y with
      | nil => simp [laterSegment] at hqs
      | cons b t =>
        have hb : isLowerByte b = true := by
          simp only [List.all_cons, laterSegment, Bool.and_eq_true] at hqs
          exact hqs.1.1
        rw [List.map_cons, List.flatten_cons, (capitalise_later b t hb).1] at h
        simp at h
  | cons x xs ih =>
    intro qs hps hqs h
    have hxs : xs.all laterSegment = true := by
      simp only [List.all_cons, Bool.and_eq_true] at hps
      exact hps.2
    cases x with
    | nil => simp [laterSegment] at hps
    | cons b t =>
      have hb : isLowerByte b = true ∧ plainSegment t = true := by
        simp only [List.all_cons, laterSegment, Bool.and_eq_true] at hps
        exact hps.1
      cases qs with
      | nil =>
        exfalso
        rw [List.map_cons, List.flatten_cons, (capitalise_later b t hb.1).1] at h
        simp at h
      | cons y ys =>
        cases y with
        | nil => simp [laterSegment] at hqs
        | cons b' t' =>
          have hb' : isLowerByte b' = true ∧ plainSegment t' = true := by
            simp only [List.all_cons, laterSegment, Bool.and_eq_true] at hqs
            exact hqs.1
          have hys : ys.all laterSegment = true := by
            simp only [List.all_cons, Bool.and_eq_true] at hqs
            exact hqs.2
          obtain ⟨hcap, _, _, hv⟩ := capitalise_later b t hb.1
          obtain ⟨hcap', _, _, hv'⟩ := capitalise_later b' t' hb'.1
          rw [List.map_cons, List.flatten_cons, hcap, List.map_cons, List.flatten_cons, hcap'] at h
          simp only [List.cons_append, List.cons.injEq] at h
          have hbb : b = b' := by
            have h1 := congrArg Fin.val h.1
            rw [hv, hv'] at h1
            have hl := hb.1
            have hl' := hb'.1
            simp only [isLowerByte, decide_eq_true_eq] at hl hl'
            exact Fin.ext (by omega)
          obtain ⟨ht, hrest⟩ := camel_head_inj xs (fun qs' hqs' => ih qs' hxs hqs') hxs t t' ys
            hb.2 hb'.2 hys h.2
          rw [hbb, ht, hrest]

theorem camel_inj (P Q : List GoString) (hP : canonicalParts P = true)
    (hQ : canonicalParts Q = true) (h : goArgNameLoop 0 P = goArgNameLoop 0 Q) : P = Q := by
  cases P with
  | nil => simp [canonicalParts] at hP
  | cons p ps =>
    cases Q with
    | nil => simp [canonicalParts] at hQ
    | cons q qs =>
      simp only [canonicalParts, Bool.and_eq_true] at hP hQ
      rw [goArgNameLoop_zero, goArgNameLoop_zero] at h
      obtain ⟨hpq, hrest⟩ := camel_head_inj ps (fun qs' hqs' => camel_tail_inj ps qs' hP.2 hqs')
        hP.2 p q qs hP.1 hQ.1 hQ.2 h
      rw [hpq, hrest]

theorem replaced_eq_of_parts_eq (n : GoString) (P : List GoString) (h : nameParts n = P) :
    stringsReplaceAll n 45 95 = stringsJoin P [95] := by
  rw [← h]
  exact (stringsJoin_stringsSplit _ _).symm

theorem loop_not_replacement (n : GoString) (hn : canonicalName n = true)
    (hr : stringsReplaceAll n 45 95 ∉ replacementNames) :
    goArgNameLoop 0 (nameParts n) ∉
      [str "typ", str "fn", str "mapVal", str "rangeVal", str "input"] := by
  have key : ∀ P : List GoString, canonicalParts P = true →
      stringsJoin P [95] ∈ replacementNames →
      goArgNameLoop 0 (nameParts n) ≠ goArgNameLoop 0 P := by
    intro P hP hmem heq
    have hparts := camel_inj _ _ hn hP heq
    exact hr (replaced_eq_of_parts_eq n P hparts ▸ hmem)
  intro hmem
  simp only [List.mem_cons, List.mem_singleton, List.not_mem_nil, or_false] at hmem
  rcases hmem with h | h | h | h | h
  · exact key [str "typ"] (by decide) (by decide) (h.trans (by decide))
  · exact key [str "fn"] (by decide) (by decide) (h.trans (by decide))
  · exact key [str "map", str "val"] (by decide) (by decide) (h.trans (by decide))
  · exact key [str "range", str "val"] (by decide) (by decide) (h.trans (by decide))
  · exact key [str "input"] (by decide) (by decide) (h.trans (by decide))

theorem remapReserved_inj (s₁ s₂ : GoString)
    (h₁ : s₁ ∉ [str "typ", str "fn", str "mapVal", str "rangeVal", str "input"])
    (h₂ : s₂ ∉ [str "typ", str "fn", str "mapVal", str "rangeVal", str "input"])
    (h : remapReserved s₁ = remapReserved s₂) : s₁ = s₂ := by
  simp only [List.mem_cons, List.mem_singleton, List.not_mem_nil, or_false, not_or] at h₁ h₂
  obtain ⟨a1, a2, a3, a4, a5⟩ := h₁
  obtain ⟨b1, b2, b3, b4, b5⟩ := h₂
  unfold remapReserved at h
  split_ifs at h <;>
    first
      | exact absurd h (by decide)
      | (subst_vars; rfl)
      | exact absurd h.symm b1
      | exact absurd h.symm b2
      | exact absurd h.symm b3
      | exact absurd h.symm b4
      | exact absurd h.symm b5
      | exact absurd h a1
      | exact absurd h a2
      | exact absurd h a3
      | exact absurd h a4
      | exact absurd h a5

/-- C11 (as amended): for two argument names in canonical form (segments of
ASCII lower-case letters and digits separated by '-' or '_', every segment
after the first starting with a letter), neither of which is written, up to
'-' for '_', like one of typ, fn, map_val, range_val, input: when goArgName
returns the same identifier for both, the names are equal up to '-' for '_';
so distinct names that use one separator get distinct identifiers. -/
theorem goArgName_injective_on_canonical (n₁ n₂ : GoString)
    (hc₁ : canonicalName n₁ = true) (hc₂ : canonicalName n₂ = true)
    (hr₁ : stringsReplaceAll n₁ 45 95 ∉ replacementNames)
    (hr₂ : stringsReplaceAll n₂ 45 95 ∉ replacementNames)
    (h : goArgName n₁ = goArgName n₂) :
    stringsReplaceAll n₁ 45 95 = stringsReplaceAll n₂ 45 95 ∧
      ((45 : Byte) ∉ n₁ → (45 : Byte) ∉ n₂ → n₁ = n₂) := by
  have hloop : goArgNameLoop 0 (nameParts n₁) = goArgNameLoop 0 (nameParts n₂) := by
    rw [goArgName_eq_remapReserved, goArgName_eq_remapReserved] at h
    exact remapReserved_inj _ _ (loop_not_replacement n₁ hc₁ hr₁)
      (loop_not_replacement n₂ hc₂ hr₂) h
  have hparts : nameParts n₁ = nameParts n₂ := camel_inj _ _ hc₁ hc₂ hloop
  have heq : stringsReplaceAll n₁ 45 95 = stringsReplaceAll n₂ 45 95 := by
    rw [replaced_eq_of_parts_eq n₁ _ rfl, replaced_eq_of_parts_eq n₂ _ rfl, hparts]
  refine ⟨heq, fun hd₁ hd₂ => ?_⟩
  have hid : ∀ n : GoString, (45 : Byte) ∉ n → stringsReplaceAll n 45 95 = n := by
    intro n hn
    unfold stringsReplaceAll
    conv_rhs => rw [← List.map_id n]
    apply List.map_congr_left
    intro b hb
    have : b ≠ 45 := fun hb' => hn (hb' ▸ hb)
    simp [this]
  rw [← hid n₁ hd₁, ← hid n₂ hd₂]
  exact heq

/-- Witness of C11 (as amended): the names min-ampl and min_ampl. -/
theorem goArgName_injective_on_canonical_witness :
    stringsReplaceAll (str "min-ampl") 45 95 = stringsReplaceAll (str "min_ampl") 45 95 :=
  (goArgName_injective_on_canonical (str "min-ampl") (str "min_ampl") (by decide) (by decide)
    (by decide) (by decide) (by decide)).1

/-- C11 as stated fails: distinct argument names get the same identifier:
a-b and a_b both give aB, as does the name aB itself; type and typ both give
typ; a_1 and a1 both give a1. -/
theorem goArgName_collisions :
    str "a-b" ≠ str "a_b" ∧ goArgName (str "a-b") = goArgName (str "a_b") ∧
      str "a_b" ≠ str "aB" ∧ goArgName (str "a_b") = goArgName (str "aB") ∧
      str "type" ≠ str "typ" ∧ goArgName (str "type") = goArgName (str "typ") ∧
      str "a_1" ≠ str "a1" ∧ goArgName (str "a_1") = goArgName (str "a1") := by
  decide

/-! ### Lookup in the tables of config.go -/

theorem lookup_eq_none_of_not_mem_keys {β : Type} (m : List (GoString × β)) (k : GoString)
    (hk : k ∉ m.map Prod.fst) : m.lookup k = none := by
  induction m with
  | nil => rfl
  | cons p m ih =>
    obtain ⟨k', v⟩ := p
    simp only [List.map_cons, List.mem_cons, not_or] at hk
    have hbeq : (k == k') = false := by simpa using hk.1
    simp only [List.lookup, hbeq]
    exact ih hk.2

theorem lookup_eq_some_of_mem {β : Type} (m : List (GoString × β)) (k : GoString) (v : β)
    (hnd : (m.map Prod.fst).Nodup) (hmem : (k, v) ∈ m) : m.lookup k = some v := by
  induction m with
  | nil => simp at hmem
  | cons p m ih =>
    obtain ⟨k', v'⟩ := p
    simp only [List.map_cons, List.nodup_cons] at hnd
    rcases List.mem_cons.mp hmem with h | h
    · cases h
      simp [List.lookup]
    · have hne : k ≠ k' := by
        intro he
        subst he
        exact hnd.1 (List.mem_map_of_mem Prod.fst h)
      have hbeq : (k == k') = false := by simpa using hne
      simp only [List.lookup, hbeq]
      exact ih hnd.2 h

/-! ### Categories -/

/-- C28: normalizeCategoryForOp(opName, cat) returns opCategoryOverride[opName]
whenever opName has an override entry, whatever cat is, and returns
normalizeCategory(cat) when opName has no override entry. -/
theorem normalizeCategoryForOp_override_first (opName cat : GoString) :
    (∀ v, (opName, v) ∈ opCategoryOverride → normalizeCategoryForOp opName cat = v) ∧
      (opName ∉ opCategoryOverride.map Prod.fst →
        normalizeCategoryForOp opName cat = normalizeCategory cat) := by
  constructor
  · intro v hv
    have hnd : (opCategoryOverride.map Prod.fst).Nodup := by decide
    simp [normalizeCategoryForOp, lookup_eq_some_of_mem _ _ _ hnd hv]
  · intro hk
    simp [normalizeCategoryForOp, lookup_eq_none_of_not_mem_keys _ _ hk]

/-- Witness of C28: gaussblur has the override convolution, whatever the
introspected category is; invert has no override. -/
theorem normalizeCategoryForOp_override_first_witness :
    normalizeCategoryForOp (str "gaussblur") (str "VipsForeign") = str "convolution" ∧
      normalizeCategoryForOp (str "invert") (str "VipsArithmetic") =
        normalizeCategory (str "VipsArithmetic") :=
  ⟨(normalizeCategoryForOp_override_first (str "gaussblur") (str "VipsForeign")).1
      (str "convolution") (by decide),
   (normalizeCategoryForOp_override_first (str "invert") (str "VipsArithmetic")).2 (by decide)⟩

/-- C29: normalizeCategory maps each of the eleven family names, both in its
lower-case form and in its Vips-prefixed capitalised form, to the lower-case
name, and returns every other string unchanged. -/
theorem normalizeCategory_families (s : GoString) :
    (∀ f ∈ categoryFamilies,
        normalizeCategory f = f ∧ normalizeCategory (vipsPrefixed f) = f) ∧
      (s ∉ categoryFamilies → s ∉ categoryFamilies.map vipsPrefixed →
        normalizeCategory s = s) := by
  constructor
  · decide
  · intro h₁ h₂
    have hkeys : ∀ k ∈ categoryMap.map Prod.fst,
        k ∈ categoryFamilies ∨ k ∈ categoryFamilies.map vipsPrefixed := by decide
    have hs : s ∉ categoryMap.map Prod.fst := fun hmem => (hkeys s hmem).elim h₁ h₂
    simp [normalizeCategory, lookup_eq_none_of_not_mem_keys _ _ hs]

/-- Witness of C29 at a category that is not in the table. -/
theorem normalizeCategory_families_witness :
    normalizeCategory (str "VipsOperation") = str "VipsOperation" :=
  (normalizeCategory_families (str "VipsOperation")).2 (by decide) (by decide)

/-! ### The three views of an operation -/

theorem bne_zero_eq (x : Int) : (x != 0) = !decide (x = 0) := by
  by_cases h : x = 0 <;> simp [h]

/-- C30: RequiredInputs is the arguments that have both the Input and the
Required flag, OptionalInputs those that have Input but not Required, and
Outputs those that have Output, each in Args order; RequiredInputs and
OptionalInputs share no argument and together hold every Input argument, and
an argument with neither Input nor Output is in none of the three views. -/
theorem views_by_flags (op : OpDef) :
    op.RequiredInputs =
        op.Args.filter (fun a =>
          decide (Int.land a.Flags ArgInput ≠ 0 ∧ Int.land a.Flags ArgRequired ≠ 0)) ∧
      op.OptionalInputs =
        op.Args.filter (fun a =>
          decide (Int.land a.Flags ArgInput ≠ 0 ∧ ¬ Int.land a.Flags ArgRequired ≠ 0)) ∧
      op.Outputs = op.Args.filter (fun a => decide (Int.land a.Flags ArgOutput ≠ 0)) ∧
      (∀ a, ¬ (a ∈ op.RequiredInputs ∧ a ∈ op.OptionalInputs)) ∧
      (∀ a ∈ op.Args, Int.land a.Flags ArgInput ≠ 0 →
        a ∈ op.RequiredInputs ∨ a ∈ op.OptionalInputs) ∧
      (op.RequiredInputs ++ op.OptionalInputs).Perm
        (op.Args.filter (fun a => decide (Int.land a.Flags ArgInput ≠ 0))) ∧
      (∀ a, Int.land a.Flags ArgInput = 0 → Int.land a.Flags ArgOutput = 0 →
        a ∉ op.RequiredInputs ∧ a ∉ op.OptionalInputs ∧ a ∉ op.Outputs) := by
  have hR : op.RequiredInputs =
      op.Args.filter (fun a =>
        decide (Int.land a.Flags ArgInput ≠ 0 ∧ Int.land a.Flags ArgRequired ≠ 0)) := by
    unfold OpDef.RequiredInputs
    apply List.filter_congr
    intro a _
    simp [ArgDef.IsInput, ArgDef.IsRequired, bne_zero_eq]
  have hO : op.OptionalInputs =
      op.Args.filter (fun a =>
        decide (Int.land a.Flags ArgInput ≠ 0 ∧ ¬ Int.land a.Flags ArgRequired ≠ 0)) := by
    unfold OpDef.OptionalInputs
    apply List.filter_congr
    intro a _
    simp [ArgDef.IsInput, ArgDef.IsRequired, bne_zero_eq]
  have hOut : op.Outputs = op.Args.filter (fun a => decide (Int.land a.Flags ArgOutput ≠ 0)) := by
    unfold OpDef.Outputs
    apply List.filter_congr
    intro a _
    simp [ArgDef.IsOutput, bne_zero_eq]
  refine ⟨hR, hO, hOut, ?_, ?_, ?_, ?_⟩
  · intro a h
    rw [hR, hO, List.mem_filter, List.mem_filter] at h
    have h1 := of_decide_eq_true h.1.2
    have h2 := of_decide_eq_true h.2.2
    exact h2.2 h1.2
  · intro a ha hin
    rw [hR, hO, List.mem_filter, List.mem_filter]
    by_cases hreq : Int.land a.Flags ArgRequired ≠ 0
    · exact Or.inl ⟨ha, decide_eq_true ⟨hin, hreq⟩⟩
    · exact Or.inr ⟨ha, decide_eq_true ⟨hin, hreq⟩⟩
  · have hsplit := List.filter_append_perm (fun a : ArgDef => a.IsRequired)
      (op.Args.filter (fun a => a.IsInput))
    have e1 : (op.Args.filter (fun a => a.IsInput)).filter (fun a : ArgDef => a.IsRequired) =
        op.RequiredInputs := by
      unfold OpDef.RequiredInputs
      rw [List.filter_filter]
      apply List.filter_congr
      intro a _
      exact Bool.and_comm _ _
    have e2 : (op.Args.filter (fun a => a.IsInput)).filter (fun a : ArgDef => !a.IsRequired) =
        op.OptionalInputs := by
      unfold OpDef.OptionalInputs
      rw [List.filter_filter]
      apply List.filter_congr
      intro a _
      exact Bool.and_comm _ _
    have e3 : op.Args.filter (fun a => a.IsInput) =
        op.Args.filter (fun a => decide (Int.land a.Flags ArgInput ≠ 0)) := by
      apply List.filter_congr
      intro a _
      simp [ArgDef.IsInput, bne_zero_eq]
    rw [← e3, ← e1, ← e2]
    exact hsplit
  · intro a hin hout
    rw [hR, hO, hOut, List.mem_filter, List.mem_filter, List.mem_filter]
    refine ⟨fun h => ?_, fun h => ?_, fun h => ?_⟩
    · exact (of_decide_eq_true h.2).1 hin
    · exact (of_decide_eq_true h.2).1 hin
    · exact (of_decide_eq_true h.2) hout

/-- Witness of C30: an argument with the Modify flag only is in none of the
views of its operation. -/
theorem views_by_flags_witness :
    (⟨str "ink", ArgTypeArrayDouble, 8, 1, 0, 0, 0, str ""⟩ : ArgDef) ∉
        (OpDef.RequiredInputs ⟨str "draw", str "", str "VipsDraw",
          [⟨str "ink", ArgTypeArrayDouble, 8, 1, 0, 0, 0, str ""⟩]⟩) ∧
      (⟨str "ink", ArgTypeArrayDouble, 8, 1, 0, 0, 0, str ""⟩ : ArgDef) ∉
        (OpDef.OptionalInputs ⟨str "draw", str "", str "VipsDraw",
          [⟨str "ink", ArgTypeArrayDouble, 8, 1, 0, 0, 0, str ""⟩]⟩) ∧
      (⟨str "ink", ArgTypeArrayDouble, 8, 1, 0, 0, 0, str ""⟩ : ArgDef) ∉
        (OpDef.Outputs ⟨str "draw", str "", str "VipsDraw",
          [⟨str "ink", ArgTypeArrayDouble, 8, 1, 0, 0, 0, str ""⟩]⟩) :=
  (views_by_flags ⟨str "draw", str "", str "VipsDraw",
    [⟨str "ink", ArgTypeArrayDouble, 8, 1, 0, 0, 0, str ""⟩]⟩).2.2.2.2.2.2
    ⟨str "ink", ArgTypeArrayDouble, 8, 1, 0, 0, 0, str ""⟩ (by decide) (by decide)

/-! ### Introspect: the arguments of an operation -/

theorem sort_lessByPriority_ascending (S : SliceSort) (args : List ArgDef) :
    (S.sort lessByPriority args).Pairwise (fun a b => a.Priority ≤ b.Priority) :=
  (S.ascending lessByPriority args lessByPriority_ordering).imp (fun h => by
    simpa only [lessByPriority, decide_eq_false_iff_not, not_lt] using h)

theorem Introspect_mem (S : SliceSort) (result : List OpDef) (op : OpDef)
    (hop : op ∈ dedupLoop [] (S.sort lessByName
      (result.map (fun cop => { cop with Args := S.sort lessByPriority cop.Args })))) :
    ∃ d ∈ result, op = { d with Args := S.sort lessByPriority d.Args } := by
  have hmem := (S.perm lessByName _).mem_iff.mp (mem_dedupLoop _ _ _ hop).1
  rw [List.mem_map] at hmem
  obtain ⟨d, hd, hdop⟩ := hmem
  exact ⟨d, hd, hdop.symm⟩

/-- C24: for every operation that Introspect returns, Args is a permutation
of the arguments discovered for that operation and is in non-decreasing
Priority order. -/
theorem Introspect_args_sorted_perm (S : SliceSort) (result : List OpDef) :
    ∃ ops, Introspect S 0 result = .ok ops ∧
      ∀ op ∈ ops, ∃ d ∈ result,
        d.Name = op.Name ∧ d.Description = op.Description ∧ d.Category = op.Category ∧
        op.Args.Perm d.Args ∧
        op.Args.Pairwise (fun a b => a.Priority ≤ b.Priority) := by
  refine ⟨_, Introspect_eq S result, ?_⟩
  intro op hop
  obtain ⟨d, hd, rfl⟩ := Introspect_mem S result op hop
  exact ⟨d, hd, rfl, rfl, rfl, S.perm lessByPriority d.Args, sort_lessByPriority_ascending S d.Args⟩

theorem between_of_ascending (l₁ l₂ l₃ : List ArgDef) (x y : ArgDef)
    (h : (l₁ ++ x :: l₂ ++ y :: l₃).Pairwise (fun a b => a.Priority ≤ b.Priority))
    (hxy : x.Priority = y.Priority) : ∀ z ∈ l₂, z.Priority = x.Priority := by
  intro z hz
  rw [List.append_assoc, List.pairwise_append] at h
  have hx := h.2.1
  rw [List.cons_append, List.pairwise_cons] at hx
  have hxz : x.Priority ≤ z.Priority :=
    hx.1 z (List.mem_append_left _ hz)
  have hzy : z.Priority ≤ y.Priority := by
    have h2 := hx.2
    rw [List.pairwise_append] at h2
    exact h2.2.2 z hz y (List.mem_cons_self _ _)
  omega

/-- C25 (as amended): for every operation that Introspect returns, the
arguments of each Priority value are the discovered arguments of that
Priority, and they stand together, with no argument of another Priority
between two of them; their order among themselves is left to sort.Slice,
which need not keep the discovery order. -/
theorem Introspect_equal_priority_together (S : SliceSort) (result : List OpDef) :
    ∃ ops, Introspect S 0 result = .ok ops ∧
      ∀ op ∈ ops, ∃ d ∈ result, d.Name = op.Name ∧
        (∀ p : Int, (op.Args.filter (fun a => decide (a.Priority = p))).Perm
          (d.Args.filter (fun a => decide (a.Priority = p)))) ∧
        (∀ l₁ l₂ l₃ x y, op.Args = l₁ ++ x :: l₂ ++ y :: l₃ → x.Priority = y.Priority →
          ∀ z ∈ l₂, z.Priority = x.Priority) := by
  refine ⟨_, Introspect_eq S result, ?_⟩
  intro op hop
  obtain ⟨d, hd, rfl⟩ := Introspect_mem S result op hop
  refine ⟨d, hd, rfl, fun p => (S.perm lessByPriority d.Args).filter _, ?_⟩
  intro l₁ l₂ l₃ x y hsplit hxy
  have hasc := sort_lessByPriority_ascending S d.Args
  simp only [] at hsplit
  rw [hsplit] at hasc
  exact between_of_ascending l₁ l₂ l₃ x y hasc hxy

/-- Witness of C25 (as amended): the operation with the two tied arguments,
with the stable sort. -/
theorem Introspect_equal_priority_together_witness :
    ∃ ops, Introspect stableSliceSort 0 [tiedOp] = .ok ops ∧
      ∀ op ∈ ops, ∃ d ∈ [tiedOp], d.Name = op.Name ∧
        (∀ p : Int, (op.Args.filter (fun a => decide (a.Priority = p))).Perm
          (d.Args.filter (fun a => decide (a.Priority = p)))) ∧
        (∀ l₁ l₂ l₃ x y, op.Args = l₁ ++ x :: l₂ ++ y :: l₃ → x.Priority = y.Priority →
          ∀ z ∈ l₂, z.Priority = x.Priority) :=
  Introspect_equal_priority_together stableSliceSort [tiedOp]

set_option maxRecDepth 100000 in
/-- C25 as stated fails on Go's own sort.Slice. The operation has thirteen
arguments, discovered with `left` before `top`, both of priority 5. With 13
elements pdqsort_func does not start with the insertion sort:
choosePivot_func takes the median of the priorities at 3, 6 and 9 (2, 6 and
9), which is the 6 at index 6; the slice is not in order, so partition_func
runs. It swaps the elements at 0 and 6, which puts `left` behind `top`; the
priorities below 6 then reach up to index 7, so the pivot goes to 7 and the
element of 7 to 0, and `left` stays at 6. The insertion sort of the seven
elements before the pivot keeps this order: `top` comes back before
`left`. -/
theorem Introspect_args_not_stable :
    tiedOpThirteen.Args.map ArgDef.Name =
        [ str "left", str "top", str "in", str "out", str "width", str "height", str "bands",
          str "angle", str "xres", str "yres", str "xoffset", str "yoffset", str "optimize" ] ∧
      tiedOpThirteen.Args.map ArgDef.Priority = [5, 5, 1, 2, 3, 4, 6, 0, 8, 9, 10, 11, 12] ∧
      choosePivot_func lessByPriority tiedOpThirteen.Args 0 13 = (6, sortedHint.increasingHint) ∧
      partialInsertionSort_func lessByPriority tiedOpThirteen.Args 0 13 = false ∧
      (partition_func lessByPriority tiedOpThirteen.Args 0 13 6).1.map ArgDef.Name =
        [ str "angle", str "top", str "in", str "out", str "width", str "height", str "left",
          str "bands", str "xres", str "yres", str "xoffset", str "yoffset", str "optimize" ] ∧
      (pdqsortShort lessByPriority tiedOpThirteen.Args).map ArgDef.Name =
        [ str "angle", str "in", str "out", str "width", str "height", str "top", str "left",
          str "bands", str "xres", str "yres", str "xoffset", str "yoffset", str "optimize" ] ∧
      ((Introspect (goSliceSort stableSliceSort) 0 [tiedOpThirteen]).toOption.map
        (fun ops => ops.map (fun op => op.Args.map ArgDef.Name))) =
        some [[ str "angle", str "in", str "out", str "width", str "height", str "top",
          str "left", str "bands", str "xres", str "yres", str "xoffset", str "yoffset",
          str "optimize" ]] := by
  decide

/-! ### CollectEnumTypes -/

theorem lessString_ordering : LessOrdering lessString where
  irrefl := fun a => by simp [lessString]
  trans := fun a b c h₁ h₂ => by
    simp only [lessString, decide_eq_true_eq] at *
    exact lt_trans h₁ h₂
  negTrans := fun a b c h₁ h₂ => by
    simp only [lessString, decide_eq_false_iff_not, not_lt] at *
    exact le_trans h₂ h₁

theorem mapSet_spec (seen : List GoString) (k : GoString) (hnd : seen.Nodup) :
    (mapSet seen k).Nodup ∧ ∀ s, s ∈ mapSet seen k ↔ s ∈ seen ∨ s = k := by
  unfold mapSet
  by_cases h : k ∈ seen
  · rw [if_pos h]
    refine ⟨hnd, fun s => ⟨Or.inl, fun hs => hs.elim id (fun he => he ▸ h)⟩⟩
  · rw [if_neg h]
    refine ⟨?_, fun s => by simp⟩
    rw [List.nodup_append]
    exact ⟨hnd, List.nodup_singleton k, by
      intro a ha hb
      rw [List.mem_singleton] at hb
      exact h (hb ▸ ha)⟩

theorem collectArgs_spec (args : List ArgDef) (seen : List GoString) (hnd : seen.Nodup) :
    (args.foldl (fun seen arg =>
        if arg.EnumType ≠ str "" then mapSet seen arg.EnumType else seen) seen).Nodup ∧
      ∀ s, s ∈ args.foldl (fun seen arg =>
          if arg.EnumType ≠ str "" then mapSet seen arg.EnumType else seen) seen ↔
        s ∈ seen ∨ (s ≠ str "" ∧ ∃ a ∈ args, a.EnumType = s) := by
  induction args generalizing seen with
  | nil => exact ⟨hnd, fun s => by simp⟩
  | cons a args ih =>
    rw [List.foldl_cons]
    by_cases ha : a.EnumType ≠ str ""
    · rw [if_pos ha]
      obtain ⟨hnd', hmem'⟩ := mapSet_spec seen a.EnumType hnd
      obtain ⟨h1, h2⟩ := ih (mapSet seen a.EnumType) hnd'
      refine ⟨h1, fun s => ?_⟩
      rw [h2, hmem']
      constructor
      · rintro ((h | h) | ⟨hne, b, hb, hbs⟩)
        · exact Or.inl h
        · exact Or.inr ⟨h ▸ ha, a, List.mem_cons_self _ _, h.symm⟩
        · exact Or.inr ⟨hne, b, List.mem_cons_of_mem _ hb, hbs⟩
      · rintro (h | ⟨hne, b, hb, hbs⟩)
        · exact Or.inl (Or.inl h)
        · rcases List.mem_cons.mp hb with rfl | hb'
          · exact Or.inl (Or.inr hbs.symm)
          · exact Or.inr ⟨hne, b, hb', hbs⟩
    · rw [if_neg ha]
      obtain ⟨h1, h2⟩ := ih seen hnd
      refine ⟨h1, fun s => ?_⟩
      rw [h2]
      constructor
      · rintro (h | ⟨hne, b, hb, hbs⟩)
        · exact Or.inl h
        · exact Or.inr ⟨hne, b, List.mem_cons_of_mem _ hb, hbs⟩
      · rintro (h | ⟨hne, b, hb, hbs⟩)
        · exact Or.inl h
        · rcases List.mem_cons.mp hb with rfl | hb'
          · exact absurd hbs (fun he => ha (he ▸ hne))
          · exact Or.inr ⟨hne, b, hb', hbs⟩

theorem collectOps_spec (ops : List OpDef) (seen : List GoString) (hnd : seen.Nodup) :
    (ops.foldl (fun seen op =>
        op.Args.foldl (fun seen arg =>
          if arg.EnumType ≠ str "" then mapSet seen arg.EnumType else seen) seen) seen).Nodup ∧
      ∀ s, s ∈ ops.foldl (fun seen op =>
          op.Args.foldl (fun seen arg =>
            if arg.EnumType ≠ str "" then mapSet seen arg.EnumType else seen) seen) seen ↔
        s ∈ seen ∨ (s ≠ str "" ∧ ∃ op ∈ ops, ∃ a ∈ op.Args, a.EnumType = s) := by
  induction ops generalizing seen with
  | nil => exact ⟨hnd, fun s => by simp⟩
  | cons op ops ih =>
    rw [List.foldl_cons]
    obtain ⟨hnd', hmem'⟩ := collectArgs_spec op.Args seen hnd
    obtain ⟨h1, h2⟩ := ih _ hnd'
    refine ⟨h1, fun s => ?_⟩
    rw [h2, hmem']
    constructor
    · rintro ((h | ⟨hne, a, ha, has⟩) | ⟨hne, o, ho, a, ha, has⟩)
      · exact Or.inl h
      · exact Or.inr ⟨hne, op, List.mem_cons_self _ _, a, ha, has⟩
      · exact Or.inr ⟨hne, o, List.mem_cons_of_mem _ ho, a, ha, has⟩
    · rintro (h | ⟨hne, o, ho, a, ha, has⟩)
      · exact Or.inl (Or.inl h)
      · rcases List.mem_cons.mp ho with rfl | ho'
        · exact Or.inl (Or.inr ⟨hne, a, ha, has⟩)
        · exact Or.inr ⟨hne, o, ho', a, ha, has⟩

theorem CollectEnumTypes_spec (S : SliceSort) (M : MapOrder) (ops : List OpDef) :
    (CollectEnumTypes S M ops).Pairwise (fun a b => a < b) ∧
      ∀ s, s ∈ CollectEnumTypes S M ops ↔
        s ≠ str "" ∧ ∃ op ∈ ops, ∃ a ∈ op.Args, a.EnumType = s := by
  obtain ⟨hnd, hmem⟩ := collectOps_spec ops [] List.nodup_nil
  have hperm : (CollectEnumTypes S M ops).Perm _ := (S.perm lessString _).trans (M.perm _)
  constructor
  · have hle : (CollectEnumTypes S M ops).Pairwise (fun a b => a ≤ b) :=
      (S.ascending lessString _ lessString_ordering).imp (fun h => by
        simpa only [lessString, decide_eq_false_iff_not, not_lt] using h)
    have hnd' : (CollectEnumTypes S M ops).Nodup := hperm.nodup_iff.mpr hnd
    exact (hle.and hnd').imp (fun h => lt_of_le_of_ne h.1 h.2)
  · intro s
    rw [hperm.mem_iff, hmem]
    simp

/-- C26: CollectEnumTypes(ops) returns a strictly ascending list (sorted,
without duplicates) that contains a string s exactly when s is non-empty and
is the EnumType of some argument of some operation in ops. -/
theorem CollectEnumTypes_sorted_set (S : SliceSort) (M : MapOrder) (ops : List OpDef) :
    (CollectEnumTypes S M ops).Pairwise (fun a b => a < b) ∧
      (CollectEnumTypes S M ops).Nodup ∧
      ∀ s, s ∈ CollectEnumTypes S M ops ↔
        s ≠ str "" ∧ ∃ op ∈ ops, ∃ a ∈ op.Args, a.EnumType = s :=
  ⟨(CollectEnumTypes_spec S M ops).1,
   (CollectEnumTypes_spec S M ops).1.imp (fun h => ne_of_lt h),
   (CollectEnumTypes_spec S M ops).2⟩

theorem enumTypes_of_reordering (ops₁ ops₂ : List OpDef) (h : Reordering ops₁ ops₂)
    (s : GoString) :
    (∃ op ∈ ops₁, ∃ a ∈ op.Args, a.EnumType = s) ↔
      (∃ op ∈ ops₂, ∃ a ∈ op.Args, a.EnumType = s) := by
  obtain ⟨mid, hperm, hall⟩ := h
  have hmid : (∃ op ∈ mid, ∃ a ∈ op.Args, a.EnumType = s) ↔
      (∃ op ∈ ops₂, ∃ a ∈ op.Args, a.EnumType = s) := by
    clear hperm
    induction hall with
    | nil => simp
    | cons hrel _ ih =>
      simp only [List.exists_mem_cons_iff, ih]
      have : ∀ a, a ∈ (_ : OpDef).Args ↔ a ∈ (_ : OpDef).Args := fun a => hrel.2.2.2.mem_iff
      constructor
      · rintro (⟨a, ha, has⟩ | h)
        · exact Or.inl ⟨a, (this a).mpr ha, has⟩
        · exact Or.inr h
      · rintro (⟨a, ha, has⟩ | h)
        · exact Or.inl ⟨a, (this a).mp ha, has⟩
        · exact Or.inr h
  rw [← hmid]
  constructor
  · rintro ⟨op, hop, h⟩
    exact ⟨op, hperm.mem_iff.mp hop, h⟩
  · rintro ⟨op, hop, h⟩
    exact ⟨op, hperm.mem_iff.mpr hop, h⟩

/-- C27: CollectEnumTypes is order-independent: it returns the same list for
any reordering of the operations and any reordering of the arguments within
each operation, whatever the order in which the map is visited. -/
theorem CollectEnumTypes_order_independent (S₁ S₂ : SliceSort) (M₁ M₂ : MapOrder)
    (ops₁ ops₂ : List OpDef) (h : Reordering ops₁ ops₂) :
    CollectEnumTypes S₁ M₁ ops₁ = CollectEnumTypes S₂ M₂ ops₂ := by
  obtain ⟨hasc₁, hmem₁⟩ := CollectEnumTypes_spec S₁ M₁ ops₁
  obtain ⟨hasc₂, hmem₂⟩ := CollectEnumTypes_spec S₂ M₂ ops₂
  haveI : IsAntisymm GoString (fun a b => a < b) :=
    ⟨fun _ _ hab hba => absurd hab (lt_asymm hba)⟩
  apply List.eq_of_perm_of_sorted _ hasc₁ hasc₂
  rw [List.perm_ext_iff_of_nodup (hasc₁.imp (fun h => ne_of_lt h))
    (hasc₂.imp (fun h => ne_of_lt h))]
  intro s
  rw [hmem₁, hmem₂, enumTypes_of_reordering ops₁ ops₂ h s]

/-- Witness of C27: two operations, given in either order and with the
arguments of the first in either order. -/
theorem CollectEnumTypes_order_independent_witness :
    CollectEnumTypes stableSliceSort insertionMapOrder
        [⟨str "resize", str "", str "VipsResample",
            [⟨str "kernel", ArgTypeEnum, 1, 2, 0, 0, 0, str "VipsKernel"⟩,
             ⟨str "in", ArgTypeImage, 5, 1, 0, 0, 0, str ""⟩]⟩,
         ⟨str "rot", str "", str "VipsConversion",
            [⟨str "angle", ArgTypeEnum, 5, 1, 0, 0, 0, str "VipsAngle"⟩]⟩] =
      CollectEnumTypes reversingSliceSort insertionMapOrder
        [⟨str "rot", str "", str "VipsConversion",
            [⟨str "angle", ArgTypeEnum, 5, 1, 0, 0, 0, str "VipsAngle"⟩]⟩,
         ⟨str "resize", str "", str "VipsResample",
            [⟨str "in", ArgTypeImage, 5, 1, 0, 0, 0, str ""⟩,
             ⟨str "kernel", ArgTypeEnum, 1, 2, 0, 0, 0, str "VipsKernel"⟩]⟩] :=
  CollectEnumTypes_order_independent stableSliceSort reversingSliceSort insertionMapOrder
    insertionMapOrder _ _
    ⟨_, List.Perm.swap _ _ _,
      List.Forall₂.cons ⟨rfl, rfl, rfl, List.Perm.refl _⟩
        (List.Forall₂.cons ⟨rfl, rfl, rfl, List.Perm.swap _ _ _⟩ List.Forall₂.nil)⟩

/-! ### The file system -/

theorem lookup_setFile_self (files : List (FilePath × GoString)) (p : FilePath) (c : GoString) :
    (setFile files p c).lookup p = some c := by
  induction files with
  | nil => simp [setFile, List.lookup]
  | cons e rest ih =>
    obtain ⟨q, d⟩ := e
    unfold setFile
    by_cases h : q = p
    · rw [if_pos h]
      simp [List.lookup]
    · rw [if_neg h]
      have hbeq : (p == q) = false := by simpa using fun he : p = q => h he.symm
      simp only [List.lookup, hbeq]
      exact ih

theorem lookup_filter_ne (files : List (FilePath × GoString)) (p q : FilePath) (h : q ≠ p) :
    (files.filter (fun e => decide (e.1 ≠ p))).lookup q = files.lookup q := by
  induction files with
  | nil => rfl
  | cons e rest ih =>
    obtain ⟨r, d⟩ := e
    by_cases hr : r = p
    · have hqr : (q == r) = false := by simpa [hr] using h
      rw [List.filter_cons_of_neg (by simpa using hr)]
      simp only [List.lookup, hqr]
      exact ih
    · rw [List.filter_cons_of_pos (by simpa using hr)]
      by_cases hqr : q = r
      · subst hqr
        simp [List.lookup]
      · have hb : (q == r) = false := by simpa using hqr
        simp only [List.lookup, hb]
        exact ih

theorem lookup_setFile_ne (files : List (FilePath × GoString)) (p q : FilePath) (c : GoString)
    (h : q ≠ p) : (setFile files p c).lookup q = files.lookup q := by
  induction files with
  | nil =>
    have hb : (q == p) = false := by simpa using h
    simp [setFile, List.lookup, hb]
  | cons e rest ih =>
    obtain ⟨r, d⟩ := e
    unfold setFile
    by_cases hr : r = p
    · rw [if_pos hr]
      have hb : (q == p) = false := by simpa using h
      have hb' : (q == r) = false := by simpa [hr] using h
      simp only [List.lookup, hb, hb']
      exact lookup_filter_ne rest p q h
    · rw [if_neg hr]
      by_cases hqr : q = r
      · subst hqr
        simp [List.lookup]
      · have hb : (q == r) = false := by simpa using hqr
        simp only [List.lookup, hb]
        exact ih

theorem osWriteFile_spec (fs : FileSys) (path : FilePath) (content : GoString) :
    (osWriteFile fs path content).1 = fs.writeErr path ∧
      (osWriteFile fs path content).2.readErr = fs.readErr ∧
      (osWriteFile fs path content).2.writeErr = fs.writeErr ∧
      (osWriteFile fs path content).2.removeErr = fs.removeErr ∧
      (∀ q, q ≠ path → (osWriteFile fs path content).2.fileAt q = fs.fileAt q) ∧
      (fs.writeErr path = none →
        (osWriteFile fs path content).2.fileAt path = some content ∧
        (osWriteFile fs path content).2.events = fs.events ++ [FsEvent.wrote path]) ∧
      (fs.writeErr path ≠ none →
        (osWriteFile fs path content).2.files = fs.files ∧
        (osWriteFile fs path content).2.events = fs.events ++ [FsEvent.writeFailed path]) := by
  unfold osWriteFile
  cases h : fs.writeErr path with
  | none =>
    refine ⟨rfl, rfl, rfl, rfl, fun q hq => ?_, fun _ => ⟨?_, rfl⟩, fun hne => absurd rfl hne⟩
    · exact lookup_setFile_ne _ _ _ _ hq
    · exact lookup_setFile_self _ _ _
  | some e =>
    exact ⟨rfl, rfl, rfl, rfl, fun q _ => rfl, fun hn => by simp at hn, fun _ => ⟨rfl, rfl⟩⟩

theorem writeIfChanged_cases (fs : FileSys) (path : FilePath) (content : GoString) :
    (osReadFile fs path = .ok content ∧ writeIfChanged fs path content = (none, fs)) ∨
      (osReadFile fs path ≠ .ok content ∧
        writeIfChanged fs path content = osWriteFile fs path content) := by
  unfold writeIfChanged
  cases h : osReadFile fs path with
  | error e => exact Or.inr ⟨by simp, rfl⟩
  | ok existing =>
    by_cases he : existing = content
    · subst he
      exact Or.inl ⟨rfl, by simp⟩
    · refine Or.inr ⟨fun hc => he (by injection hc), by simp [he]⟩

theorem osReadFile_ok_iff (fs : FileSys) (path : FilePath) (content : GoString) :
    osReadFile fs path = .ok content ↔ fs.fileAt path = some content ∧ fs.readErr path = none := by
  unfold osReadFile
  cases hf : fs.fileAt path with
  | none => simp
  | some existing =>
    cases hr : fs.readErr path with
    | none => simp
    | some e => simp

/-- C21 (as amended): writeIfChanged(path, content) performs no write when
the file at path can be read and its bytes equal content; otherwise (the
read fails or the bytes differ) it calls os.WriteFile with content; after a
successful call the file at path holds exactly content, and no other file
is touched. -/
theorem writeIfChanged_spec (fs : FileSys) (path : FilePath) (content : GoString) :
    (fs.fileAt path = some content → fs.readErr path = none →
        writeIfChanged fs path content = (none, fs)) ∧
      (¬ (fs.fileAt path = some content ∧ fs.readErr path = none) →
        writeIfChanged fs path content = osWriteFile fs path content ∧
        (writeIfChanged fs path content).1 = fs.writeErr path) ∧
      ((writeIfChanged fs path content).1 = none →
        (writeIfChanged fs path content).2.fileAt path = some content) ∧
      (∀ q, q ≠ path → (writeIfChanged fs path content).2.fileAt q = fs.fileAt q) := by
  rcases writeIfChanged_cases fs path content with ⟨hr, hw⟩ | ⟨hr, hw⟩
  · rw [osReadFile_ok_iff] at hr
    refine ⟨fun _ _ => hw, fun hn => absurd hr hn, fun _ => ?_, fun q _ => ?_⟩
    · rw [hw]; exact hr.1
    · rw [hw]
  · rw [Ne, osReadFile_ok_iff] at hr
    obtain ⟨h1, _, _, _, h5, h6, _⟩ := osWriteFile_spec fs path content
    refine ⟨fun hf hre => absurd ⟨hf, hre⟩ hr, fun _ => ⟨hw, by rw [hw]; exact h1⟩,
      fun hok => ?_, fun q hq => ?_⟩
    · rw [hw] at hok ⊢
      exact (h6 (h1 ▸ hok)).1
    · rw [hw]
      exact h5 q hq

/-- Witness of C21 (as amended): a readable file that holds the content is
not written. -/
theorem writeIfChanged_spec_witness :
    (writeIfChanged (plainFs [(⟨str "vips", str "generated.h"⟩, str "#endif\n")])
        ⟨str "vips", str "generated.h"⟩ (str "#endif\n")).2.events = [] :=
  congrArg (fun r : GoError × FileSys => r.2.events)
    ((writeIfChanged_spec (plainFs [(⟨str "vips", str "generated.h"⟩, str "#endif\n")])
      ⟨str "vips", str "generated.h"⟩ (str "#endif\n")).1 (by decide) (by decide))

/-- C21 as stated fails: the file at the path exists and its bytes equal the
content, but it cannot be read: writeIfChanged writes it. -/
theorem writeIfChanged_writes_unreadable :
    (writeOnlyFs [(⟨str "vips", str "generated.h"⟩, str "#endif\n")]).fileAt
        ⟨str "vips", str "generated.h"⟩ = some (str "#endif\n") ∧
      (writeIfChanged (writeOnlyFs [(⟨str "vips", str "generated.h"⟩, str "#endif\n")])
        ⟨str "vips", str "generated.h"⟩ (str "#endif\n")).2.events =
        [FsEvent.wrote ⟨str "vips", str "generated.h"⟩] := by
  decide

/-! ### Generate: the write steps -/

theorem SameErrs.refl (fs : FileSys) : SameErrs fs fs := ⟨rfl, rfl, rfl⟩

theorem SameErrs.trans {a b c : FileSys} (h₁ : SameErrs a b) (h₂ : SameErrs b c) :
    SameErrs a c :=
  ⟨h₂.1.trans h₁.1, h₂.2.1.trans h₁.2.1, h₂.2.2.trans h₁.2.2⟩

theorem osRemove_sameErrs (fs : FileSys) (path : FilePath) : SameErrs fs (osRemove fs path).2 := by
  unfold osRemove
  cases fs.fileAt path with
  | none => exact ⟨rfl, rfl, rfl⟩
  | some _ =>
    cases fs.removeErr path with
    | none => exact ⟨rfl, rfl, rfl⟩
    | some _ => exact ⟨rfl, rfl, rfl⟩

theorem foldl_sameErrs {α : Type} (f : FileSys → α → FileSys)
    (hf : ∀ fs a, SameErrs fs (f fs a)) (l : List α) (fs : FileSys) :
    SameErrs fs (l.foldl f fs) := by
  induction l generalizing fs with
  | nil => exact SameErrs.refl fs
  | cons a l ih => exact (hf fs a).trans (ih (f fs a))

theorem cleanOldGenFiles_sameErrs (fs : FileSys) (outputDir : GoString) :
    SameErrs fs (cleanOldGenFiles fs outputDir) := by
  unfold cleanOldGenFiles
  apply foldl_sameErrs
  intro fs ext
  apply foldl_sameErrs
  intro fs m
  by_cases h : mapBool preserve m.base = true
  · simp only [h, if_true]
    exact SameErrs.refl fs
  · simp only [h]
    exact osRemove_sameErrs fs m

theorem writeIfChanged_sameErrs (fs : FileSys) (path : FilePath) (content : GoString) :
    SameErrs fs (writeIfChanged fs path content).2 := by
  rcases writeIfChanged_cases fs path content with ⟨_, hw⟩ | ⟨_, hw⟩
  · rw [hw]
    exact SameErrs.refl fs
  · rw [hw]
    obtain ⟨_, h2, h3, h4, _⟩ := osWriteFile_spec fs path content
    exact ⟨h2, h3, h4⟩

theorem writeIfChanged_error (fs : FileSys) (path : FilePath) (content : GoString) (e : GoString)
    (h : (writeIfChanged fs path content).1 = some e) :
    fs.writeErr path = some e ∧
      (writeIfChanged fs path content).2.files = fs.files ∧
      (writeIfChanged fs path content).2.events = fs.events ++ [FsEvent.writeFailed path] := by
  rcases writeIfChanged_cases fs path content with ⟨_, hw⟩ | ⟨_, hw⟩
  · rw [hw] at h
    simp at h
  · rw [hw] at h ⊢
    obtain ⟨h1, _, _, _, _, _, h7⟩ := osWriteFile_spec fs path content
    have he : fs.writeErr path = some e := h1 ▸ h
    exact ⟨he, h7 (by simp [he])⟩

theorem Generate_eq (S : SliceSort) (fs : FileSys) (ops : List OpDef) (outputDir : GoString) :
    Generate S fs ops outputDir =
      if (writeStepC S fs ops outputDir).1.isSome = true then writeStepC S fs ops outputDir
      else if (writeStepH S fs ops outputDir).1.isSome = true then writeStepH S fs ops outputDir
      else writeStepGo S fs ops outputDir := by
  unfold Generate writeStepGo writeStepH writeStepC cPath hPath goPath
  simp only []
  rcases h₁ : writeIfChanged (cleanOldGenFiles fs outputDir) ⟨outputDir, str "generated.c"⟩
    (GenerateRender S ops).cCode with ⟨e₁, s₁⟩
  cases e₁ with
  | some e => rfl
  | none =>
    simp only [Option.isSome_none, Bool.false_eq_true, if_false]
    rcases h₂ : writeIfChanged s₁ ⟨outputDir, str "generated.h"⟩
      (GenerateRender S ops).hCode with ⟨e₂, s₂⟩
    cases e₂ with
    | some e => rfl
    | none =>
      simp only [Option.isSome_none, Bool.false_eq_true, if_false]
      rcases h₃ : writeIfChanged s₂ ⟨outputDir, str "generated.go"⟩
        (GenerateRender S ops).goCode with ⟨e₃, s₃⟩
      cases e₃ <;> rfl

theorem writeStepH_eq (S : SliceSort) (fs : FileSys) (ops : List OpDef) (outputDir : GoString) :
    writeStepH S fs ops outputDir =
      writeIfChanged (writeStepC S fs ops outputDir).2 (hPath outputDir)
        (GenerateRender S ops).hCode := rfl

theorem writeStepGo_eq (S : SliceSort) (fs : FileSys) (ops : List OpDef) (outputDir : GoString) :
    writeStepGo S fs ops outputDir =
      writeIfChanged (writeStepH S fs ops outputDir).2 (goPath outputDir)
        (GenerateRender S ops).goCode := rfl

theorem writeStepC_eq (S : SliceSort) (fs : FileSys) (ops : List OpDef) (outputDir : GoString) :
    writeStepC S fs ops outputDir =
      writeIfChanged (cleanOldGenFiles fs outputDir) (cPath outputDir)
        (GenerateRender S ops).cCode := rfl

theorem artifact_paths_ne (outputDir : GoString) :
    cPath outputDir ≠ hPath outputDir ∧ cPath outputDir ≠ goPath outputDir ∧
      hPath outputDir ≠ goPath outputDir := by
  have h1 : str "generated.c" ≠ str "generated.h" := by decide
  have h2 : str "generated.c" ≠ str "generated.go" := by decide
  have h3 : str "generated.h" ≠ str "generated.go" := by decide
  refine ⟨fun h => h1 ?_, fun h => h2 ?_, fun h => h3 ?_⟩ <;>
    exact congrArg FilePath.base h

/-- C23: if writing an artifact fails, Generate returns that write error at
once, does not attempt the artifacts that come after it in the order
generated.c, generated.h, generated.go, and leaves the artifacts written
before it in place; it returns no error exactly when all three
write-if-changed steps succeed. -/
theorem Generate_stops_at_write_error (S : SliceSort) (fs : FileSys) (ops : List OpDef)
    (outputDir : GoString) :
    (∀ e, (writeStepC S fs ops outputDir).1 = some e →
        Generate S fs ops outputDir = (some e, (writeStepC S fs ops outputDir).2) ∧
        fs.writeErr (cPath outputDir) = some e ∧
        (writeStepC S fs ops outputDir).2.files = (cleanOldGenFiles fs outputDir).files ∧
        (writeStepC S fs ops outputDir).2.events =
          (cleanOldGenFiles fs outputDir).events ++ [FsEvent.writeFailed (cPath outputDir)]) ∧
      ((writeStepC S fs ops outputDir).1 = none →
        ∀ e, (writeStepH S fs ops outputDir).1 = some e →
          Generate S fs ops outputDir = (some e, (writeStepH S fs ops outputDir).2) ∧
          fs.writeErr (hPath outputDir) = some e ∧
          (writeStepH S fs ops outputDir).2.files = (writeStepC S fs ops outputDir).2.files ∧
          (writeStepH S fs ops outputDir).2.events =
            (writeStepC S fs ops outputDir).2.events ++
              [FsEvent.writeFailed (hPath outputDir)] ∧
          (writeStepH S fs ops outputDir).2.fileAt (cPath outputDir) =
            some (GenerateRender S ops).cCode) ∧
      ((writeStepC S fs ops outputDir).1 = none → (writeStepH S fs ops outputDir).1 = none →
        ∀ e, (writeStepGo S fs ops outputDir).1 = some e →
          Generate S fs ops outputDir = (some e, (writeStepGo S fs ops outputDir).2) ∧
          fs.writeErr (goPath outputDir) = some e ∧
          (writeStepGo S fs ops outputDir).2.files = (writeStepH S fs ops outputDir).2.files ∧
          (writeStepGo S fs ops outputDir).2.events =
            (writeStepH S fs ops outputDir).2.events ++
              [FsEvent.writeFailed (goPath outputDir)] ∧
          (writeStepGo S fs ops outputDir).2.fileAt (cPath outputDir) =
            some (GenerateRender S ops).cCode ∧
          (writeStepGo S fs ops outputDir).2.fileAt (hPath outputDir) =
            some (GenerateRender S ops).hCode) ∧
      ((Generate S fs ops outputDir).1 = none ↔
        (writeStepC S fs ops outputDir).1 = none ∧ (writeStepH S fs ops outputDir).1 = none ∧
          (writeStepGo S fs ops outputDir).1 = none) := by
  have hclean := cleanOldGenFiles_sameErrs fs outputDir
  have hC : SameErrs (cleanOldGenFiles fs outputDir) (writeStepC S fs ops outputDir).2 :=
    writeIfChanged_sameErrs _ _ _
  have hH : SameErrs (writeStepC S fs ops outputDir).2 (writeStepH S fs ops outputDir).2 :=
    writeIfChanged_sameErrs _ _ _
  have hne := artifact_paths_ne outputDir
  have hwrittenC : (writeStepC S fs ops outputDir).1 = none →
      (writeStepC S fs ops outputDir).2.fileAt (cPath outputDir) =
        some (GenerateRender S ops).cCode := by
    rw [writeStepC_eq]
    exact (writeIfChanged_spec _ _ _).2.2.1
  have hwrittenH : (writeStepH S fs ops outputDir).1 = none →
      (writeStepH S fs ops outputDir).2.fileAt (hPath outputDir) =
        some (GenerateRender S ops).hCode := by
    rw [writeStepH_eq]
    exact (writeIfChanged_spec _ _ _).2.2.1
  have hkeepH : ∀ q, q ≠ hPath outputDir →
      (writeStepH S fs ops outputDir).2.fileAt q = (writeStepC S fs ops outputDir).2.fileAt q := by
    rw [writeStepH_eq]
    exact (writeIfChanged_spec _ _ _).2.2.2
  have hkeepGo : ∀ q, q ≠ goPath outputDir →
      (writeStepGo S fs ops outputDir).2.fileAt q =
        (writeStepH S fs ops outputDir).2.fileAt q := by
    rw [writeStepGo_eq]
    exact (writeIfChanged_spec _ _ _).2.2.2
  refine ⟨?_, ?_, ?_, ?_⟩
  · intro e he
    have hgen : Generate S fs ops outputDir = writeStepC S fs ops outputDir := by
      rw [Generate_eq, if_pos (by rw [he]; rfl)]
    have hpair : writeStepC S fs ops outputDir = (some e, (writeStepC S fs ops outputDir).2) :=
      Prod.ext he rfl
    rw [writeStepC_eq] at he
    obtain ⟨h1, h2, h3⟩ := writeIfChanged_error _ _ _ e he
    refine ⟨hgen.trans hpair, ?_, ?_, ?_⟩
    · rw [← hclean.2.1]
      exact h1
    · rw [writeStepC_eq]; exact h2
    · rw [writeStepC_eq]; exact h3
  · intro hc e he
    have hgen : Generate S fs ops outputDir = writeStepH S fs ops outputDir := by
      rw [Generate_eq, if_neg (by rw [hc]; simp), if_pos (by rw [he]; rfl)]
    have hpair : writeStepH S fs ops outputDir = (some e, (writeStepH S fs ops outputDir).2) :=
      Prod.ext he rfl
    have hkeep := hkeepH (cPath outputDir) hne.1
    rw [writeStepH_eq] at he
    obtain ⟨h1, h2, h3⟩ := writeIfChanged_error _ _ _ e he
    refine ⟨hgen.trans hpair, ?_, ?_, ?_, ?_⟩
    · rw [← hclean.2.1, ← hC.2.1]
      exact h1
    · rw [writeStepH_eq]; exact h2
    · rw [writeStepH_eq]; exact h3
    · exact hkeep.trans (hwrittenC hc)
  · intro hc hh e he
    have hgen : Generate S fs ops outputDir = writeStepGo S fs ops outputDir := by
      rw [Generate_eq, if_neg (by rw [hc]; simp), if_neg (by rw [hh]; simp)]
    have hpair : writeStepGo S fs ops outputDir = (some e, (writeStepGo S fs ops outputDir).2) :=
      Prod.ext he rfl
    rw [writeStepGo_eq] at he
    obtain ⟨h1, h2, h3⟩ := writeIfChanged_error _ _ _ e he
    refine ⟨hgen.trans hpair, ?_, ?_, ?_, ?_, ?_⟩
    · rw [← hclean.2.1, ← hC.2.1, ← hH.2.1]
      exact h1
    · rw [writeStepGo_eq]; exact h2
    · rw [writeStepGo_eq]; exact h3
    · exact (hkeepGo (cPath outputDir) hne.2.1).trans
        ((hkeepH (cPath outputDir) hne.1).trans (hwrittenC hc))
    · exact (hkeepGo (hPath outputDir) hne.2.2).trans (hwrittenH hh)
  · rw [Generate_eq]
    by_cases hc : (writeStepC S fs ops outputDir).1 = none
    · by_cases hh : (writeStepH S fs ops outputDir).1 = none
      · rw [if_neg (by rw [hc]; simp), if_neg (by rw [hh]; simp)]
        exact ⟨fun h => ⟨hc, hh, h⟩, fun h => h.2.2⟩
      · rw [if_neg (by rw [hc]; simp), if_pos (by
          cases hx : (writeStepH S fs ops outputDir).1 with
          | none => exact absurd hx hh
          | some _ => rfl)]
        exact ⟨fun h => absurd h hh, fun h => absurd h.2.1 hh⟩
    · rw [if_pos (by
        cases hx : (writeStepC S fs ops outputDir).1 with
        | none => exact absurd hx hc
        | some _ => rfl)]
      exact ⟨fun h => absurd h hc, fun h => absurd h.1 hc⟩

/-- Witness of C23: generated.h cannot be written: Generate returns the error
of that write, generated.c is in place and generated.go is not attempted. -/
theorem Generate_stops_at_write_error_witness :
    Generate stableSliceSort (readOnlyAt (hPath (str "vips")) []) [] (str "vips") =
        (some (str "permission denied"),
          (writeStepH stableSliceSort (readOnlyAt (hPath (str "vips")) []) [] (str "vips")).2) ∧
      (readOnlyAt (hPath (str "vips")) []).writeErr (hPath (str "vips")) =
        some (str "permission denied") ∧
      (writeStepH stableSliceSort (readOnlyAt (hPath (str "vips")) []) [] (str "vips")).2.files =
        (writeStepC stableSliceSort (readOnlyAt (hPath (str "vips")) []) [] (str "vips")).2.files ∧
      (writeStepH stableSliceSort (readOnlyAt (hPath (str "vips")) []) [] (str "vips")).2.events =
        (writeStepC stableSliceSort (readOnlyAt (hPath (str "vips")) []) []
          (str "vips")).2.events ++ [FsEvent.writeFailed (hPath (str "vips"))] ∧
      (writeStepH stableSliceSort (readOnlyAt (hPath (str "vips")) []) []
        (str "vips")).2.fileAt (cPath (str "vips")) =
        some (GenerateRender stableSliceSort []).cCode :=
  (Generate_stops_at_write_error stableSliceSort (readOnlyAt (hPath (str "vips")) []) []
    (str "vips")).2.1 (by decide) (str "permission denied") (by decide)

/-! ### cleanOldGenFiles and the second run of Generate -/

theorem ne_of_lookup_none (files : List (FilePath × GoString)) (m : FilePath)
    (h : files.lookup m = none) : ∀ e ∈ files, e.1 ≠ m := by
  induction files with
  | nil => intro e he; simp at he
  | cons x rest ih =>
    obtain ⟨q, d⟩ := x
    by_cases hq : m = q
    · subst hq
      simp [List.lookup] at h
    · have hb : (m == q) = false := by simpa using hq
      simp only [List.lookup, hb] at h
      intro e he
      rcases List.mem_cons.mp he with rfl | he'
      · exact fun heq => hq heq.symm
      · exact ih h e he'

theorem osRemove_files (fs : FileSys) (m : FilePath) :
    (osRemove fs m).2.files =
      fs.files.filter (fun e => !(decide (e.1 = m) && (fs.removeErr m).isNone)) := by
  unfold osRemove
  cases hf : fs.fileAt m with
  | none =>
    symm
    rw [List.filter_eq_self]
    intro e he
    have := ne_of_lookup_none fs.files m hf e he
    simp [this]
  | some _ =>
    cases hr : fs.removeErr m with
    | some err =>
      symm
      rw [List.filter_eq_self]
      intro e _
      simp
    | none =>
      simp only []
      apply List.filter_congr
      intro e _
      simp

theorem removeUnlessPreserved_files (fs : FileSys) (m : FilePath) :
    (removeUnlessPreserved fs m).files = fs.files.filter (staysAfter fs.removeErr m) := by
  unfold removeUnlessPreserved
  by_cases hp : mapBool preserve m.base = true
  · rw [if_pos hp]
    symm
    rw [List.filter_eq_self]
    intro e _
    simp [staysAfter, hp]
  · rw [if_neg hp, osRemove_files]
    apply List.filter_congr
    intro e _
    have hp' : mapBool preserve m.base = false := by simpa using hp
    simp [staysAfter, hp']

theorem removeUnlessPreserved_sameErrs (fs : FileSys) (m : FilePath) :
    SameErrs fs (removeUnlessPreserved fs m) := by
  unfold removeUnlessPreserved
  split_ifs
  · exact SameErrs.refl fs
  · exact osRemove_sameErrs fs m

theorem removeAll_files (L : List FilePath) (fs : FileSys) :
    (L.foldl removeUnlessPreserved fs).files =
      fs.files.filter (fun e => L.all (fun m => staysAfter fs.removeErr m e)) := by
  induction L generalizing fs with
  | nil => simp
  | cons m L ih =>
    rw [List.foldl_cons, ih, removeUnlessPreserved_files, List.filter_filter,
      (removeUnlessPreserved_sameErrs fs m).2.2]
    apply List.filter_congr
    intro e _
    simp only [List.all_cons]
    exact Bool.and_comm _ _

theorem cleanOldGenFiles_eq (fs : FileSys) (outputDir : GoString) :
    cleanOldGenFiles fs outputDir =
      [str "*.c", str "*.h", str "*.go"].foldl (fun fs ext =>
        (filepathGlob fs outputDir (str "gen_" ++ ext)).foldl removeUnlessPreserved fs) fs := rfl

theorem clean_establishes (outputDir : GoString) (rest done : List GoString) (fs : FileSys)
    (h : NothingRemovable fs outputDir done) :
    NothingRemovable
      (rest.foldl (fun fs ext =>
        (filepathGlob fs outputDir (str "gen_" ++ ext)).foldl removeUnlessPreserved fs) fs)
      outputDir (done ++ rest) := by
  induction rest generalizing fs done with
  | nil => simpa using h
  | cons ext rest ih =>
    rw [List.foldl_cons]
    have hstep : NothingRemovable
        ((filepathGlob fs outputDir (str "gen_" ++ ext)).foldl removeUnlessPreserved fs)
        outputDir (done ++ [ext]) := by
      intro e he hdir hmatch hpres
      have hsame : SameErrs fs
          ((filepathGlob fs outputDir (str "gen_" ++ ext)).foldl removeUnlessPreserved fs) :=
        foldl_sameErrs _ removeUnlessPreserved_sameErrs _ _
      rw [hsame.2.2]
      rw [removeAll_files, List.mem_filter] at he
      obtain ⟨x, hx, hxm⟩ := hmatch
      rcases List.mem_append.mp hx with hx' | hx'
      · exact h e he.1 hdir ⟨x, hx', hxm⟩ hpres
      · rw [List.mem_singleton] at hx'
        subst hx'
        have hglob : e.1 ∈ filepathGlob fs outputDir (str "gen_" ++ x) := by
          unfold filepathGlob
          rw [List.mem_filter]
          exact ⟨List.mem_map_of_mem Prod.fst he.1, by simp [hdir, hxm]⟩
        have hstay := List.all_eq_true.mp he.2 e.1 hglob
        intro hnone
        simp [staysAfter, hpres, hnone] at hstay
    have := ih (done ++ [ext]) _ hstep
    simpa [List.append_assoc] using this

theorem removeAll_idle (L : List FilePath) (fs : FileSys)
    (h : ∀ m ∈ L, mapBool preserve m.base = false → fs.removeErr m ≠ none) :
    (L.foldl removeUnlessPreserved fs).files = fs.files ∧
      SameErrs fs (L.foldl removeUnlessPreserved fs) ∧
      ∃ extra, (L.foldl removeUnlessPreserved fs).events = fs.events ++ extra ∧
        ∀ ev ∈ extra, ∃ p, ev = FsEvent.removeFailed p := by
  induction L generalizing fs with
  | nil => exact ⟨rfl, SameErrs.refl fs, [], by simp, by simp⟩
  | cons m L ih =>
    rw [List.foldl_cons]
    have hstep : (removeUnlessPreserved fs m).files = fs.files ∧
        ∃ extra, (removeUnlessPreserved fs m).events = fs.events ++ extra ∧
          ∀ ev ∈ extra, ∃ p, ev = FsEvent.removeFailed p := by
      unfold removeUnlessPreserved
      by_cases hp : mapBool preserve m.base = true
      · rw [if_pos hp]
        exact ⟨rfl, [], by simp, by simp⟩
      · rw [if_neg hp]
        have hp' : mapBool preserve m.base = false := by simpa using hp
        have hrem := h m (List.mem_cons_self _ _) hp'
        unfold osRemove
        cases hf : fs.fileAt m with
        | none => exact ⟨rfl, [FsEvent.removeFailed m], rfl, by simp⟩
        | some _ =>
          cases hr : fs.removeErr m with
          | none => exact absurd hr hrem
          | some err => exact ⟨rfl, [FsEvent.removeFailed m], rfl, by simp⟩
    have hsame := removeUnlessPreserved_sameErrs fs m
    obtain ⟨hfiles, extra₁, hev₁, hall₁⟩ := hstep
    obtain ⟨hf₂, hs₂, extra₂, hev₂, hall₂⟩ := ih (removeUnlessPreserved fs m) (fun m' hm' hp' => by
      rw [hsame.2.2]
      exact h m' (List.mem_cons_of_mem _ hm') hp')
    refine ⟨hf₂.trans hfiles, hsame.trans hs₂, extra₁ ++ extra₂, ?_, ?_⟩
    · rw [hev₂, hev₁, List.append_assoc]
    · intro ev hev
      rcases List.mem_append.mp hev with h' | h'
      · exact hall₁ ev h'
      · exact hall₂ ev h'

theorem clean_idle (outputDir : GoString) (exts all : List GoString) (fs : FileSys)
    (hsub : ∀ ext ∈ exts, ext ∈ all) (h : NothingRemovable fs outputDir all) :
    (exts.foldl (fun fs ext =>
        (filepathGlob fs outputDir (str "gen_" ++ ext)).foldl removeUnlessPreserved fs) fs).files =
        fs.files ∧
      ∃ extra, (exts.foldl (fun fs ext =>
          (filepathGlob fs outputDir (str "gen_" ++ ext)).foldl removeUnlessPreserved fs)
            fs).events = fs.events ++ extra ∧
        ∀ ev ∈ extra, ∃ p, ev = FsEvent.removeFailed p := by
  induction exts generalizing fs with
  | nil => exact ⟨rfl, [], by simp, by simp⟩
  | cons ext exts ih =>
    rw [List.foldl_cons]
    have hL : ∀ m ∈ filepathGlob fs outputDir (str "gen_" ++ ext),
        mapBool preserve m.base = false → fs.removeErr m ≠ none := by
      intro m hm hp
      unfold filepathGlob at hm
      rw [List.mem_filter, List.mem_map] at hm
      obtain ⟨⟨e, he, rfl⟩, hcond⟩ := hm
      simp only [Bool.and_eq_true, decide_eq_true_eq] at hcond
      exact h e he hcond.1 ⟨ext, hsub ext (List.mem_cons_self _ _), hcond.2⟩ hp
    obtain ⟨hf₁, hs₁, extra₁, hev₁, hall₁⟩ := removeAll_idle _ fs hL
    have h' : NothingRemovable
        ((filepathGlob fs outputDir (str "gen_" ++ ext)).foldl removeUnlessPreserved fs)
        outputDir all := by
      intro e he hdir hmatch hp
      rw [hs₁.2.2]
      rw [hf₁] at he
      exact h e he hdir hmatch hp
    obtain ⟨hf₂, extra₂, hev₂, hall₂⟩ :=
      ih _ (fun x hx => hsub x (List.mem_cons_of_mem _ hx)) h'
    refine ⟨hf₂.trans hf₁, extra₁ ++ extra₂, ?_, ?_⟩
    · rw [hev₂, hev₁, List.append_assoc]
    · intro ev hev
      rcases List.mem_append.mp hev with hx | hx
      · exact hall₁ ev hx
      · exact hall₂ ev hx

theorem mem_setFile (files : List (FilePath × GoString)) (p : FilePath) (c : GoString)
    (e : FilePath × GoString) (he : e ∈ setFile files p c) : e ∈ files ∨ e.1 = p := by
  induction files with
  | nil =>
    simp only [setFile, List.mem_singleton] at he
    exact Or.inr (by rw [he])
  | cons x rest ih =>
    obtain ⟨q, d⟩ := x
    unfold setFile at he
    by_cases hq : q = p
    · rw [if_pos hq] at he
      rcases List.mem_cons.mp he with rfl | he'
      · exact Or.inr rfl
      · exact Or.inl (List.mem_cons_of_mem _ (List.mem_filter.mp he').1)
    · rw [if_neg hq] at he
      rcases List.mem_cons.mp he with rfl | he'
      · exact Or.inl (List.mem_cons_self _ _)
      · exact (ih he').imp (List.mem_cons_of_mem _) id

theorem writeIfChanged_nothingRemovable (fs : FileSys) (path : FilePath) (content : GoString)
    (outputDir : GoString) (exts : List GoString)
    (hpath : ∀ ext ∈ exts, filepathMatch (str "gen_" ++ ext) path.base = false)
    (h : NothingRemovable fs outputDir exts) :
    NothingRemovable (writeIfChanged fs path content).2 outputDir exts := by
  rcases writeIfChanged_cases fs path content with ⟨_, hw⟩ | ⟨_, hw⟩
  · rw [hw]
    exact h
  · rw [hw]
    intro e he hdir hmatch hp
    have hsame : (osWriteFile fs path content).2.removeErr = fs.removeErr :=
      (osWriteFile_spec fs path content).2.2.2.1
    rw [hsame]
    have hmem : e ∈ fs.files ∨ e.1 = path := by
      unfold osWriteFile at he
      cases hwe : fs.writeErr path with
      | some err =>
        rw [hwe] at he
        exact Or.inl he
      | none =>
        rw [hwe] at he
        exact mem_setFile _ _ _ _ he
    rcases hmem with hm | hm
    · exact h e hm hdir hmatch hp
    · obtain ⟨ext, hext, hmx⟩ := hmatch
      rw [hm, hpath ext hext] at hmx
      exact absurd hmx (by simp)

theorem Generate_ok (S : SliceSort) (fs : FileSys) (ops : List OpDef) (outputDir : GoString)
    (h : (Generate S fs ops outputDir).1 = none) :
    (writeStepC S fs ops outputDir).1 = none ∧ (writeStepH S fs ops outputDir).1 = none ∧
      (writeStepGo S fs ops outputDir).1 = none ∧
      Generate S fs ops outputDir = writeStepGo S fs ops outputDir := by
  rw [Generate_eq] at h ⊢
  by_cases hc : (writeStepC S fs ops outputDir).1 = none
  · by_cases hh : (writeStepH S fs ops outputDir).1 = none
    · rw [if_neg (by rw [hc]; simp), if_neg (by rw [hh]; simp)] at h ⊢
      exact ⟨hc, hh, h, rfl⟩
    · rw [if_neg (by rw [hc]; simp), if_pos (by
        cases hx : (writeStepH S fs ops outputDir).1 with
        | none => exact absurd hx hh
        | some _ => rfl)] at h
      exact absurd h hh
  · rw [if_pos (by
      cases hx : (writeStepC S fs ops outputDir).1 with
      | none => exact absurd hx hc
      | some _ => rfl)] at h
    exact absurd h hc

theorem artifacts_not_legacy (outputDir : GoString) :
    (∀ ext ∈ [str "*.c", str "*.h", str "*.go"],
        filepathMatch (str "gen_" ++ ext) (cPath outputDir).base = false) ∧
      (∀ ext ∈ [str "*.c", str "*.h", str "*.go"],
        filepathMatch (str "gen_" ++ ext) (hPath outputDir).base = false) ∧
      (∀ ext ∈ [str "*.c", str "*.h", str "*.go"],
        filepathMatch (str "gen_" ++ ext) (goPath outputDir).base = false) := by
  refine ⟨?_, ?_, ?_⟩
  · show ∀ ext ∈ [str "*.c", str "*.h", str "*.go"],
      filepathMatch (str "gen_" ++ ext) (str "generated.c") = false
    decide
  · show ∀ ext ∈ [str "*.c", str "*.h", str "*.go"],
      filepathMatch (str "gen_" ++ ext) (str "generated.h") = false
    decide
  · show ∀ ext ∈ [str "*.c", str "*.h", str "*.go"],
      filepathMatch (str "gen_" ++ ext) (str "generated.go") = false
    decide

/-- The state after a run of Generate whose three steps succeeded: the errors
of the file system are those of the start, the three artifacts hold the
rendered text, and no legacy file is left that could be removed. -/
theorem Generate_ok_state (S : SliceSort) (fs : FileSys) (ops : List OpDef)
    (outputDir : GoString)
    (hc : (writeStepC S fs ops outputDir).1 = none)
    (hh : (writeStepH S fs ops outputDir).1 = none)
    (hg : (writeStepGo S fs ops outputDir).1 = none) :
    SameErrs fs (writeStepGo S fs ops outputDir).2 ∧
      (writeStepGo S fs ops outputDir).2.fileAt (cPath outputDir) =
        some (GenerateRender S ops).cCode ∧
      (writeStepGo S fs ops outputDir).2.fileAt (hPath outputDir) =
        some (GenerateRender S ops).hCode ∧
      (writeStepGo S fs ops outputDir).2.fileAt (goPath outputDir) =
        some (GenerateRender S ops).goCode ∧
      NothingRemovable (writeStepGo S fs ops outputDir).2 outputDir
        [str "*.c", str "*.h", str "*.go"] := by
  have hclean := cleanOldGenFiles_sameErrs fs outputDir
  have hC : SameErrs (cleanOldGenFiles fs outputDir) (writeStepC S fs ops outputDir).2 :=
    writeIfChanged_sameErrs _ _ _
  have hH : SameErrs (writeStepC S fs ops outputDir).2 (writeStepH S fs ops outputDir).2 :=
    writeIfChanged_sameErrs _ _ _
  have hG : SameErrs (writeStepH S fs ops outputDir).2 (writeStepGo S fs ops outputDir).2 :=
    writeIfChanged_sameErrs _ _ _
  have hne := artifact_paths_ne outputDir
  have hwrittenC : (writeStepC S fs ops outputDir).2.fileAt (cPath outputDir) =
      some (GenerateRender S ops).cCode := by
    rw [writeStepC_eq] at hc ⊢
    exact (writeIfChanged_spec _ _ _).2.2.1 hc
  have hwrittenH : (writeStepH S fs ops outputDir).2.fileAt (hPath outputDir) =
      some (GenerateRender S ops).hCode := by
    rw [writeStepH_eq] at hh ⊢
    exact (writeIfChanged_spec _ _ _).2.2.1 hh
  have hwrittenG : (writeStepGo S fs ops outputDir).2.fileAt (goPath outputDir) =
      some (GenerateRender S ops).goCode := by
    rw [writeStepGo_eq] at hg ⊢
    exact (writeIfChanged_spec _ _ _).2.2.1 hg
  have hkeepH : ∀ q, q ≠ hPath outputDir →
      (writeStepH S fs ops outputDir).2.fileAt q = (writeStepC S fs ops outputDir).2.fileAt q := by
    rw [writeStepH_eq]
    exact (writeIfChanged_spec _ _ _).2.2.2
  have hkeepGo : ∀ q, q ≠ goPath outputDir →
      (writeStepGo S fs ops outputDir).2.fileAt q =
        (writeStepH S fs ops outputDir).2.fileAt q := by
    rw [writeStepGo_eq]
    exact (writeIfChanged_spec _ _ _).2.2.2
  have hnot := artifacts_not_legacy outputDir
  have h0 : NothingRemovable (cleanOldGenFiles fs outputDir) outputDir
      [str "*.c", str "*.h", str "*.go"] := by
    have hstart : NothingRemovable fs outputDir [] := by
      intro e _ _ hmatch
      obtain ⟨ext, hext, _⟩ := hmatch
      simp at hext
    have := clean_establishes outputDir [str "*.c", str "*.h", str "*.go"] [] fs hstart
    rw [List.nil_append] at this
    rw [cleanOldGenFiles_eq]
    exact this
  have h1 : NothingRemovable (writeStepC S fs ops outputDir).2 outputDir
      [str "*.c", str "*.h", str "*.go"] := by
    rw [writeStepC_eq]
    exact writeIfChanged_nothingRemovable _ _ _ _ _ hnot.1 h0
  have h2 : NothingRemovable (writeStepH S fs ops outputDir).2 outputDir
      [str "*.c", str "*.h", str "*.go"] := by
    rw [writeStepH_eq]
    exact writeIfChanged_nothingRemovable _ _ _ _ _ hnot.2.1 h1
  have h3 : NothingRemovable (writeStepGo S fs ops outputDir).2 outputDir
      [str "*.c", str "*.h", str "*.go"] := by
    rw [writeStepGo_eq]
    exact writeIfChanged_nothingRemovable _ _ _ _ _ hnot.2.2 h2
  refine ⟨((hclean.trans hC).trans hH).trans hG, ?_, ?_, hwrittenG, h3⟩
  · exact (hkeepGo (cPath outputDir) hne.2.1).trans
      ((hkeepH (cPath outputDir) hne.1).trans hwrittenC)
  · exact (hkeepGo (hPath outputDir) hne.2.2).trans hwrittenH

/-- A run of Generate on a directory whose three artifacts can be read and
hold the rendered text, and in which no legacy file can be removed: the run
succeeds and ends in the state that cleanOldGenFiles leaves, with the files
of the start and only failed removals added to the record. -/
theorem Generate_of_settled (S : SliceSort) (fs : FileSys) (ops : List OpDef)
    (outputDir : GoString)
    (hread : fs.readErr (cPath outputDir) = none ∧ fs.readErr (hPath outputDir) = none ∧
      fs.readErr (goPath outputDir) = none)
    (hc : fs.fileAt (cPath outputDir) = some (GenerateRender S ops).cCode)
    (hh : fs.fileAt (hPath outputDir) = some (GenerateRender S ops).hCode)
    (hg : fs.fileAt (goPath outputDir) = some (GenerateRender S ops).goCode)
    (hnr : NothingRemovable fs outputDir [str "*.c", str "*.h", str "*.go"]) :
    Generate S fs ops outputDir = (none, cleanOldGenFiles fs outputDir) ∧
      (cleanOldGenFiles fs outputDir).files = fs.files ∧
      ∃ extra, (cleanOldGenFiles fs outputDir).events = fs.events ++ extra ∧
        ∀ ev ∈ extra, ∃ p, ev = FsEvent.removeFailed p := by
  have hidle := clean_idle outputDir [str "*.c", str "*.h", str "*.go"]
    [str "*.c", str "*.h", str "*.go"] fs (fun _ h => h) hnr
  rw [← cleanOldGenFiles_eq] at hidle
  obtain ⟨hfiles, hextra⟩ := hidle
  have hsame := cleanOldGenFiles_sameErrs fs outputDir
  have hat : ∀ p, (cleanOldGenFiles fs outputDir).fileAt p = fs.fileAt p := by
    intro p
    unfold FileSys.fileAt
    rw [hfiles]
  have hC : writeStepC S fs ops outputDir = (none, cleanOldGenFiles fs outputDir) := by
    rw [writeStepC_eq]
    exact (writeIfChanged_spec _ _ _).1 ((hat _).trans hc) (by rw [hsame.1]; exact hread.1)
  have hH : writeStepH S fs ops outputDir = (none, cleanOldGenFiles fs outputDir) := by
    rw [writeStepH_eq, hC]
    exact (writeIfChanged_spec _ _ _).1 ((hat _).trans hh) (by rw [hsame.1]; exact hread.2.1)
  have hG : writeStepGo S fs ops outputDir = (none, cleanOldGenFiles fs outputDir) := by
    rw [writeStepGo_eq, hH]
    exact (writeIfChanged_spec _ _ _).1 ((hat _).trans hg) (by rw [hsame.1]; exact hread.2.2)
  refine ⟨?_, hfiles, hextra⟩
  rw [Generate_eq, if_neg (by rw [hC]; simp), if_neg (by rw [hH]; simp)]
  exact hG

/-- C22 (as amended): when Generate is run twice in a row with the same
operation list and the same output directory, the first run succeeds and the
three artifacts generated.c, generated.h and generated.go can be read, the
second run succeeds too, performs no file write and no file removal (the only
calls it adds to the record are removals that fail, of legacy files that the
first run could not remove either), and leaves every file unchanged. -/
theorem Generate_rerun_idle (S : SliceSort) (fs : FileSys) (ops : List OpDef)
    (outputDir : GoString)
    (h₁ : (Generate S fs ops outputDir).1 = none)
    (hread : fs.readErr (cPath outputDir) = none ∧ fs.readErr (hPath outputDir) = none ∧
      fs.readErr (goPath outputDir) = none) :
    (Generate S (Generate S fs ops outputDir).2 ops outputDir).1 = none ∧
      (Generate S (Generate S fs ops outputDir).2 ops outputDir).2.files =
        (Generate S fs ops outputDir).2.files ∧
      ∃ extra, (Generate S (Generate S fs ops outputDir).2 ops outputDir).2.events =
          (Generate S fs ops outputDir).2.events ++ extra ∧
        ∀ ev ∈ extra, ∃ p, ev = FsEvent.removeFailed p := by
  obtain ⟨hc, hh, hg, hgen⟩ := Generate_ok S fs ops outputDir h₁
  obtain ⟨hsame, hfc, hfh, hfg, hnr⟩ := Generate_ok_state S fs ops outputDir hc hh hg
  rw [hgen]
  have hread' : (writeStepGo S fs ops outputDir).2.readErr (cPath outputDir) = none ∧
      (writeStepGo S fs ops outputDir).2.readErr (hPath outputDir) = none ∧
      (writeStepGo S fs ops outputDir).2.readErr (goPath outputDir) = none := by
    rw [hsame.1]
    exact hread
  obtain ⟨hrun, hfiles, hextra⟩ :=
    Generate_of_settled S (writeStepGo S fs ops outputDir).2 ops outputDir hread' hfc hfh hfg hnr
  rw [hrun]
  exact ⟨rfl, hfiles, hextra⟩

set_option maxRecDepth 100000 in
/-- Witness of C22 (as amended): the directory holds a legacy file and the
preserved hand-written file, every file can be read, written and removed;
the first run succeeds, and the second run leaves the files and the record
of writes and removals as the first run left them. -/
theorem Generate_rerun_idle_witness :
    (Generate stableSliceSort (Generate stableSliceSort
        (plainFs [(⟨str "vips", str "gen_arithmetic.go"⟩, str "package vips\n"),
          (⟨str "vips", str "gen_enum_extras.go"⟩, str "package vips\n")])
        [] (str "vips")).2 [] (str "vips")).1 = none ∧
      (Generate stableSliceSort (Generate stableSliceSort
        (plainFs [(⟨str "vips", str "gen_arithmetic.go"⟩, str "package vips\n"),
          (⟨str "vips", str "gen_enum_extras.go"⟩, str "package vips\n")])
        [] (str "vips")).2 [] (str "vips")).2.files =
        (Generate stableSliceSort
          (plainFs [(⟨str "vips", str "gen_arithmetic.go"⟩, str "package vips\n"),
            (⟨str "vips", str "gen_enum_extras.go"⟩, str "package vips\n")])
          [] (str "vips")).2.files ∧
      ∃ extra, (Generate stableSliceSort (Generate stableSliceSort
        (plainFs [(⟨str "vips", str "gen_arithmetic.go"⟩, str "package vips\n"),
          (⟨str "vips", str "gen_enum_extras.go"⟩, str "package vips\n")])
        [] (str "vips")).2 [] (str "vips")).2.events =
          (Generate stableSliceSort
            (plainFs [(⟨str "vips", str "gen_arithmetic.go"⟩, str "package vips\n"),
              (⟨str "vips", str "gen_enum_extras.go"⟩, str "package vips\n")])
            [] (str "vips")).2.events ++ extra ∧
        ∀ ev ∈ extra, ∃ p, ev = FsEvent.removeFailed p :=
  Generate_rerun_idle stableSliceSort
    (plainFs [(⟨str "vips", str "gen_arithmetic.go"⟩, str "package vips\n"),
      (⟨str "vips", str "gen_enum_extras.go"⟩, str "package vips\n")])
    [] (str "vips") (by decide) ⟨rfl, rfl, rfl⟩

set_option maxRecDepth 100000 in
/-- C22 as stated fails: the three artifacts exist and can be written but not
read; the first run succeeds and writes the three, and the second run, with
the same operation list and directory, writes the three again. -/
theorem Generate_rerun_writes_unreadable :
    (Generate stableSliceSort
        (writeOnlyFs [(cPath (str "vips"), str "old"), (hPath (str "vips"), str "old"),
          (goPath (str "vips"), str "old")]) [] (str "vips")).1 = none ∧
      (Generate stableSliceSort
        (writeOnlyFs [(cPath (str "vips"), str "old"), (hPath (str "vips"), str "old"),
          (goPath (str "vips"), str "old")]) [] (str "vips")).2.events =
        [FsEvent.wrote (cPath (str "vips")), FsEvent.wrote (hPath (str "vips")),
          FsEvent.wrote (goPath (str "vips"))] ∧
      (Generate stableSliceSort (Generate stableSliceSort
        (writeOnlyFs [(cPath (str "vips"), str "old"), (hPath (str "vips"), str "old"),
          (goPath (str "vips"), str "old")]) [] (str "vips")).2 [] (str "vips")).2.events =
        [FsEvent.wrote (cPath (str "vips")), FsEvent.wrote (hPath (str "vips")),
          FsEvent.wrote (goPath (str "vips")), FsEvent.wrote (cPath (str "vips")),
          FsEvent.wrote (hPath (str "vips")), FsEvent.wrote (goPath (str "vips"))] := by
  decide

/-! ### The three views keep the order of Args -/

/-- C31: if an operation's Args are in non-decreasing Priority order, then
RequiredInputs, OptionalInputs and Outputs are each in non-decreasing
Priority order, because each view is an order-preserving sub-sequence of
Args. -/
theorem views_keep_priority_order (op : OpDef)
    (h : op.Args.Pairwise (fun a b => a.Priority ≤ b.Priority)) :
    (op.RequiredInputs.Sublist op.Args ∧ op.OptionalInputs.Sublist op.Args ∧
        op.Outputs.Sublist op.Args) ∧
      op.RequiredInputs.Pairwise (fun a b => a.Priority ≤ b.Priority) ∧
      op.OptionalInputs.Pairwise (fun a b => a.Priority ≤ b.Priority) ∧
      op.Outputs.Pairwise (fun a b => a.Priority ≤ b.Priority) := by
  have hR : op.RequiredInputs.Sublist op.Args := List.filter_sublist _
  have hO : op.OptionalInputs.Sublist op.Args := List.filter_sublist _
  have hOut : op.Outputs.Sublist op.Args := List.filter_sublist _
  exact ⟨⟨hR, hO, hOut⟩, h.sublist hR, h.sublist hO, h.sublist hOut⟩

/-- Witness of C31: an operation whose arguments are in Priority order, with
an optional input between two required ones. -/
theorem views_keep_priority_order_witness :
    (OpDef.RequiredInputs ⟨str "embed", str "", str "VipsConversion",
        [⟨str "in", ArgTypeImage, 5, 1, 0, 0, 0, str ""⟩,
         ⟨str "extend", ArgTypeEnum, 1, 2, 0, 0, 0, str "VipsExtend"⟩,
         ⟨str "x", ArgTypeInt, 5, 3, 0, 0, 0, str ""⟩,
         ⟨str "out", ArgTypeImage, 6, 4, 0, 0, 0, str ""⟩]⟩).Pairwise
      (fun a b => a.Priority ≤ b.Priority) :=
  (views_keep_priority_order ⟨str "embed", str "", str "VipsConversion",
    [⟨str "in", ArgTypeImage, 5, 1, 0, 0, 0, str ""⟩,
     ⟨str "extend", ArgTypeEnum, 1, 2, 0, 0, 0, str "VipsExtend"⟩,
     ⟨str "x", ArgTypeInt, 5, 3, 0, 0, 0, str ""⟩,
     ⟨str "out", ArgTypeImage, 6, 4, 0, 0, 0, str ""⟩]⟩ (by decide)).2.1

/-! ### primaryImageOutput -/

theorem find?_eq_some_iff_first {α : Type} (p : α → Bool) (l : List α) (a : α) :
    l.find? p = some a ↔
      ∃ l₁ l₂, l = l₁ ++ a :: l₂ ∧ p a = true ∧ ∀ b ∈ l₁, p b = false := by
  induction l with
  | nil => simp
  | cons x l ih =>
    by_cases hx : p x = true
    · rw [List.find?_cons_of_pos _ hx]
      constructor
      · intro h
        cases h
        exact ⟨[], l, rfl, hx, by simp⟩
      · rintro ⟨l₁, l₂, hl, ha, hall⟩
        cases l₁ with
        | nil =>
          simp only [List.nil_append, List.cons.injEq] at hl
          rw [hl.1]
        | cons y l₁ =>
          simp only [List.cons_append, List.cons.injEq] at hl
          have := hall y (List.mem_cons_self _ _)
          rw [← hl.1, hx] at this
          exact absurd this (by simp)
    · rw [List.find?_cons_of_neg _ hx, ih]
      have hx' : p x = false := by simpa using hx
      constructor
      · rintro ⟨l₁, l₂, hl, ha, hall⟩
        refine ⟨x :: l₁, l₂, by rw [hl]; rfl, ha, ?_⟩
        intro b hb
        rcases List.mem_cons.mp hb with rfl | hb'
        · exact hx'
        · exact hall b hb'
      · rintro ⟨l₁, l₂, hl, ha, hall⟩
        cases l₁ with
        | nil =>
          simp only [List.nil_append, List.cons.injEq] at hl
          rw [hl.1, ha] at hx'
          exact absurd hx' (by simp)
        | cons y l₁ =>
          simp only [List.cons_append, List.cons.injEq] at hl
          exact ⟨l₁, l₂, hl.2, ha, fun b hb => hall b (List.mem_cons_of_mem _ hb)⟩

/-- C37: primaryImageOutput(op) returns the first argument of op.Outputs(),
in argument order, whose kind is Image (the outputs before it are of other
kinds), and returns nil exactly when no output of op is of kind Image. -/
theorem primaryImageOutput_first_image (op : OpDef) :
    (∀ a, primaryImageOutput op = some a ↔
        ∃ l₁ l₂, op.Outputs = l₁ ++ a :: l₂ ∧ a.Typ = ArgTypeImage ∧
          ∀ b ∈ l₁, b.Typ ≠ ArgTypeImage) ∧
      (primaryImageOutput op = none ↔ ∀ b ∈ op.Outputs, b.Typ ≠ ArgTypeImage) := by
  constructor
  · intro a
    unfold primaryImageOutput
    rw [find?_eq_some_iff_first]
    simp only [beq_iff_eq, beq_eq_false_iff_ne, ne_eq]
  · unfold primaryImageOutput
    rw [List.find?_eq_none]
    simp only [beq_iff_eq, ne_eq]

/-! ### normalizeCategory applied twice -/

theorem mem_of_lookup_eq_some {β : Type} (m : List (GoString × β)) (k : GoString) (v : β)
    (h : m.lookup k = some v) : (k, v) ∈ m := by
  induction m with
  | nil => simp at h
  | cons p m ih =>
    obtain ⟨k', v'⟩ := p
    by_cases hk : k = k'
    · subst hk
      simp only [List.lookup, beq_self_eq_true, Option.some.injEq] at h
      rw [h]
      exact List.mem_cons_self _ _
    · have hbeq : (k == k') = false := by simpa using hk
      simp only [List.lookup, hbeq] at h
      exact List.mem_cons_of_mem _ (ih h)

/-- C39: normalizeCategory is idempotent: normalizeCategory(normalizeCategory(c))
= normalizeCategory(c) for every string c, so classifying an already
canonical category changes nothing. -/
theorem normalizeCategory_idempotent (c : GoString) :
    normalizeCategory (normalizeCategory c) = normalizeCategory c := by
  have hvalues : ∀ e ∈ categoryMap, normalizeCategory e.2 = e.2 := by decide
  cases h : categoryMap.lookup c with
  | none =>
    have hc : normalizeCategory c = c := by simp [normalizeCategory, h]
    rw [hc, hc]
  | some v =>
    have hc : normalizeCategory c = v := by simp [normalizeCategory, h]
    rw [hc]
    exact hvalues (c, v) (mem_of_lookup_eq_some _ _ _ h)

/-! ### The holding variables of the outputs -/

theorem genGoFuncOutVar_of_scalar (a : ArgDef)
    (hk : a.Typ = ArgTypeImage ∨ a.Typ = ArgTypeDouble ∨ a.Typ = ArgTypeInt ∨
      a.Typ = ArgTypeBool ∨ a.Typ = ArgTypeEnum) :
    ∃ ty, genGoFuncOutVar a = str "\tvar out_" ++ goArgName a.Name ++ str " " ++ ty ++ str "\n" := by
  have h1 : str " *C.VipsImage\n" = str " " ++ str "*C.VipsImage" ++ str "\n" := by decide
  have h2 : str " C.double\n" = str " " ++ str "C.double" ++ str "\n" := by decide
  have h3 : str " C.int\n" = str " " ++ str "C.int" ++ str "\n" := by decide
  unfold genGoFuncOutVar
  rcases hk with h | h | h | h | h <;> rw [h] <;> simp only []
  · exact ⟨str "*C.VipsImage", by rw [h1]; simp only [List.append_assoc]⟩
  · exact ⟨str "C.double", by rw [h2]; simp only [List.append_assoc]⟩
  · exact ⟨str "C.int", by rw [h3]; simp only [List.append_assoc]⟩
  · exact ⟨str "C.int", by rw [h3]; simp only [List.append_assoc]⟩
  · exact ⟨str "C.int", by rw [h3]; simp only [List.append_assoc]⟩

/-- For every output of kind Image, Double, Int, Bool or Enum, the five kinds
that the declaring switch knows, genGoFunc declares a holding variable
out_<name> before the C call, and the C call passes &out_<name>. -/
theorem genGoFunc_declares_scalar_outputs (op : OpDef) (a : ArgDef) (ha : a ∈ op.Outputs)
    (hk : a.Typ = ArgTypeImage ∨ a.Typ = ArgTypeDouble ∨ a.Typ = ArgTypeInt ∨
      a.Typ = ArgTypeBool ∨ a.Typ = ArgTypeEnum) :
    (∃ ty pre mid post, genGoFunc op =
        pre ++ (str "\tvar out_" ++ goArgName a.Name ++ str " " ++ ty ++ str "\n") ++ mid
          ++ genGoFuncCall op ++ post) ∧
      str "&out_" ++ goArgName a.Name ∈ genGoFuncCArgs op := by
  constructor
  · obtain ⟨ty, hty⟩ := genGoFuncOutVar_of_scalar a hk
    obtain ⟨l₁, l₂, hl⟩ := List.append_of_mem ha
    refine ⟨ty, genGoFuncOptsStruct op
      ++ str "// " ++ goFuncName op.Name ++ str " calls the vips " ++ op.Name ++ str " operation.\n"
      ++ str "// " ++ op.Description ++ str "\n"
      ++ str "func " ++ goFuncName op.Name ++ str "("
      ++ stringsJoin (genGoFuncParams op) (str ", ") ++ str ") ("
      ++ genGoFuncRetTypes op
      ++ str ") \x7b\n"
      ++ str "\tincOpCounter(\"" ++ op.Name ++ str "\")\n\n"
      ++ genGoFuncStrTemps op
      ++ (l₁.map genGoFuncOutVar).flatten,
      (l₂.map genGoFuncOutVar).flatten ++ genGoFuncOpts op,
      genGoFuncErr op ++ genGoFuncRet op ++ str "\x7d\n\n", ?_⟩
    rw [← hty]
    unfold genGoFunc genGoFuncEntry genGoFuncCall
    rw [hl]
    simp only [List.map_append, List.map_cons, List.flatten_append, List.flatten_cons,
      List.append_assoc]
  · unfold genGoFuncCArgs
    exact List.mem_append_left _ (List.mem_append_right _
      (List.mem_map_of_mem (fun a => str "&out_" ++ goArgName a.Name) ha))

set_option maxRecDepth 100000 in
/-- C33 (the code does not hold it): the operation is neither excluded nor
foreign, so Generate hands it to genGoFunc. Its outputs are `out` of kind
Double and `out-array` of kind ArrayDouble. The switch that declares the
holding variables has no default branch: genGoFunc declares out_out and no
variable for `out-array`, while the result types, the C call, the error
branch and the success return all count that output in: the call passes
&out_outArray and the function returns out_outArray. -/
theorem genGoFunc_array_output_undeclared :
    GenerateAllOps stableSliceSort [bandMaxOp] = [bandMaxOp] ∧
      bandMaxOp.Outputs =
        [⟨str "out", ArgTypeDouble, 6, 2, 0, 0, 0, str ""⟩,
         ⟨str "out-array", ArgTypeArrayDouble, 6, 3, 0, 0, 0, str ""⟩] ∧
      (bandMaxOp.Outputs.map genGoFuncOutVar).flatten = str "\tvar out_out C.double\n" ∧
      ¬ (str "var out_outArray" <:+: genGoFunc bandMaxOp) ∧
      genGoFuncCall bandMaxOp =
        str "\n\tret := C.gen_vips_bandmax(input, &out_out, &out_outArray)\n" ∧
      genGoFuncCall bandMaxOp <:+: genGoFunc bandMaxOp ∧
      genGoFuncRetTypes bandMaxOp = str "float64, []float64, error" ∧
      genGoFuncErr bandMaxOp =
        str "\tif ret != 0 \x7b\n\t\treturn 0, nil, handleVipsError()\n\t\x7d\n\n" ∧
      genGoFuncRet bandMaxOp = str "\treturn float64(out_out), out_outArray, nil\n" ∧
      cOutputTypeName ⟨str "out-array", ArgTypeArrayDouble, 6, 3, 0, 0, 0, str ""⟩ =
        str "void *" := by
  decide

/-! ### The type of the value field in the options struct -/

set_option maxRecDepth 100000 in
/-- C34 (the code does not hold it): for the optional ArrayImage input
`extra` the value field that genCHeaderOp emits in the options struct is
`int extra`, while cTypeName gives `VipsArrayImage *` for the argument; for
an optional Image or Enum input the field has the type that cTypeName
gives. -/
theorem genCHeaderOp_arrayImage_field_not_cTypeName :
    overlayOp.OptionalInputs = [extraImages] ∧
      cTypeName extraImages = str "VipsArrayImage *" ∧
      genCHeaderOpField extraImages = str "    int has_extra;\n    int extra;\n" ∧
      ¬ (cTypeName extraImages <:+: genCHeaderOp overlayOp) ∧
      genCHeaderOpField ⟨str "mask", ArgTypeImage, 1, 2, 0, 0, 0, str ""⟩ =
        str "    int has_mask;\n    "
          ++ cTypeName ⟨str "mask", ArgTypeImage, 1, 2, 0, 0, 0, str ""⟩ ++ str "mask;\n" ∧
      genCHeaderOpField ⟨str "kernel", ArgTypeEnum, 1, 2, 0, 0, 0, str "VipsKernel"⟩ =
        str "    int has_kernel;\n    "
          ++ cTypeName ⟨str "kernel", ArgTypeEnum, 1, 2, 0, 0, 0, str "VipsKernel"⟩
          ++ str " kernel;\n" := by
  decide

/-! ### sortStrings -/

theorem getD_at_length (a r : List GoString) (y d : GoString) :
    (a ++ y :: r).getD a.length d = y := by
  induction a with
  | nil => rfl
  | cons b a ih => simpa using ih

theorem set_at_length (a r : List GoString) (y z : GoString) :
    (a ++ y :: r).set a.length z = a ++ z :: r := by
  induction a with
  | nil => rfl
  | cons b a ih => simp

theorem sortStringsInner_step (a rest : List GoString) (y x : GoString) :
    sortStringsInner (a ++ y :: x :: rest) (a.length + 1) =
      if y > x then sortStringsInner (a ++ x :: y :: rest) a.length
      else a ++ y :: x :: rest := by
  have h1 : (a ++ y :: x :: rest).getD a.length [] = y := getD_at_length a _ y []
  have h2 : (a ++ y :: x :: rest).getD (a.length + 1) [] = x := by
    have := getD_at_length (a ++ [y]) rest x []
    simpa using this
  have h3 : ((a ++ y :: x :: rest).set a.length x).set (a.length + 1) y =
      a ++ x :: y :: rest := by
    rw [set_at_length]
    simp
  rw [sortStringsInner, h1, h2, h3]

theorem sortStringsInner_inserts (n : Nat) :
    ∀ (a rest : List GoString) (x : GoString), a.length = n →
      a.Pairwise (fun u v => u ≤ v) →
      ∃ a', sortStringsInner (a ++ x :: rest) a.length = a' ++ rest ∧
        a'.Perm (a ++ [x]) ∧ a'.Pairwise (fun u v => u ≤ v) ∧ a'.length = a.length + 1 := by
  induction n with
  | zero =>
    intro a rest x hn _
    have ha : a = [] := List.length_eq_zero.mp hn
    subst ha
    exact ⟨[x], rfl, List.Perm.refl _, List.pairwise_singleton _ _, rfl⟩
  | succ n ih =>
    intro a rest x hn hsorted
    rcases List.eq_nil_or_concat a with ha | ⟨a₀, y, ha⟩
    · subst ha
      simp at hn
    · rw [List.concat_eq_append] at ha
      subst ha
      have hlen : a₀.length = n := by simpa using hn
      have hsplit := List.pairwise_append.mp hsorted
      have hrew : (a₀ ++ [y]) ++ x :: rest = a₀ ++ y :: x :: rest := by simp
      have hlen' : (a₀ ++ [y]).length = a₀.length + 1 := by simp
      rw [hrew, hlen', sortStringsInner_step]
      by_cases hyx : y > x
      · rw [if_pos hyx]
        obtain ⟨a', heq, hperm, hsort, hl⟩ := ih a₀ (y :: rest) x hlen hsplit.1
        refine ⟨a' ++ [y], by rw [heq]; simp, ?_, ?_, by simp [hl]⟩
        · calc (a' ++ [y]).Perm ((a₀ ++ [x]) ++ [y]) := hperm.append_right [y]
            _ = a₀ ++ ([x] ++ [y]) := by simp
            _ |>.Perm (a₀ ++ ([y] ++ [x])) := (List.perm_append_comm).append_left a₀
            _ = (a₀ ++ [y]) ++ [x] := by simp
        · rw [List.pairwise_append]
          refine ⟨hsort, List.pairwise_singleton _ _, ?_⟩
          intro u hu v hv
          rw [List.mem_singleton] at hv
          subst hv
          rcases List.mem_append.mp (hperm.mem_iff.mp hu) with h | h
          · exact hsplit.2.2 u h v (List.mem_singleton_self _)
          · rw [List.mem_singleton] at h
            subst h
            exact le_of_lt hyx
      · rw [if_neg hyx]
        have hle : y ≤ x := not_lt.mp hyx
        refine ⟨a₀ ++ [y] ++ [x], by simp, List.Perm.refl _, ?_, by simp⟩
        rw [List.pairwise_append]
        refine ⟨hsorted, List.pairwise_singleton _ _, ?_⟩
        intro u hu v hv
        rw [List.mem_singleton] at hv
        subst hv
        rcases List.mem_append.mp hu with h | h
        · exact le_trans (hsplit.2.2 u h y (List.mem_singleton_self _)) hle
        · rw [List.mem_singleton] at h
          subst h
          exact hle

theorem sortStrings_outer (rest : List GoString) :
    ∀ (a : List GoString), a.Pairwise (fun u v => u ≤ v) →
      ((List.range' a.length rest.length).foldl sortStringsInner (a ++ rest)).Perm (a ++ rest) ∧
        ((List.range' a.length rest.length).foldl sortStringsInner (a ++ rest)).Pairwise
          (fun u v => u ≤ v) := by
  induction rest with
  | nil =>
    intro a ha
    simpa using ha
  | cons x rest ih =>
    intro a ha
    obtain ⟨a', heq, hperm, hsort, hl⟩ := sortStringsInner_inserts a.length a rest x rfl ha
    rw [List.length_cons, List.range'_succ, List.foldl_cons, heq, ← hl]
    obtain ⟨h1, h2⟩ := ih a' hsort
    refine ⟨h1.trans ?_, h2⟩
    calc (a' ++ rest).Perm ((a ++ [x]) ++ rest) := hperm.append_right rest
      _ = a ++ x :: rest := by simp

theorem sortStrings_spec (s : List GoString) :
    (sortStrings s).Pairwise (fun u v => u ≤ v) ∧ (sortStrings s).Perm s := by
  cases s with
  | nil => exact ⟨List.Pairwise.nil, List.Perm.refl _⟩
  | cons x t =>
    have h := sortStrings_outer t [x] (List.pairwise_singleton _ _)
    have hdef : sortStrings (x :: t) =
        (List.range' [x].length t.length).foldl sortStringsInner ([x] ++ t) := by
      simp [sortStrings]
    rw [hdef]
    exact ⟨h.2, h.1⟩

/-- C40: for every slice of strings, sortStrings terminates (both loops run
a bounded number of rounds, so the function is total) and leaves the slice
in ascending order, and the result is a permutation of the input, of the
same length. -/
theorem sortStrings_sorted_perm (s : List GoString) :
    (sortStrings s).Pairwise (fun u v => u ≤ v) ∧ (sortStrings s).Perm s ∧
      (sortStrings s).length = s.length :=
  ⟨(sortStrings_spec s).1, (sortStrings_spec s).2, (sortStrings_spec s).2.length_eq⟩

/-! ### showCoverage -/

theorem mapIncr_keys (m : List (GoString × Nat)) (k : GoString) :
    (mapIncr m k).map Prod.fst =
      if k ∈ m.map Prod.fst then m.map Prod.fst else m.map Prod.fst ++ [k] := by
  induction m with
  | nil => simp [mapIncr]
  | cons p m ih =>
    obtain ⟨k', v⟩ := p
    unfold mapIncr
    by_cases hk : k' = k
    · subst hk
      simp
    · have hk' : k ≠ k' := fun h => hk h.symm
      rw [if_neg hk]
      simp only [List.map_cons, List.mem_cons, hk', false_or, ih]
      split_ifs <;> simp

theorem mapIncr_nodup (m : List (GoString × Nat)) (k : GoString)
    (h : (m.map Prod.fst).Nodup) : ((mapIncr m k).map Prod.fst).Nodup := by
  rw [mapIncr_keys]
  split_ifs with hk
  · exact h
  · rw [List.nodup_append]
    refine ⟨h, List.nodup_singleton k, ?_⟩
    intro a ha hb
    rw [List.mem_singleton] at hb
    exact hk (hb ▸ ha)

theorem mapIncr_sum (m : List (GoString × Nat)) (k : GoString) :
    ((mapIncr m k).map Prod.snd).sum = (m.map Prod.snd).sum + 1 := by
  induction m with
  | nil => simp [mapIncr]
  | cons p m ih =>
    obtain ⟨k', v⟩ := p
    unfold mapIncr
    by_cases hk : k' = k
    · rw [if_pos hk]
      simp only [List.map_cons, List.sum_cons]
      omega
    · rw [if_neg hk]
      simp only [List.map_cons, List.sum_cons, ih]
      omega

theorem sum_mapInt_keys (m : List (GoString × Nat)) (h : (m.map Prod.fst).Nodup) :
    ((m.map Prod.fst).map (mapInt m)).sum = (m.map Prod.snd).sum := by
  induction m with
  | nil => rfl
  | cons p m ih =>
    obtain ⟨k, v⟩ := p
    simp only [List.map_cons, List.nodup_cons] at h
    have hhead : mapInt ((k, v) :: m) k = v := by simp [mapInt, List.lookup]
    have htail : (m.map Prod.fst).map (mapInt ((k, v) :: m)) = (m.map Prod.fst).map (mapInt m) := by
      apply List.map_congr_left
      intro k' hk'
      have hne : k' ≠ k := fun he => h.1 (he ▸ hk')
      have hb : (k' == k) = false := by simpa using hne
      simp [mapInt, List.lookup, hb]
    simp only [List.map_cons, List.sum_cons, hhead, htail, ih h.2]

theorem coverageCounts_spec (ops : List OpDef) (c : List (GoString × Nat) × List (GoString × Nat))
    (h : (c.1.map Prod.fst).Nodup) :
    (((ops.foldl (fun c op =>
        if mapBool excludeOps op.Name then
          (c.1, mapIncr c.2 (normalizeCategoryForOp op.Name op.Category))
        else (mapIncr c.1 (normalizeCategoryForOp op.Name op.Category), c.2)) c).1.map
          Prod.fst).Nodup) ∧
      ((ops.foldl (fun c op =>
        if mapBool excludeOps op.Name then
          (c.1, mapIncr c.2 (normalizeCategoryForOp op.Name op.Category))
        else (mapIncr c.1 (normalizeCategoryForOp op.Name op.Category), c.2)) c).1.map
          Prod.snd).sum =
        (c.1.map Prod.snd).sum + (ops.filter (fun op => !mapBool excludeOps op.Name)).length := by
  induction ops generalizing c with
  | nil => exact ⟨h, by simp⟩
  | cons op ops ih =>
    rw [List.foldl_cons]
    by_cases hex : mapBool excludeOps op.Name = true
    · rw [if_pos hex]
      obtain ⟨h1, h2⟩ := ih (c.1, mapIncr c.2 (normalizeCategoryForOp op.Name op.Category)) h
      refine ⟨h1, ?_⟩
      rw [h2]
      simp [hex]
    · rw [if_neg hex]
      obtain ⟨h1, h2⟩ := ih (mapIncr c.1 (normalizeCategoryForOp op.Name op.Category), c.2)
        (mapIncr_nodup _ _ h)
      refine ⟨h1, ?_⟩
      rw [h2, mapIncr_sum]
      simp [hex]
      omega

theorem coverageRows_totalGen (catCounts catExcluded : List (GoString × Nat))
    (catNames : List GoString) (acc : List CoverageRow × Nat × Nat) :
    (catNames.foldl (fun acc cat =>
        (acc.1 ++ [⟨cat, mapInt catCounts cat, mapInt catExcluded cat,
            mapInt catCounts cat + mapInt catExcluded cat⟩],
          acc.2.1 + mapInt catCounts cat, acc.2.2 + mapInt catExcluded cat)) acc).2.1 =
      acc.2.1 + (catNames.map (mapInt catCounts)).sum := by
  induction catNames generalizing acc with
  | nil => simp
  | cons cat catNames ih =>
    rw [List.foldl_cons, ih]
    simp only [List.map_cons, List.sum_cons]
    omega

theorem showCoverage_totalGen (M : MapOrder) (ops : List OpDef) :
    (showCoverage M ops).totalGen =
      (ops.filter (fun op => !mapBool excludeOps op.Name)).length := by
  have hspec := coverageCounts_spec ops ([], []) List.nodup_nil
  have hnd : ((coverageCounts ops).1.map Prod.fst).Nodup := hspec.1
  have hsum : ((coverageCounts ops).1.map Prod.snd).sum =
      0 + (ops.filter (fun op => !mapBool excludeOps op.Name)).length := hspec.2
  have hnames : (coverageNames M ops).Perm
      ((coverageCounts ops).1.map Prod.fst ++
        ((M.range ((coverageCounts ops).2.map Prod.fst)).filter
          (fun name => mapInt (coverageCounts ops).1 name = 0))) :=
    (sortStrings_spec _).2.trans ((M.perm _).append_right _)
  have hzero : (((M.range ((coverageCounts ops).2.map Prod.fst)).filter
      (fun name => mapInt (coverageCounts ops).1 name = 0)).map
        (mapInt (coverageCounts ops).1)).sum = 0 := by
    apply List.sum_eq_zero
    intro x hx
    rw [List.mem_map] at hx
    obtain ⟨name, hname, rfl⟩ := hx
    simpa using (List.mem_filter.mp hname).2
  have htotal : (showCoverage M ops).totalGen =
      0 + ((coverageNames M ops).map (mapInt (coverageCounts ops).1)).sum :=
    coverageRows_totalGen _ _ _ _
  rw [htotal, (hnames.map _).sum_eq, List.map_append, List.sum_append, hzero,
    sum_mapInt_keys _ hnd]
  rw [hsum]
  omega

theorem length_filter_split {α : Type} (p q : α → Bool) (l : List α) :
    (l.filter p).length =
      (l.filter (fun x => p x && !q x)).length + (l.filter (fun x => p x && q x)).length := by
  induction l with
  | nil => rfl
  | cons x l ih =>
    cases hp : p x <;> cases hq : q x <;> simp [List.filter_cons, hp, hq, ih] <;> omega

/-- C36 (as amended): for every operation list, the total of the Generate
column of the coverage report computed by showCoverage is the number of
operations that are not in the exclusion table; Generate emits those of them
whose category is not foreign, so the total is the number of operations that
Generate emits plus the number of foreign operations that are not excluded. -/
theorem showCoverage_totalGen_generatable (S : SliceSort) (M : MapOrder) (ops : List OpDef) :
    (showCoverage M ops).totalGen =
        (ops.filter (fun op => !mapBool excludeOps op.Name)).length ∧
      (showCoverage M ops).totalGen =
        (GenerateAllOps S ops).length +
          (ops.filter (fun op => !mapBool excludeOps op.Name &&
            decide (normalizeCategoryForOp op.Name op.Category = str "foreign"))).length := by
  refine ⟨showCoverage_totalGen M ops, ?_⟩
  rw [showCoverage_totalGen]
  have hgen : (GenerateAllOps S ops).length =
      (ops.filter (fun op => !mapBool excludeOps op.Name &&
        !decide (normalizeCategoryForOp op.Name op.Category = str "foreign"))).length := by
    unfold GenerateAllOps
    rw [(S.perm _ _).length_eq]
    congr 1
    apply List.filter_congr
    intro op _
    by_cases hex : mapBool excludeOps op.Name = true
    · simp [hex]
    · by_cases hcat : normalizeCategoryForOp op.Name op.Category = str "foreign"
      · simp [hex, hcat]
      · simp [hex, hcat]
  rw [hgen]
  exact length_filter_split _ _ ops

set_option maxRecDepth 100000 in
/-- C36 as stated fails: dzsave is classified foreign and is not excluded;
the coverage report counts it in the Generate column, and Generate emits no
operation for the same list. -/
theorem showCoverage_counts_foreign :
    mapBool excludeOps dzsaveOp.Name = false ∧
      normalizeCategoryForOp dzsaveOp.Name dzsaveOp.Category = str "foreign" ∧
      (showCoverage insertionMapOrder [dzsaveOp]).rows = [⟨str "foreign", 1, 0, 1⟩] ∧
      (showCoverage insertionMapOrder [dzsaveOp]).totalGen = 1 ∧
      (GenerateAllOps stableSliceSort [dzsaveOp]).length = 0 := by
  decide

/-! ### vipsRemoveMetadata -/

theorem contains_iff (a : List GoString) (x : GoString) : contains a x = true ↔ x ∈ a := by
  induction a with
  | nil => simp [contains]
  | cons n a ih =>
    unfold contains
    by_cases h : x = n
    · simp [h]
    · simp [h, ih]

theorem removeLoop_fields (B : ImageBridge) (retain names : List GoString) (img : B.Image) :
    B.image_get_fields (names.foldl (fun img field =>
        if contains retain field then img else B.remove_field img field) img) =
      (B.image_get_fields img).filter
        (fun f => contains retain f || !decide (f ∈ names)) := by
  induction names generalizing img with
  | nil => simp
  | cons n names ih =>
    rw [List.foldl_cons, ih]
    by_cases hn : contains retain n = true
    · rw [if_pos hn]
      apply List.filter_congr
      intro f _
      by_cases hf : f = n
      · subst hf
        simp [hn]
      · simp [hf]
    · rw [if_neg hn, B.fields_remove, List.filter_filter]
      apply List.filter_congr
      intro f _
      by_cases hf : f = n
      · subst hf
        simp [hn]
      · simp [hf]

theorem vipsRemoveMetadata_fields (B : ImageBridge) (img : B.Image) (keep : List GoString) :
    B.image_get_fields (vipsRemoveMetadata B img keep) =
      (B.image_get_fields img).filter (fun f =>
        contains (keep ++ technicalMetadata B) f ||
          !decide (f ∈ (B.image_get_fields img).take 256)) :=
  removeLoop_fields B _ _ img

/-- C32 (as amended): for every image with at most 256 fields and every keep
list, vipsRemoveMetadata removes exactly the fields of the image that are
neither named in keep nor in the technical metadata list (ICC profile,
orientation, n-pages, page-height, delay, loop); every field named in keep
or in the technical list is left in place, whatever the number of fields. -/
theorem vipsRemoveMetadata_spec (B : ImageBridge) (img : B.Image) (keep : List GoString) :
    ((B.image_get_fields img).length ≤ 256 →
        B.image_get_fields (vipsRemoveMetadata B img keep) =
          (B.image_get_fields img).filter
            (fun f => decide (f ∈ keep ∨ f ∈ technicalMetadata B))) ∧
      (∀ f ∈ B.image_get_fields img, f ∈ keep ∨ f ∈ technicalMetadata B →
        f ∈ B.image_get_fields (vipsRemoveMetadata B img keep)) ∧
      (∀ f ∈ B.image_get_fields (vipsRemoveMetadata B img keep), f ∈ B.image_get_fields img) := by
  refine ⟨fun hlen => ?_, fun f hf hkeep => ?_, fun f hf => ?_⟩
  · rw [vipsRemoveMetadata_fields, List.take_of_length_le hlen]
    apply List.filter_congr
    intro f hf
    have hc : contains (keep ++ technicalMetadata B) f =
        decide (f ∈ keep ∨ f ∈ technicalMetadata B) := by
      rw [Bool.eq_iff_iff, contains_iff, List.mem_append, decide_eq_true_iff]
    simp [hc, hf]
  · rw [vipsRemoveMetadata_fields, List.mem_filter]
    refine ⟨hf, ?_⟩
    have hc : contains (keep ++ technicalMetadata B) f = true := by
      rw [contains_iff, List.mem_append]
      exact hkeep
    simp [hc]
  · rw [vipsRemoveMetadata_fields, List.mem_filter] at hf
    exact hf.1

/-- Witness of C32 (as amended): the copyright notice is kept, the camera
model is removed, and the orientation and the ICC profile stay. -/
theorem vipsRemoveMetadata_spec_witness :
    listBridge.image_get_fields (vipsRemoveMetadata listBridge
        [str "exif-ifd0-Copyright", str "exif-ifd0-Model", str "orientation",
          str "icc-profile-data"] [str "exif-ifd0-Copyright"]) =
      (listBridge.image_get_fields
        [str "exif-ifd0-Copyright", str "exif-ifd0-Model", str "orientation",
          str "icc-profile-data"]).filter
        (fun f => decide (f ∈ [str "exif-ifd0-Copyright"] ∨ f ∈ technicalMetadata listBridge)) :=
  (vipsRemoveMetadata_spec listBridge
    [str "exif-ifd0-Copyright", str "exif-ifd0-Model", str "orientation",
      str "icc-profile-data"] [str "exif-ifd0-Copyright"]).1 (by decide)

set_option maxRecDepth 100000 in
/-- C32 as stated fails: the image has 257 fields, the last of them is the
GPS latitude, which is neither in the (empty) keep list nor in the technical
list; vipsRemoveMetadata reads the first 256 names only and leaves the field
in place. -/
theorem vipsRemoveMetadata_leaves_field_257 :
    manyFields.length = 257 ∧
      str "exif-ifd3-GPSLatitude" ∉ technicalMetadata listBridge ∧
      str "exif-ifd3-GPSLatitude" ∈
        listBridge.image_get_fields (vipsRemoveMetadata listBridge manyFields []) := by
  refine ⟨by decide, by decide, ?_⟩
  rw [vipsRemoveMetadata_fields, List.mem_filter]
  refine ⟨List.mem_append_right _ (List.mem_singleton_self _), ?_⟩
  have htake : (listBridge.image_get_fields manyFields).take 256 =
      (List.range 256).map fieldName :=
    List.take_left' (by simp)
  have hnot : str "exif-ifd3-GPSLatitude" ∉ (List.range 256).map fieldName := by
    intro h
    rw [List.mem_map] at h
    obtain ⟨n, _, hn⟩ := h
    have hhead := congrArg List.head? hn
    have h1 : (fieldName n).head? = some 120 := rfl
    have h2 : (str "exif-ifd3-GPSLatitude").head? = some 101 := by decide
    rw [h1, h2] at hhead
    exact absurd hhead (by decide)
  rw [htake]
  simp [hnot]

/-! ### cleanOldGenFiles: which files are removed -/

theorem afterStar_suffix (name r : GoString) (h : r ∈ afterStar name) :
    ∃ pre, name = pre ++ r := by
  induction name with
  | nil =>
    simp only [afterStar, List.mem_singleton] at h
    exact ⟨[], by rw [h]; rfl⟩
  | cons b rest ih =>
    unfold afterStar at h
    rcases List.mem_cons.mp h with h | h
    · exact ⟨[], by rw [h]; rfl⟩
    · by_cases hb : b = 47
      · rw [if_pos hb] at h
        simp at h
      · rw [if_neg hb] at h
        obtain ⟨pre, hpre⟩ := ih h
        exact ⟨b :: pre, by rw [hpre]; rfl⟩

theorem filepathMatch_cons_literal (c : Byte) (pattern name : GoString) (hc : c ≠ 42)
    (h : filepathMatch (c :: pattern) name = true) :
    ∃ rest, name = c :: rest ∧ filepathMatch pattern rest = true := by
  unfold filepathMatch at h
  rw [if_neg hc] at h
  cases name with
  | nil => simp at h
  | cons d rest =>
    simp only [Bool.and_eq_true, decide_eq_true_eq] at h
    exact ⟨rest, by rw [h.1], h.2⟩

theorem filepathMatch_literal (lit name : GoString) (hlit : (42 : Byte) ∉ lit)
    (h : filepathMatch lit name = true) : name = lit := by
  induction lit generalizing name with
  | nil =>
    unfold filepathMatch at h
    simpa using h
  | cons c lit ih =>
    have hc : c ≠ 42 := fun he => hlit (he ▸ List.mem_cons_self _ _)
    obtain ⟨rest, hname, hrest⟩ := filepathMatch_cons_literal c lit name hc h
    rw [hname, ih rest (fun hmem => hlit (List.mem_cons_of_mem _ hmem)) hrest]

theorem filepathMatch_gen (lit base : GoString) (hlit : (42 : Byte) ∉ lit)
    (h : filepathMatch (str "gen_" ++ (42 :: lit)) base = true) :
    ∃ mid, base = str "gen_" ++ mid ++ lit := by
  have hpat : str "gen_" ++ (42 :: lit) = 103 :: 101 :: 110 :: 95 :: 42 :: lit := rfl
  rw [hpat] at h
  obtain ⟨r₁, h₁, h⟩ := filepathMatch_cons_literal _ _ _ (by decide) h
  obtain ⟨r₂, h₂, h⟩ := filepathMatch_cons_literal _ _ _ (by decide) h
  obtain ⟨r₃, h₃, h⟩ := filepathMatch_cons_literal _ _ _ (by decide) h
  obtain ⟨r₄, h₄, h⟩ := filepathMatch_cons_literal _ _ _ (by decide) h
  unfold filepathMatch at h
  rw [if_pos rfl, List.any_eq_true] at h
  obtain ⟨r, hr, hmatch⟩ := h
  obtain ⟨mid, hmid⟩ := afterStar_suffix r₄ r hr
  have hrl := filepathMatch_literal lit r hlit hmatch
  refine ⟨mid, ?_⟩
  rw [h₁, h₂, h₃, h₄, hmid, hrl]
  rfl

theorem cleanStep_frame (outputDir ext : GoString) (fs : FileSys) :
    ((filepathGlob fs outputDir (str "gen_" ++ ext)).foldl removeUnlessPreserved fs).files.Sublist
        fs.files ∧
      ∀ e ∈ fs.files,
        e ∉ ((filepathGlob fs outputDir (str "gen_" ++ ext)).foldl removeUnlessPreserved fs).files →
        globDir outputDir e.1.dir = true ∧ filepathMatch (str "gen_" ++ ext) e.1.base = true ∧
          mapBool preserve e.1.base = false := by
  rw [removeAll_files]
  refine ⟨List.filter_sublist _, ?_⟩
  intro e he hne
  rw [List.mem_filter] at hne
  have hnot : ¬ ((filepathGlob fs outputDir (str "gen_" ++ ext)).all
      (fun m => staysAfter fs.removeErr m e) = true) := fun h => hne ⟨he, h⟩
  rw [List.all_eq_true] at hnot
  push_neg at hnot
  obtain ⟨m, hm, hstay⟩ := hnot
  have hstay' : e.1 = m ∧ mapBool preserve m.base = false := by
    simp only [staysAfter, Bool.not_eq_true', Bool.not_eq_false', Bool.and_eq_true,
      decide_eq_true_eq, Bool.not_eq_true', Bool.not_eq_true] at hstay
    exact ⟨hstay.1.1, hstay.1.2⟩
  unfold filepathGlob at hm
  rw [List.mem_filter] at hm
  have hcond := hm.2
  simp only [Bool.and_eq_true] at hcond
  rw [hstay'.1]
  exact ⟨hcond.1, hcond.2, hstay'.2⟩

theorem cleanLoop_frame (outputDir : GoString) (exts : List GoString) (fs : FileSys) :
    (exts.foldl (fun fs ext =>
        (filepathGlob fs outputDir (str "gen_" ++ ext)).foldl removeUnlessPreserved fs)
          fs).files.Sublist fs.files ∧
      ∀ e ∈ fs.files,
        e ∉ (exts.foldl (fun fs ext =>
          (filepathGlob fs outputDir (str "gen_" ++ ext)).foldl removeUnlessPreserved fs)
            fs).files →
        globDir outputDir e.1.dir = true ∧
          (∃ ext ∈ exts, filepathMatch (str "gen_" ++ ext) e.1.base = true) ∧
          mapBool preserve e.1.base = false := by
  induction exts generalizing fs with
  | nil => exact ⟨List.Sublist.refl _, fun e he hne => absurd he hne⟩
  | cons ext exts ih =>
    rw [List.foldl_cons]
    obtain ⟨hsub₁, hrem₁⟩ := cleanStep_frame outputDir ext fs
    obtain ⟨hsub₂, hrem₂⟩ := ih
      ((filepathGlob fs outputDir (str "gen_" ++ ext)).foldl removeUnlessPreserved fs)
    refine ⟨hsub₂.trans hsub₁, ?_⟩
    intro e he hne
    by_cases h₁ : e ∈
        ((filepathGlob fs outputDir (str "gen_" ++ ext)).foldl removeUnlessPreserved fs).files
    · obtain ⟨hd, ⟨x, hx, hmx⟩, hp⟩ := hrem₂ e h₁ hne
      exact ⟨hd, ⟨x, List.mem_cons_of_mem _ hx, hmx⟩, hp⟩
    · obtain ⟨hd, hm, hp⟩ := hrem₁ e he h₁
      exact ⟨hd, ⟨ext, List.mem_cons_self _ _, hm⟩, hp⟩

/-- What cleanOldGenFiles removes: the files after the call are files of
before, and a file that is gone lies in a directory that the glob looks in,
has a base name that starts with gen_ and ends in .c, .h or .go, and is
neither gen_enum_extras.go nor one of the three artifacts; when the name of
the output directory holds no magic character of the glob, the file lies in
the output directory. -/
theorem cleanOldGenFiles_frame (fs : FileSys) (outputDir : GoString) :
    (cleanOldGenFiles fs outputDir).files.Sublist fs.files ∧
      ∀ e ∈ fs.files, e ∉ (cleanOldGenFiles fs outputDir).files →
        globDir outputDir e.1.dir = true ∧
          (hasMeta outputDir = false → e.1.dir = outputDir) ∧
          (∃ mid, ∃ suffix ∈ [str ".c", str ".h", str ".go"],
            e.1.base = str "gen_" ++ mid ++ suffix) ∧
          e.1.base ≠ str "gen_enum_extras.go" ∧
          e.1.base ≠ str "generated.c" ∧ e.1.base ≠ str "generated.h" ∧
          e.1.base ≠ str "generated.go" := by
  rw [cleanOldGenFiles_eq]
  obtain ⟨hsub, hrem⟩ := cleanLoop_frame outputDir [str "*.c", str "*.h", str "*.go"] fs
  refine ⟨hsub, ?_⟩
  intro e he hne
  obtain ⟨hd, ⟨ext, hext, hmatch⟩, hp⟩ := hrem e he hne
  have hnot := artifacts_not_legacy outputDir
  refine ⟨hd, ?_, ?_, ?_, ?_, ?_, ?_⟩
  · intro hmeta
    unfold globDir at hd
    rw [hmeta] at hd
    simpa using hd
  · simp only [List.mem_cons, List.mem_singleton, List.not_mem_nil, or_false] at hext
    rcases hext with rfl | rfl | rfl
    · obtain ⟨mid, hmid⟩ := filepathMatch_gen (str ".c") e.1.base (by decide) hmatch
      exact ⟨mid, str ".c", by simp, hmid⟩
    · obtain ⟨mid, hmid⟩ := filepathMatch_gen (str ".h") e.1.base (by decide) hmatch
      exact ⟨mid, str ".h", by simp, hmid⟩
    · obtain ⟨mid, hmid⟩ := filepathMatch_gen (str ".go") e.1.base (by decide) hmatch
      exact ⟨mid, str ".go", by simp, hmid⟩
  · intro hb
    rw [hb] at hp
    exact absurd hp (by decide)
  · intro hb
    rw [hb] at hmatch
    have := hnot.1 ext hext
    rw [show (cPath outputDir).base = str "generated.c" from rfl, hmatch] at this
    exact absurd this (by simp)
  · intro hb
    rw [hb] at hmatch
    have := hnot.2.1 ext hext
    rw [show (hPath outputDir).base = str "generated.h" from rfl, hmatch] at this
    exact absurd this (by simp)
  · intro hb
    rw [hb] at hmatch
    have := hnot.2.2 ext hext
    rw [show (goPath outputDir).base = str "generated.go" from rfl, hmatch] at this
    exact absurd this (by simp)

set_option maxRecDepth 100000 in
/-- C38 (the code does not hold it): with the output directory `v*`,
cleanOldGenFiles removes gen_arithmetic.go of the directory `vips`, which is
not the output directory: the joined path is handed to the glob as a pattern,
while the artifacts are written to the path taken literally. The preserved
file and the files that match no pattern stay. -/
theorem cleanOldGenFiles_removes_in_other_directory :
    (cleanOldGenFiles
        (plainFs [(⟨str "vips", str "gen_arithmetic.go"⟩, str "package vips\n"),
          (⟨str "vips", str "gen_enum_extras.go"⟩, str "package vips\n"),
          (⟨str "vips", str "image.go"⟩, str "package vips\n")]) (str "v*")).files =
        [(⟨str "vips", str "gen_enum_extras.go"⟩, str "package vips\n"),
          (⟨str "vips", str "image.go"⟩, str "package vips\n")] ∧
      (cleanOldGenFiles
        (plainFs [(⟨str "vips", str "gen_arithmetic.go"⟩, str "package vips\n"),
          (⟨str "vips", str "gen_enum_extras.go"⟩, str "package vips\n"),
          (⟨str "vips", str "image.go"⟩, str "package vips\n")]) (str "v*")).events =
        [FsEvent.removed ⟨str "vips", str "gen_arithmetic.go"⟩] ∧
      (cPath (str "v*")).dir = str "v*" ∧ str "vips" ≠ str "v*" := by
  decide

/-! ### The pinner: scanning for a Pin call -/

theorem pinScan_append (c : Byte) (q : PinState) (s t : GoString) :
    pinScan c q (s ++ t) = pinScan c (pinScan c q s) t := by
  simp [pinScan, List.foldl_append]

theorem pinScan_found (c : Byte) (s : GoString) : pinScan c .found s = .found := by
  induction s with
  | nil => rfl
  | cons b s ih => simpa [pinScan, pinStep] using ih

theorem pinScan_pattern (c : Byte) (hc : c = 80 ∨ c = 85) (q : PinState) :
    pinScan c q [114, 46, c] = .found := by
  rcases hc with rfl | rfl <;> cases q <;> decide

theorem pinScan_of_occursIn (c : Byte) (hc : c = 80 ∨ c = 85) (q : PinState) (t : GoString)
    (h : occursIn [114, 46, c] t) : pinScan c q t = .found := by
  obtain ⟨pre, post, rfl⟩ := h
  rw [pinScan_append, pinScan_append, pinScan_pattern c hc, pinScan_found]

theorem pinSafe_iff (c : Byte) (s : GoString) :
    pinSafe c s = true ↔
      (pinScan c .start s = .start ∨ pinScan c .start s = .r) ∧
        (pinScan c .r s = .start ∨ pinScan c .r s = .r) := by
  simp [pinSafe]

theorem pinSafe_append (c : Byte) (s t : GoString) (hs : pinSafe c s = true)
    (ht : pinSafe c t = true) : pinSafe c (s ++ t) = true := by
  rw [pinSafe_iff] at *
  rw [pinScan_append, pinScan_append]
  obtain ⟨h1, h2⟩ := hs
  constructor
  · rcases h1 with h | h <;> rw [h]
    · exact ht.1
    · exact ht.2
  · rcases h2 with h | h <;> rw [h]
    · exact ht.1
    · exact ht.2

theorem pinSafe_nil (c : Byte) : pinSafe c [] = true := by
  rw [pinSafe_iff]
  exact ⟨Or.inl rfl, Or.inr rfl⟩

theorem pinSafe_of_no_dot (c : Byte) (s : GoString) (hs : (46 : Byte) ∉ s) :
    pinSafe c s = true := by
  have h : ∀ q, (q = PinState.start ∨ q = PinState.r) →
      (pinScan c q s = PinState.start ∨ pinScan c q s = PinState.r) := by
    induction s with
    | nil => intro q hq; simpa [pinScan] using hq
    | cons b s ih =>
      intro q hq
      have hb : b ≠ 46 := fun h => hs (h ▸ List.mem_cons_self _ _)
      have hs' : (46 : Byte) ∉ s := fun h => hs (List.mem_cons_of_mem _ h)
      have hstep : pinStep c q b = PinState.start ∨ pinStep c q b = PinState.r := by
        rcases hq with rfl | rfl
        · simp only [pinStep]; split_ifs <;> simp
        · simp only [pinStep, hb, if_false]; split_ifs <;> simp
      have := ih hs' (pinStep c q b) hstep
      simpa [pinScan] using this
  rw [pinSafe_iff]
  exact ⟨h _ (Or.inl rfl), h _ (Or.inr rfl)⟩

theorem pinSafe_flatten (c : Byte) (l : List GoString) (h : ∀ x ∈ l, pinSafe c x = true) :
    pinSafe c l.flatten = true := by
  induction l with
  | nil => exact pinSafe_nil c
  | cons x l ih =>
    rw [List.flatten_cons]
    exact pinSafe_append c _ _ (h x (List.mem_cons_self _ _))
      (ih (fun y hy => h y (List.mem_cons_of_mem _ hy)))

theorem pinSafe_stringsJoin (c : Byte) (l : List GoString) (sep : GoString)
    (hsep : pinSafe c sep = true) (h : ∀ x ∈ l, pinSafe c x = true) :
    pinSafe c (stringsJoin l sep) = true := by
  induction l with
  | nil => exact pinSafe_nil c
  | cons x l ih =>
    cases l with
    | nil => exact h x (List.mem_cons_self _ _)
    | cons y l =>
      rw [stringsJoin]
      exact pinSafe_append c _ _ (pinSafe_append c _ _ (h x (List.mem_cons_self _ _)) hsep)
        (ih (fun z hz => h z (List.mem_cons_of_mem _ hz)))

theorem not_found_of_pinSafe (c : Byte) (hc : c = 80 ∨ c = 85) (t : GoString)
    (ht : pinSafe c t = true) : ¬ occursIn [114, 46, c] t := by
  intro h
  rw [pinSafe_iff] at ht
  have := pinScan_of_occursIn c hc .start t h
  rw [this] at ht
  rcases ht.1 with h | h <;> exact absurd h (by decide)

theorem not_occursIn_pin_of_pinSafe (t : GoString) (ht : pinSafe 80 t = true) :
    ¬ occursIn (str "pinner.Pin(") t := by
  intro h
  apply not_found_of_pinSafe 80 (Or.inl rfl) t ht
  obtain ⟨pre, post, rfl⟩ := h
  refine ⟨pre ++ str "pinne", str "in(" ++ post, ?_⟩
  have : str "pinner.Pin(" = str "pinne" ++ [114, 46, 80] ++ str "in(" := by decide
  rw [this]
  simp only [List.append_assoc]

theorem not_occursIn_decl_of_pinSafe (t : GoString) (ht : pinSafe 85 t = true) :
    ¬ occursIn pinnerDecl t := by
  intro h
  apply not_found_of_pinSafe 85 (Or.inr rfl) t ht
  obtain ⟨pre, post, rfl⟩ := h
  refine ⟨pre ++ str "\tvar pinner runtime.Pinner\n\tdefer pinne", str "npin()\n" ++ post, ?_⟩
  have : pinnerDecl = str "\tvar pinner runtime.Pinner\n\tdefer pinne" ++ [114, 46, 85]
      ++ str "npin()\n" := by decide
  rw [this]
  simp only [List.append_assoc]

/-! ### No dot in the identifiers made of a name without a dot -/

set_option maxRecDepth 100000 in
theorem no_dot_stringsToUpperByte (b : Byte) (hb : b ≠ 46) :
    (46 : Byte) ∉ stringsToUpperByte b := by
  revert hb
  revert b
  decide

theorem no_dot_upperFirst (p : GoString) (hp : (46 : Byte) ∉ p) : (46 : Byte) ∉ upperFirst p := by
  cases p with
  | nil => simp [upperFirst]
  | cons b rest =>
    unfold upperFirst
    rw [List.mem_append]
    rintro (h | h)
    · exact no_dot_stringsToUpperByte b (fun he => hp (he ▸ List.mem_cons_self _ _)) h
    · exact hp (List.mem_cons_of_mem _ h)

theorem no_dot_stringsSplit (s : GoString) (sep : Byte) (hs : (46 : Byte) ∉ s) :
    ∀ p ∈ stringsSplit s sep, (46 : Byte) ∉ p := by
  induction s with
  | nil =>
    intro p hp
    simp only [stringsSplit, List.mem_singleton] at hp
    rw [hp]
    simp
  | cons b rest ih =>
    have hb : b ≠ 46 := fun h => hs (h ▸ List.mem_cons_self _ _)
    have hrest := ih (fun h => hs (List.mem_cons_of_mem _ h))
    intro p hp
    unfold stringsSplit at hp
    by_cases hsep : b = sep
    · rw [if_pos hsep] at hp
      rcases List.mem_cons.mp hp with h | h
      · rw [h]; simp
      · exact hrest p h
    · rw [if_neg hsep] at hp
      cases hsplit : stringsSplit rest sep with
      | nil =>
        rw [hsplit] at hp
        simp only [List.mem_singleton] at hp
        rw [hp]
        simpa using fun h => hb h.symm
      | cons q qs =>
        rw [hsplit] at hp hrest
        simp only at hp
        rcases List.mem_cons.mp hp with h | h
        · rw [h]
          intro hmem
          rcases List.mem_cons.mp hmem with h' | h'
          · exact hb h'.symm
          · exact hrest q (List.mem_cons_self _ _) h'
        · exact hrest p (List.mem_cons_of_mem _ h)

theorem no_dot_nameParts (name : GoString) (hn : (46 : Byte) ∉ name) :
    ∀ p ∈ nameParts name, (46 : Byte) ∉ p := by
  apply no_dot_stringsSplit
  unfold stringsReplaceAll
  rw [List.mem_map]
  rintro ⟨b, hb, hbe⟩
  by_cases h45 : b = 45
  · rw [if_pos h45] at hbe
    exact absurd hbe (by decide)
  · rw [if_neg h45] at hbe
    exact hn (hbe ▸ hb)

theorem no_dot_camel (parts : List GoString) (h : ∀ p ∈ parts, (46 : Byte) ∉ p) :
    (46 : Byte) ∉ (parts.map (fun p => if p = [] then [] else upperFirst p)).flatten := by
  rw [List.mem_flatten]
  rintro ⟨l, hl, hmem⟩
  rw [List.mem_map] at hl
  obtain ⟨p, hp, rfl⟩ := hl
  by_cases hnil : p = []
  · rw [if_pos hnil] at hmem
    simp at hmem
  · rw [if_neg hnil] at hmem
    exact no_dot_upperFirst p (h p hp) hmem

theorem no_dot_goName (name : GoString) (hn : (46 : Byte) ∉ name) : (46 : Byte) ∉ goName name :=
  no_dot_camel _ (no_dot_nameParts name hn)

theorem no_dot_goArgNameLoop (parts : List GoString) (h : ∀ p ∈ parts, (46 : Byte) ∉ p) (i : Nat) :
    (46 : Byte) ∉ goArgNameLoop i parts := by
  induction parts generalizing i with
  | nil => simp [goArgNameLoop]
  | cons p rest ih =>
    unfold goArgNameLoop
    rw [List.mem_append]
    rintro (hmem | hmem)
    · by_cases hnil : p = []
      · rw [if_pos hnil] at hmem
        simp at hmem
      · rw [if_neg hnil] at hmem
        by_cases hi : i = 0
        · rw [if_pos hi] at hmem
          exact h p (List.mem_cons_self _ _) hmem
        · rw [if_neg hi] at hmem
          exact no_dot_upperFirst p (h p (List.mem_cons_self _ _)) hmem
    · exact ih (fun q hq => h q (List.mem_cons_of_mem _ hq)) (i + 1) hmem

theorem no_dot_goArgName (name : GoString) (hn : (46 : Byte) ∉ name) :
    (46 : Byte) ∉ goArgName name := by
  have h := no_dot_goArgNameLoop _ (no_dot_nameParts name hn) 0
  unfold goArgName
  simp only []
  split_ifs
  · decide
  · decide
  · decide
  · decide
  · decide
  · exact h

theorem no_dot_goExportedArgName (name : GoString) (hn : (46 : Byte) ∉ name) :
    (46 : Byte) ∉ goExportedArgName name := by
  have h := no_dot_camel _ (no_dot_nameParts name hn)
  unfold goExportedArgName
  simp only []
  split_ifs
  · decide
  · decide
  · decide
  · decide
  · decide
  · exact h

theorem no_dot_goEnumName (c : GoString) : (46 : Byte) ∉ goEnumName c := by
  have hvalues : ∀ e ∈ enumGoName, (46 : Byte) ∉ e.2 := by decide
  unfold goEnumName
  cases h : enumGoName.lookup c with
  | none => decide
  | some v => exact hvalues (c, v) (mem_of_lookup_eq_some _ _ _ h)

/-! ### The pinner: the parts of the bridge function -/

theorem pinSafe_lit (c : Byte) (hc : c = 80 ∨ c = 85) (s : GoString)
    (h₁ : pinSafe 80 s = true) (h₂ : pinSafe 85 s = true) : pinSafe c s = true := by
  rcases hc with rfl | rfl
  · exact h₁
  · exact h₂

theorem genGoFuncEntry_eq_parts (op : OpDef) :
    genGoFuncEntry op =
      genGoFuncHead op ++ genGoFuncOpts op ++ genGoFuncCall op ++ genGoFuncErr op
        ++ genGoFuncRet op ++ str "\x7d\n\n" := by
  unfold genGoFuncEntry genGoFuncHead genGoFuncCall
  simp only [List.append_assoc]

theorem pinSafe_goTypeName (c : Byte) (hc : c = 80 ∨ c = 85) (a : ArgDef) : pinSafe c (goTypeName a) = true := by
  have hG := pinSafe_of_no_dot c _ (no_dot_goEnumName a.EnumType)
  unfold goTypeName
  cases a.Typ <;> simp only [] <;> first | (exact pinSafe_lit c hc _ (by decide) (by decide)) | skip
  split_ifs
  · exact hG
  · exact pinSafe_lit c hc _ (by decide) (by decide)

theorem pinSafe_goOptTypeName (c : Byte) (hc : c = 80 ∨ c = 85) (a : ArgDef) : pinSafe c (goOptTypeName a) = true := by
  have hG := pinSafe_of_no_dot c _ (no_dot_goEnumName a.EnumType)
  unfold goOptTypeName
  cases a.Typ <;> simp only [] <;> first | (exact pinSafe_lit c hc _ (by decide) (by decide)) | skip
  split_ifs
  · exact pinSafe_append c _ _ (pinSafe_lit c hc _ (by decide) (by decide)) hG
  · exact pinSafe_lit c hc _ (by decide) (by decide)

theorem dotFree_views (op : OpDef) (h : dotFree op) :
    (∀ a ∈ op.RequiredInputs, (46 : Byte) ∉ a.Name ∧ (46 : Byte) ∉ a.EnumType) ∧
      (∀ a ∈ op.OptionalInputs, (46 : Byte) ∉ a.Name ∧ (46 : Byte) ∉ a.EnumType) ∧
      (∀ a ∈ op.Outputs, (46 : Byte) ∉ a.Name ∧ (46 : Byte) ∉ a.EnumType) :=
  ⟨fun a ha => h.2.2 a (List.mem_of_mem_filter ha),
   fun a ha => h.2.2 a (List.mem_of_mem_filter ha),
   fun a ha => h.2.2 a (List.mem_of_mem_filter ha)⟩

theorem pinSafe_genGoFuncOptsStruct (c : Byte) (hc : c = 80 ∨ c = 85) (op : OpDef) (h : dotFree op) :
    pinSafe c (genGoFuncOptsStruct op) = true := by
  have hN := pinSafe_of_no_dot c _ h.1
  have hG := pinSafe_of_no_dot c _ (no_dot_goName _ h.1)
  have hfields : pinSafe c (op.OptionalInputs.map (fun a =>
      str "\t" ++ goExportedArgName a.Name ++ str " " ++ goOptTypeName a ++ str "\n")).flatten =
        true := by
    apply pinSafe_flatten c
    intro x hx
    rw [List.mem_map] at hx
    obtain ⟨a, ha, rfl⟩ := hx
    have hE := pinSafe_of_no_dot c _ (no_dot_goExportedArgName _ ((dotFree_views op h).2.1 a ha).1)
    have hT := pinSafe_goOptTypeName c hc a
    repeat' first
      | (with_reducible exact hE)
      | (with_reducible exact hT)
      | (exact pinSafe_lit c hc _ (by decide) (by decide))
      | (with_reducible apply pinSafe_append c)
  unfold genGoFuncOptsStruct goOptsTypeName
  split_ifs
  · repeat' first
      | (with_reducible exact hN)
      | (with_reducible exact hG)
      | (with_reducible exact hfields)
      | (exact pinSafe_lit c hc _ (by decide) (by decide))
      | (with_reducible apply pinSafe_append c)
  · exact pinSafe_lit c hc _ (by decide) (by decide)

theorem pinSafe_genGoFuncHead (c : Byte) (hc : c = 80 ∨ c = 85) (op : OpDef) (h : dotFree op) :
    pinSafe c (genGoFuncHead op) = true := by
  have hN := pinSafe_of_no_dot c _ h.1
  have hD := pinSafe_of_no_dot c _ h.2.1
  have hG := pinSafe_of_no_dot c _ (no_dot_goName _ h.1)
  have hparams : pinSafe c (stringsJoin (genGoFuncParams op) (str ", ")) = true := by
    apply pinSafe_stringsJoin c _ _ (pinSafe_lit c hc _ (by decide) (by decide))
    intro x hx
    unfold genGoFuncParams goOptsTypeName at hx
    rcases List.mem_append.mp hx with hx | hx
    · rw [List.mem_map] at hx
      obtain ⟨a, ha, rfl⟩ := hx
      have hA := pinSafe_of_no_dot c _ (no_dot_goArgName _ ((dotFree_views op h).1 a ha).1)
      have hT := pinSafe_goTypeName c hc a
      repeat' first
        | (with_reducible exact hA)
        | (with_reducible exact hT)
        | (exact pinSafe_lit c hc _ (by decide) (by decide))
        | (with_reducible apply pinSafe_append c)
    · split_ifs at hx
      · rw [List.mem_singleton] at hx
        rw [hx]
        repeat' first
          | (with_reducible exact hG)
          | (exact pinSafe_lit c hc _ (by decide) (by decide))
          | (with_reducible apply pinSafe_append c)
      · simp at hx
  have hret : pinSafe c (genGoFuncRetTypes op) = true := by
    unfold genGoFuncRetTypes
    split_ifs
    · apply pinSafe_stringsJoin c _ _ (pinSafe_lit c hc _ (by decide) (by decide))
      intro x hx
      rcases List.mem_append.mp hx with hx | hx
      · rw [List.mem_map] at hx
        obtain ⟨a, _, rfl⟩ := hx
        exact pinSafe_goTypeName c hc a
      · rw [List.mem_singleton] at hx
        rw [hx]
        exact pinSafe_lit c hc _ (by decide) (by decide)
    · exact pinSafe_lit c hc _ (by decide) (by decide)
  have htemps : pinSafe c (genGoFuncStrTemps op) = true := by
    unfold genGoFuncStrTemps
    apply pinSafe_flatten c
    intro x hx
    rw [List.mem_map] at hx
    obtain ⟨a, ha, rfl⟩ := hx
    have hA := pinSafe_of_no_dot c _ (no_dot_goArgName _ ((dotFree_views op h).1 a ha).1)
    split_ifs
    · repeat' first
        | (with_reducible exact hA)
        | (exact pinSafe_lit c hc _ (by decide) (by decide))
        | (with_reducible apply pinSafe_append c)
    · exact pinSafe_lit c hc _ (by decide) (by decide)
  have hvars : pinSafe c (op.Outputs.map genGoFuncOutVar).flatten = true := by
    apply pinSafe_flatten c
    intro x hx
    rw [List.mem_map] at hx
    obtain ⟨a, ha, rfl⟩ := hx
    have hA := pinSafe_of_no_dot c _ (no_dot_goArgName _ ((dotFree_views op h).2.2 a ha).1)
    unfold genGoFuncOutVar
    cases a.Typ <;> simp only [] <;>
      repeat' first
        | (with_reducible exact hA)
        | (exact pinSafe_lit c hc _ (by decide) (by decide))
        | (with_reducible apply pinSafe_append c)
  unfold genGoFuncHead goFuncName
  repeat' first
    | (with_reducible exact hN)
    | (with_reducible exact hD)
    | (with_reducible exact hG)
    | (with_reducible exact hparams)
    | (with_reducible exact hret)
    | (with_reducible exact htemps)
    | (with_reducible exact hvars)
    | (exact pinSafe_lit c hc _ (by decide) (by decide))
    | (with_reducible apply pinSafe_append c)

theorem pinSafe_genGoFuncOptField (c : Byte) (hc : c = 80 ∨ c = 85) (a : ArgDef) (hn : (46 : Byte) ∉ a.Name)
    (he : (46 : Byte) ∉ a.EnumType)
    (hk : ¬ (a.Typ = ArgTypeArrayDouble ∨ a.Typ = ArgTypeArrayInt)) :
    pinSafe c (genGoFuncOptField a) = true := by
  have hA := pinSafe_of_no_dot c _ (no_dot_goArgName _ hn)
  have hE := pinSafe_of_no_dot c _ (no_dot_goExportedArgName _ hn)
  have hT := pinSafe_of_no_dot c _ he
  unfold genGoFuncOptField isNilCheckType
  cases hty : a.Typ
  case ArgTypeArrayDouble => exact absurd (Or.inl hty) hk
  case ArgTypeArrayInt => exact absurd (Or.inr hty) hk
  all_goals
    simp only []
    split_ifs
    all_goals
      repeat' first
        | (with_reducible exact hA)
        | (with_reducible exact hE)
        | (with_reducible exact hT)
        | (exact pinSafe_lit c hc _ (by decide) (by decide))
        | (with_reducible apply pinSafe_append c)

theorem pinSafe_genGoFuncOpts (c : Byte) (hc : c = 80 ∨ c = 85) (op : OpDef) (h : dotFree op) (hp : opHasArrayOpts op = false) :
    pinSafe c (genGoFuncOpts op) = true := by
  have hG := pinSafe_of_no_dot c _ (no_dot_goName _ h.1)
  have hfields : pinSafe c (op.OptionalInputs.map genGoFuncOptField).flatten = true := by
    apply pinSafe_flatten c
    intro x hx
    rw [List.mem_map] at hx
    obtain ⟨a, ha, rfl⟩ := hx
    have hd := (dotFree_views op h).2.1 a ha
    refine pinSafe_genGoFuncOptField c hc a hd.1 hd.2 ?_
    intro hk
    have : opHasArrayOpts op = true := by
      unfold opHasArrayOpts
      rw [List.any_eq_true]
      exact ⟨a, ha, by rcases hk with hk | hk <;> simp [hk]⟩
    rw [hp] at this
    exact absurd this (by simp)
  unfold genGoFuncOpts cStructName
  rw [hp]
  by_cases hlen : op.OptionalInputs.length > 0
  · rw [if_pos hlen]
    simp only [Bool.false_eq_true, if_false]
    repeat' first
      | (with_reducible exact hG)
      | (with_reducible exact hfields)
      | (exact pinSafe_lit c hc _ (by decide) (by decide))
      | (with_reducible apply pinSafe_append c)
  · rw [if_neg hlen]
    exact pinSafe_lit c hc _ (by decide) (by decide)

theorem pinSafe_genGoFuncCall (c : Byte) (hc : c = 80 ∨ c = 85) (op : OpDef) (h : dotFree op) :
    pinSafe c (genGoFuncCall op) = true := by
  have hN := pinSafe_of_no_dot c _ h.1
  have hargs : pinSafe c (stringsJoin (genGoFuncCArgs op) (str ", ")) = true := by
    apply pinSafe_stringsJoin c _ _ (pinSafe_lit c hc _ (by decide) (by decide))
    intro x hx
    unfold genGoFuncCArgs at hx
    rcases List.mem_append.mp hx with hx | hx
    · rcases List.mem_append.mp hx with hx | hx
      · rw [List.mem_flatten] at hx
        obtain ⟨l, hl, hxl⟩ := hx
        rw [List.mem_map] at hl
        obtain ⟨a, ha, rfl⟩ := hl
        have hd := (dotFree_views op h).1 a ha
        have hA := pinSafe_of_no_dot c _ (no_dot_goArgName _ hd.1)
        have hT := pinSafe_of_no_dot c _ hd.2
        revert hxl
        cases a.Typ <;> simp only [List.mem_singleton, List.mem_cons, List.not_mem_nil, or_false] <;>
          intro hxl
        all_goals
          first
            | (rw [hxl]
               repeat' first
                 | (with_reducible exact hA)
                 | (with_reducible exact hT)
                 | (exact pinSafe_lit c hc _ (by decide) (by decide))
                 | (with_reducible apply pinSafe_append c))
            | (rcases hxl with hxl | hxl <;> rw [hxl] <;>
               repeat' first
                 | (with_reducible exact hA)
                 | (with_reducible exact hT)
                 | (exact pinSafe_lit c hc _ (by decide) (by decide))
                 | (with_reducible apply pinSafe_append c))
      · rw [List.mem_map] at hx
        obtain ⟨a, ha, rfl⟩ := hx
        have hA := pinSafe_of_no_dot c _ (no_dot_goArgName _ ((dotFree_views op h).2.2 a ha).1)
        exact pinSafe_append c _ _ (pinSafe_lit c hc _ (by decide) (by decide)) hA
    · split_ifs at hx
      · rw [List.mem_singleton] at hx
        rw [hx]
        exact pinSafe_lit c hc _ (by decide) (by decide)
      · simp at hx
  unfold genGoFuncCall cFuncName
  repeat' first
    | (with_reducible exact hN)
    | (with_reducible exact hargs)
    | (exact pinSafe_lit c hc _ (by decide) (by decide))
    | (with_reducible apply pinSafe_append c)

theorem pinSafe_goZeroValue (c : Byte) (hc : c = 80 ∨ c = 85) (a : ArgDef) : pinSafe c (goZeroValue a) = true := by
  unfold goZeroValue
  cases a.Typ <;> exact pinSafe_lit c hc _ (by decide) (by decide)

theorem pinSafe_genGoFuncErr (c : Byte) (hc : c = 80 ∨ c = 85) (op : OpDef) (h : dotFree op) :
    pinSafe c (genGoFuncErr op) = true := by
  have hzero : ∀ x ∈ op.Outputs.map goZeroValue, pinSafe c x = true := by
    intro x hx
    rw [List.mem_map] at hx
    obtain ⟨a, _, rfl⟩ := hx
    exact pinSafe_goZeroValue c hc a
  unfold genGoFuncErr
  split_ifs
  · simp only []
    cases himg : primaryImageOutput op with
    | none =>
      simp only []
      have hjoin : pinSafe c (stringsJoin (op.Outputs.map goZeroValue ++ [str "handleVipsError()"])
          (str ", ")) = true := by
        apply pinSafe_stringsJoin c _ _ (pinSafe_lit c hc _ (by decide) (by decide))
        intro x hx
        rcases List.mem_append.mp hx with hx | hx
        · exact hzero x hx
        · rw [List.mem_singleton] at hx
          rw [hx]
          exact pinSafe_lit c hc _ (by decide) (by decide)
      repeat' first
        | (with_reducible exact hjoin)
        | (exact pinSafe_lit c hc _ (by decide) (by decide))
        | (with_reducible apply pinSafe_append c)
    | some imgOut =>
      simp only []
      have hmem : imgOut ∈ op.Outputs := List.mem_of_find?_eq_some himg
      have hA := pinSafe_of_no_dot c _ (no_dot_goArgName _ ((dotFree_views op h).2.2 imgOut hmem).1)
      have hjoin : pinSafe c (stringsJoin (op.Outputs.map goZeroValue ++
          [str "handleImageError(out_" ++ goArgName imgOut.Name ++ str ")"]) (str ", ")) = true := by
        apply pinSafe_stringsJoin c _ _ (pinSafe_lit c hc _ (by decide) (by decide))
        intro x hx
        rcases List.mem_append.mp hx with hx | hx
        · exact hzero x hx
        · rw [List.mem_singleton] at hx
          rw [hx]
          repeat' first
            | (with_reducible exact hA)
            | (exact pinSafe_lit c hc _ (by decide) (by decide))
            | (with_reducible apply pinSafe_append c)
      repeat' first
        | (with_reducible exact hjoin)
        | (exact pinSafe_lit c hc _ (by decide) (by decide))
        | (with_reducible apply pinSafe_append c)
  · exact pinSafe_lit c hc _ (by decide) (by decide)

theorem pinSafe_genGoFuncRet (c : Byte) (hc : c = 80 ∨ c = 85) (op : OpDef) (h : dotFree op) :
    pinSafe c (genGoFuncRet op) = true := by
  unfold genGoFuncRet
  split_ifs
  · simp only []
    refine pinSafe_append c _ _
      (pinSafe_append c _ _ (pinSafe_lit c hc _ (by decide) (by decide)) ?_)
      (pinSafe_lit c hc _ (by decide) (by decide))
    apply pinSafe_stringsJoin c _ _ (pinSafe_lit c hc _ (by decide) (by decide))
    intro x hx
    rcases List.mem_append.mp hx with hx | hx
    · rw [List.mem_map] at hx
      obtain ⟨a, ha, rfl⟩ := hx
      have hA := pinSafe_of_no_dot c _ (no_dot_goArgName _ ((dotFree_views op h).2.2 a ha).1)
      have hG := pinSafe_of_no_dot c _ (no_dot_goEnumName a.EnumType)
      cases a.Typ <;> simp only []
      all_goals
        first
          | (split_ifs <;>
             repeat' first
               | (with_reducible exact hA)
               | (with_reducible exact hG)
               | (exact pinSafe_lit c hc _ (by decide) (by decide))
               | (with_reducible apply pinSafe_append c))
          | (repeat' first
               | (with_reducible exact hA)
               | (with_reducible exact hG)
               | (exact pinSafe_lit c hc _ (by decide) (by decide))
               | (with_reducible apply pinSafe_append c))
    · rw [List.mem_singleton] at hx
      rw [hx]
      exact pinSafe_lit c hc _ (by decide) (by decide)
  · exact pinSafe_lit c hc _ (by decide) (by decide)

theorem opHasArrayOpts_iff (op : OpDef) :
    opHasArrayOpts op = true ↔
      ∃ a ∈ op.OptionalInputs, a.Typ = ArgTypeArrayDouble ∨ a.Typ = ArgTypeArrayInt := by
  unfold opHasArrayOpts
  rw [List.any_eq_true]
  simp only [Bool.or_eq_true, beq_iff_eq]

theorem pinCall_occursIn_field (a : ArgDef)
    (hk : a.Typ = ArgTypeArrayDouble ∨ a.Typ = ArgTypeArrayInt) :
    occursIn (pinCall a) (genGoFuncOptField a) := by
  unfold genGoFuncOptField isNilCheckType pinCall
  rcases hk with hk | hk <;> rw [hk] <;> simp only []
  · exact ⟨str "\t\tif opts." ++ goExportedArgName a.Name ++ str " != nil \x7b\n"
        ++ str "\t\t\tcOpts.has_" ++ goArgName a.Name ++ str " = 1\n",
      str "\t\t\tcOpts." ++ goArgName a.Name ++ str " = (*C.double)(unsafe.Pointer(&opts."
        ++ goExportedArgName a.Name ++ str "[0]))\n"
        ++ str "\t\t\tcOpts." ++ goArgName a.Name ++ str "_n = C.int(len(opts."
        ++ goExportedArgName a.Name ++ str "))\n" ++ str "\t\t\x7d\n",
      by simp only [List.append_assoc]; rfl⟩
  · exact ⟨str "\t\tif opts." ++ goExportedArgName a.Name ++ str " != nil \x7b\n"
        ++ str "\t\t\tcOpts.has_" ++ goArgName a.Name ++ str " = 1\n",
      str "\t\t\tcOpts." ++ goArgName a.Name ++ str " = (*C.int)(unsafe.Pointer(&opts."
        ++ goExportedArgName a.Name ++ str "[0]))\n"
        ++ str "\t\t\tcOpts." ++ goArgName a.Name ++ str "_n = C.int(len(opts."
        ++ goExportedArgName a.Name ++ str "))\n" ++ str "\t\t\x7d\n",
      by simp only [List.append_assoc]; rfl⟩

theorem genGoFunc_with_pinner (op : OpDef) (hp : opHasArrayOpts op = true) :
    genGoFunc op =
      (genGoFuncOptsStruct op ++ genGoFuncHead op
          ++ (str "\n\tvar cOpts C." ++ cStructName op.Name ++ str "\n"))
        ++ pinnerDecl
        ++ (str "\tif opts != nil \x7b\n" ++ (op.OptionalInputs.map genGoFuncOptField).flatten
          ++ str "\t\x7d\n" ++ genGoFuncCall op ++ genGoFuncErr op ++ genGoFuncRet op
          ++ str "\x7d\n\n") := by
  have hlen : op.OptionalInputs.length > 0 := by
    obtain ⟨a, ha, _⟩ := (opHasArrayOpts_iff op).mp hp
    exact List.length_pos_of_mem ha
  have hopts : genGoFuncOpts op =
      str "\n\tvar cOpts C." ++ cStructName op.Name ++ str "\n" ++ pinnerDecl
        ++ str "\tif opts != nil \x7b\n" ++ (op.OptionalInputs.map genGoFuncOptField).flatten
        ++ str "\t\x7d\n" := by
    unfold genGoFuncOpts pinnerDecl
    rw [if_pos hlen, hp]
    simp only [if_true]
  unfold genGoFunc
  rw [genGoFuncEntry_eq_parts, hopts]
  simp only [List.append_assoc]

/-- C35: for every operation list, every pinner.Pin call that genGoBridge
emits lies in a function that declares var pinner runtime.Pinner with a
deferred pinner.Unpin(): a function of an operation with an optional input of
kind ArrayDouble or ArrayInt prints the declaration before the Pin calls of
these inputs, and a function of an operation without such an input holds
neither a Pin call nor the declaration (for names without a dot). The file
imports "runtime" exactly when some operation has such an input. -/
theorem pinner_declared_where_pinned (ops : List OpDef) :
    (∀ op ∈ ops,
      (opHasArrayOpts op = true ↔
        ∃ a ∈ op.OptionalInputs, a.Typ = ArgTypeArrayDouble ∨ a.Typ = ArgTypeArrayInt) ∧
      (opHasArrayOpts op = true →
        ∃ pre post, genGoFunc op = pre ++ pinnerDecl ++ post ∧
          (dotFree op → ¬ occursIn (str "pinner.Pin(") pre) ∧
          ∀ a ∈ op.OptionalInputs, a.Typ = ArgTypeArrayDouble ∨ a.Typ = ArgTypeArrayInt →
            occursIn (pinCall a) post) ∧
      (opHasArrayOpts op = false → dotFree op →
        ¬ occursIn (str "pinner.Pin(") (genGoFunc op) ∧
          ¬ occursIn pinnerDecl (genGoFunc op))) ∧
      ((∃ op ∈ ops, ∃ a ∈ op.OptionalInputs,
          a.Typ = ArgTypeArrayDouble ∨ a.Typ = ArgTypeArrayInt) →
        genGoBridge ops =
          bridgeHeader ++ str "import (\n\t\"runtime\"\n\t\"unsafe\"\n)\n\n" ++ bridgeBody ops) ∧
      (¬ (∃ op ∈ ops, ∃ a ∈ op.OptionalInputs,
          a.Typ = ArgTypeArrayDouble ∨ a.Typ = ArgTypeArrayInt) →
        genGoBridge ops = bridgeHeader ++ str "import \"unsafe\"\n\n" ++ bridgeBody ops) := by
  refine ⟨fun op _ => ⟨opHasArrayOpts_iff op, fun hp => ?_, fun hp hd => ?_⟩, fun h => ?_,
    fun h => ?_⟩
  · refine ⟨_, _, genGoFunc_with_pinner op hp, fun hd => ?_, fun a ha hk => ?_⟩
    · apply not_occursIn_pin_of_pinSafe
      have hG := pinSafe_of_no_dot 80 _ (no_dot_goName _ hd.1)
      have hS := pinSafe_genGoFuncOptsStruct 80 (Or.inl rfl) op hd
      have hH := pinSafe_genGoFuncHead 80 (Or.inl rfl) op hd
      unfold cStructName
      repeat' first
        | (with_reducible exact hG)
        | (with_reducible exact hS)
        | (with_reducible exact hH)
        | decide
        | (with_reducible apply pinSafe_append 80)
    · obtain ⟨l₁, l₂, hl⟩ := List.append_of_mem ha
      rw [hl]
      simp only [List.map_append, List.map_cons, List.flatten_append, List.flatten_cons]
      exact occursIn_append_left _ _ _ (occursIn_append_left _ _ _ (occursIn_append_left _ _ _
        (occursIn_append_left _ _ _ (occursIn_append_left _ _ _ (occursIn_append_right _ _ _
          (occursIn_append_right _ _ _ (occursIn_append_left _ _ _
            (pinCall_occursIn_field a hk))))))))
  · have hsafe : ∀ c : Byte, c = 80 ∨ c = 85 → pinSafe c (genGoFunc op) = true := by
      intro c hc
      unfold genGoFunc
      rw [genGoFuncEntry_eq_parts]
      have h1 := pinSafe_genGoFuncOptsStruct c hc op hd
      have h2 := pinSafe_genGoFuncHead c hc op hd
      have h3 := pinSafe_genGoFuncOpts c hc op hd hp
      have h4 := pinSafe_genGoFuncCall c hc op hd
      have h5 := pinSafe_genGoFuncErr c hc op hd
      have h6 := pinSafe_genGoFuncRet c hc op hd
      repeat' first
        | (with_reducible exact h1)
        | (with_reducible exact h2)
        | (with_reducible exact h3)
        | (with_reducible exact h4)
        | (with_reducible exact h5)
        | (with_reducible exact h6)
        | (exact pinSafe_lit c hc _ (by decide) (by decide))
        | (with_reducible apply pinSafe_append c)
    exact ⟨not_occursIn_pin_of_pinSafe _ (hsafe 80 (Or.inl rfl)),
      not_occursIn_decl_of_pinSafe _ (hsafe 85 (Or.inr rfl))⟩
  · have hany : ops.any opHasArrayOpts = true := by
      obtain ⟨op, hop, hex⟩ := h
      rw [List.any_eq_true]
      exact ⟨op, hop, (opHasArrayOpts_iff op).mpr hex⟩
    unfold genGoBridge bridgeHeader bridgeBody
    rw [hany]
    simp only [if_true, List.append_assoc]
  · have hany : ops.any opHasArrayOpts = false := by
      rw [Bool.eq_false_iff]
      intro hany
      rw [List.any_eq_true] at hany
      obtain ⟨op, hop, hex⟩ := hany
      exact h ⟨op, hop, (opHasArrayOpts_iff op).mp hex⟩
    unfold genGoBridge bridgeHeader bridgeBody
    rw [hany]
    simp only [Bool.false_eq_true, if_false, List.append_assoc]

set_option maxRecDepth 100000 in
/-- Witness of C35: flatten has the optional array input background; the
file of the one operation imports "runtime". -/
theorem pinner_declared_where_pinned_witness :
    genGoBridge [flattenOp] =
      bridgeHeader ++ str "import (\n\t\"runtime\"\n\t\"unsafe\"\n)\n\n" ++ bridgeBody [flattenOp] :=
  (pinner_declared_where_pinned [flattenOp]).2.1
    ⟨flattenOp, List.mem_singleton_self _,
      ⟨str "background", ArgTypeArrayDouble, 1, 12, 0, 0, 0, str ""⟩, by decide, Or.inl rfl⟩

/-! ### The bridge function: result types, error branch and return -/

theorem genGoFuncErr_eq (op : OpDef) :
    genGoFuncErr op = errorBranch (op.Outputs.map goZeroValue ++ [errorValueFirstImage op]) := by
  unfold genGoFuncErr errorBranch primaryImageOutput errorValueFirstImage
  have hlit : str "\t\treturn handleVipsError()\n" =
      str "\t\treturn " ++ str "handleVipsError()" ++ str "\n" := by decide
  by_cases h : op.Outputs = []
  · simp [h, hlit, stringsJoin]
  · have hpos : op.Outputs.length > 0 := List.length_pos.mpr h
    simp only [hpos, if_true]
    cases op.Outputs.find? (fun a => a.Typ == ArgTypeImage) <;> simp [List.append_assoc]

theorem genGoFuncErr_occurs (op : OpDef) : occursIn (genGoFuncErr op) (genGoFunc op) := by
  unfold genGoFunc genGoFuncEntry
  apply occursIn_append_right
  apply occursIn_append_left
  apply occursIn_append_left
  apply occursIn_append_right
  exact occursIn_self _

theorem goZeroValue_eq_zeroLiteral (a : ArgDef) (hs : a.Typ ≠ ArgTypeString)
    (hf : a.Typ ≠ ArgTypeFlags) : goZeroValue a = zeroLiteral (goTypeName a) := by
  have hvalues : ∀ e ∈ enumGoName, zeroLiteral e.2 = str "0" := by decide
  unfold goZeroValue goTypeName
  cases hty : a.Typ
  case ArgTypeString => exact absurd hty hs
  case ArgTypeFlags => exact absurd hty hf
  case ArgTypeEnum =>
    simp only []
    by_cases he : goEnumName a.EnumType = str ""
    · rw [if_neg (not_not.mpr he)]
      decide
    · rw [if_pos he]
      unfold goEnumName at he ⊢
      cases hl : enumGoName.lookup a.EnumType with
      | none => rw [hl] at he; exact absurd rfl he
      | some v => exact (hvalues (a.EnumType, v) (mem_of_lookup_eq_some _ _ _ hl)).symm
  all_goals (simp only []; decide)

/-- C19 (as amended): the error branch that genGoFunc emits returns one
value per output, in Outputs order, followed by an error. For every output of
a kind other than String and Flags the value is the zero value of the
output's result type. The error is handleImageError applied to the holding
variable of the first output of kind Image when some output is of kind Image
(it need not be the first output), and the generic handleVipsError() when no
output is of kind Image. -/
theorem genGoFunc_error_branch (op : OpDef) :
    occursIn (genGoFuncErr op) (genGoFunc op) ∧
      genGoFuncErr op = errorBranch (op.Outputs.map goZeroValue ++ [errorValueFirstImage op]) ∧
      (∀ a ∈ op.Outputs, a.Typ ≠ ArgTypeString → a.Typ ≠ ArgTypeFlags →
        goZeroValue a = zeroLiteral (goTypeName a)) ∧
      (∀ pre img post, op.Outputs = pre ++ img :: post →
        (∀ a ∈ pre, a.Typ ≠ ArgTypeImage) → img.Typ = ArgTypeImage →
        errorValueFirstImage op = str "handleImageError(out_" ++ goArgName img.Name ++ str ")") ∧
      ((∀ a ∈ op.Outputs, a.Typ ≠ ArgTypeImage) →
        errorValueFirstImage op = str "handleVipsError()") := by
  refine ⟨genGoFuncErr_occurs op, genGoFuncErr_eq op,
    fun a _ hs hf => goZeroValue_eq_zeroLiteral a hs hf, ?_, ?_⟩
  · intro pre img post hsplit hpre himg
    have hfind : op.Outputs.find? (fun a => a.Typ == ArgTypeImage) = some img := by
      rw [hsplit]
      clear hsplit
      induction pre with
      | nil => simp [List.find?, himg]
      | cons x pre ih =>
        have hx : x.Typ ≠ ArgTypeImage := hpre x (List.mem_cons_self _ _)
        have hx' : (x.Typ == ArgTypeImage) = false := by simpa using hx
        rw [List.cons_append, List.find?, hx']
        exact ih (fun a ha => hpre a (List.mem_cons_of_mem _ ha))
    unfold errorValueFirstImage
    rw [hfind]
  · intro hall
    have hfind : op.Outputs.find? (fun a => a.Typ == ArgTypeImage) = none := by
      rw [List.find?_eq_none]
      intro a ha
      simpa using hall a ha
    unfold errorValueFirstImage
    rw [hfind]

/-- Witness of C19 (as amended): an operation whose second output is its
first output of kind Image; the value of its Int output `segments` is the
zero value of int, and the error comes from the holding variable of
`mask`. -/
theorem genGoFunc_error_branch_witness :
    goZeroValue ⟨str "segments", ArgTypeInt, 2, 2, 0, 0, 0, str ""⟩ =
        zeroLiteral (goTypeName ⟨str "segments", ArgTypeInt, 2, 2, 0, 0, 0, str ""⟩) ∧
      errorValueFirstImage labelOp =
        str "handleImageError(out_" ++ goArgName (str "mask") ++ str ")" :=
  ⟨(genGoFunc_error_branch labelOp).2.2.1 ⟨str "segments", ArgTypeInt, 2, 2, 0, 0, 0, str ""⟩
      (by decide) (by decide) (by decide),
    (genGoFunc_error_branch labelOp).2.2.2.1
      [⟨str "segments", ArgTypeInt, 2, 2, 0, 0, 0, str ""⟩]
      ⟨str "mask", ArgTypeImage, 6, 3, 0, 0, 0, str ""⟩ [] (by decide) (by decide) (by decide)⟩

set_option maxRecDepth 100000 in
/-- C19 as stated fails in two ways. The outputs of labelregions are
`segments` (Int) and `mask` (Image): the first output is not of kind Image,
and the error branch returns handleImageError(out_mask), not the generic
handleVipsError(). The only output of the second operation is of kind String
and that of the third of kind Flags: the result types are string and int,
whose zero values are the empty string and 0, and the error branch returns
nil for them. -/
theorem genGoFunc_error_not_by_first_output :
    labelOp.Outputs =
        [⟨str "segments", ArgTypeInt, 2, 2, 0, 0, 0, str ""⟩,
         ⟨str "mask", ArgTypeImage, 6, 3, 0, 0, 0, str ""⟩] ∧
      errorValueFirstOutput labelOp = str "handleVipsError()" ∧
      genGoFuncErr labelOp =
        str "\tif ret != 0 \x7b\n\t\treturn 0, nil, handleImageError(out_mask)\n\t\x7d\n\n" ∧
      genGoFuncErr labelOp ≠ errorBranch [str "0", str "nil", errorValueFirstOutput labelOp] ∧
      describeOp.Outputs = [⟨str "text", ArgTypeString, 6, 2, 0, 0, 0, str ""⟩] ∧
      genGoFuncRetTypes describeOp = str "string, error" ∧
      zeroLiteral (str "string") = str "\"\"" ∧
      genGoFuncErr describeOp =
        str "\tif ret != 0 \x7b\n\t\treturn nil, handleVipsError()\n\t\x7d\n\n" ∧
      probeOp.Outputs = [⟨str "flags", ArgTypeFlags, 6, 2, 0, 0, 0, str "VipsForeignFlags"⟩] ∧
      genGoFuncRetTypes probeOp = str "int, error" ∧
      zeroLiteral (str "int") = str "0" ∧
      genGoFuncErr probeOp =
        str "\tif ret != 0 \x7b\n\t\treturn nil, handleVipsError()\n\t\x7d\n\n" := by
  decide

/-! ### No comma in the identifiers made of a name without a comma -/

set_option maxRecDepth 100000 in
theorem no_comma_stringsToUpperByte (b : Byte) (hb : b ≠ 44) :
    (44 : Byte) ∉ stringsToUpperByte b := by
  revert hb
  revert b
  decide

theorem no_comma_upperFirst (p : GoString) (hp : (44 : Byte) ∉ p) :
    (44 : Byte) ∉ upperFirst p := by
  cases p with
  | nil => simp [upperFirst]
  | cons b rest =>
    unfold upperFirst
    rw [List.mem_append]
    rintro (h | h)
    · exact no_comma_stringsToUpperByte b (fun he => hp (he ▸ List.mem_cons_self _ _)) h
    · exact hp (List.mem_cons_of_mem _ h)

theorem no_comma_stringsSplit (s : GoString) (sep : Byte) (hs : (44 : Byte) ∉ s) :
    ∀ p ∈ stringsSplit s sep, (44 : Byte) ∉ p := by
  induction s with
  | nil =>
    intro p hp
    simp only [stringsSplit, List.mem_singleton] at hp
    rw [hp]
    simp
  | cons b rest ih =>
    have hb : b ≠ 44 := fun h => hs (h ▸ List.mem_cons_self _ _)
    have hrest := ih (fun h => hs (List.mem_cons_of_mem _ h))
    intro p hp
    unfold stringsSplit at hp
    by_cases hsep : b = sep
    · rw [if_pos hsep] at hp
      rcases List.mem_cons.mp hp with h | h
      · rw [h]; simp
      · exact hrest p h
    · rw [if_neg hsep] at hp
      cases hsplit : stringsSplit rest sep with
      | nil =>
        rw [hsplit] at hp
        simp only [List.mem_singleton] at hp
        rw [hp]
        simpa using fun h => hb h.symm
      | cons q qs =>
        rw [hsplit] at hp hrest
        simp only at hp
        rcases List.mem_cons.mp hp with h | h
        · rw [h]
          intro hmem
          rcases List.mem_cons.mp hmem with h' | h'
          · exact hb h'.symm
          · exact hrest q (List.mem_cons_self _ _) h'
        · exact hrest p (List.mem_cons_of_mem _ h)

theorem no_comma_nameParts (name : GoString) (hn : (44 : Byte) ∉ name) :
    ∀ p ∈ nameParts name, (44 : Byte) ∉ p := by
  apply no_comma_stringsSplit
  unfold stringsReplaceAll
  rw [List.mem_map]
  rintro ⟨b, hb, hbe⟩
  by_cases h45 : b = 45
  · rw [if_pos h45] at hbe
    exact absurd hbe (by decide)
  · rw [if_neg h45] at hbe
    exact hn (hbe ▸ hb)

theorem no_comma_goArgNameLoop (parts : List GoString) (h : ∀ p ∈ parts, (44 : Byte) ∉ p)
    (i : Nat) : (44 : Byte) ∉ goArgNameLoop i parts := by
  induction parts generalizing i with
  | nil => simp [goArgNameLoop]
  | cons p rest ih =>
    unfold goArgNameLoop
    rw [List.mem_append]
    rintro (hmem | hmem)
    · by_cases hnil : p = []
      · rw [if_pos hnil] at hmem
        simp at hmem
      · rw [if_neg hnil] at hmem
        by_cases hi : i = 0
        · rw [if_pos hi] at hmem
          exact h p (List.mem_cons_self _ _) hmem
        · rw [if_neg hi] at hmem
          exact no_comma_upperFirst p (h p (List.mem_cons_self _ _)) hmem
    · exact ih (fun q hq => h q (List.mem_cons_of_mem _ hq)) (i + 1) hmem

theorem no_comma_goArgName (name : GoString) (hn : (44 : Byte) ∉ name) :
    (44 : Byte) ∉ goArgName name := by
  have h := no_comma_goArgNameLoop _ (no_comma_nameParts name hn) 0
  unfold goArgName
  simp only []
  split_ifs
  · decide
  · decide
  · decide
  · decide
  · decide
  · exact h

theorem no_comma_goEnumName (c : GoString) : (44 : Byte) ∉ goEnumName c := by
  have hvalues : ∀ e ∈ enumGoName, (44 : Byte) ∉ e.2 := by decide
  unfold goEnumName
  cases h : enumGoName.lookup c with
  | none => decide
  | some v => exact hvalues (c, v) (mem_of_lookup_eq_some _ _ _ h)

theorem no_comma_append (x y : GoString) (hx : (44 : Byte) ∉ x) (hy : (44 : Byte) ∉ y) :
    (44 : Byte) ∉ x ++ y := by
  rw [List.mem_append]
  rintro (h | h)
  · exact hx h
  · exact hy h

/-! ### The values of the result list and of the two returns -/

theorem genGoFuncRetTypes_eq (op : OpDef) :
    genGoFuncRetTypes op = stringsJoin (op.Outputs.map goTypeName ++ [str "error"]) (str ", ") := by
  unfold genGoFuncRetTypes
  by_cases h : op.Outputs = []
  · simp [h, stringsJoin]
  · have hpos : op.Outputs.length > 0 := List.length_pos.mpr h
    simp [hpos]

theorem genGoFuncRet_eq (op : OpDef) :
    genGoFuncRet op =
      str "\treturn " ++ stringsJoin (op.Outputs.map genGoFuncRetVal ++ [str "nil"]) (str ", ")
        ++ str "\n" := by
  unfold genGoFuncRet
  have hlit : str "\treturn nil\n" = str "\treturn " ++ str "nil" ++ str "\n" := by decide
  by_cases h : op.Outputs = []
  · simp [h, hlit, stringsJoin]
  · have hpos : op.Outputs.length > 0 := List.length_pos.mpr h
    simp only [hpos, if_true]
    rfl

theorem goTypeName_value (a : ArgDef) : goTypeName a ≠ [] ∧ (44 : Byte) ∉ goTypeName a := by
  unfold goTypeName
  cases hty : a.Typ
  case ArgTypeEnum =>
    simp only []
    by_cases he : goEnumName a.EnumType = str ""
    · rw [if_neg (not_not.mpr he)]
      decide
    · rw [if_pos he]
      exact ⟨he, no_comma_goEnumName _⟩
  all_goals (simp only []; decide)

theorem goZeroValue_value (a : ArgDef) : goZeroValue a ≠ [] ∧ (44 : Byte) ∉ goZeroValue a := by
  unfold goZeroValue
  cases hty : a.Typ
  all_goals (simp only []; decide)

theorem errorValueFirstImage_ne_nil (op : OpDef) : errorValueFirstImage op ≠ [] := by
  unfold errorValueFirstImage
  cases op.Outputs.find? (fun a => a.Typ == ArgTypeImage) with
  | none => decide
  | some img => simp [str]

theorem errorValueFirstImage_no_comma (op : OpDef)
    (h : ∀ a ∈ op.Outputs, (44 : Byte) ∉ a.Name) : (44 : Byte) ∉ errorValueFirstImage op := by
  unfold errorValueFirstImage
  cases hf : op.Outputs.find? (fun a => a.Typ == ArgTypeImage) with
  | none => decide
  | some img =>
    have hn := no_comma_goArgName _ (h img (List.mem_of_find?_eq_some hf))
    repeat' first
      | (with_reducible exact hn)
      | decide
      | (with_reducible apply no_comma_append)

theorem genGoFuncRetVal_ne_nil (a : ArgDef) : genGoFuncRetVal a ≠ [] := by
  unfold genGoFuncRetVal
  cases hty : a.Typ
  case ArgTypeEnum =>
    simp only []
    intro hnil
    exact absurd (List.append_eq_nil.mp hnil).2 (by decide)
  all_goals (simp only []; simp [str])

theorem genGoFuncRetVal_no_comma (a : ArgDef) (h : (44 : Byte) ∉ a.Name) :
    (44 : Byte) ∉ genGoFuncRetVal a := by
  have hn := no_comma_goArgName _ h
  have hg := no_comma_goEnumName a.EnumType
  unfold genGoFuncRetVal
  cases hty : a.Typ
  case ArgTypeEnum =>
    simp only []
    by_cases he : goEnumName a.EnumType = str ""
    · rw [if_pos he]
      repeat' first
        | (with_reducible exact hn)
        | decide
        | (with_reducible apply no_comma_append)
    · rw [if_neg he]
      repeat' first
        | (with_reducible exact hn)
        | (with_reducible exact hg)
        | decide
        | (with_reducible apply no_comma_append)
  all_goals
    simp only []
    repeat' first
      | (with_reducible exact hn)
      | decide
      | (with_reducible apply no_comma_append)

/-- C20: for an operation with n outputs, the function that genGoFunc emits
declares n+1 result types (goTypeName of each output in Outputs order, then
error), and both its error return and its success return list n+1 values
(one per output in Outputs order, then the error value or nil). Every listed
type and value is a text that is not empty, and it holds no comma when the
names of the outputs hold none, so that the texts joined by ", " are exactly
n+1 entries. For an operation with no output all three are the single error
value. -/
theorem genGoFunc_result_arity (op : OpDef) :
    occursIn (str ") (" ++ genGoFuncRetTypes op ++ str ") \x7b\n") (genGoFunc op) ∧
      (∃ pre, genGoFunc op = pre ++ genGoFuncErr op ++ genGoFuncRet op ++ str "\x7d\n\n") ∧
      genGoFuncRetTypes op =
        stringsJoin (op.Outputs.map goTypeName ++ [str "error"]) (str ", ") ∧
      genGoFuncErr op =
        str "\tif ret != 0 \x7b\n\t\treturn "
          ++ stringsJoin (op.Outputs.map goZeroValue ++ [errorValueFirstImage op]) (str ", ")
          ++ str "\n\t\x7d\n\n" ∧
      genGoFuncRet op =
        str "\treturn " ++ stringsJoin (op.Outputs.map genGoFuncRetVal ++ [str "nil"]) (str ", ")
          ++ str "\n" ∧
      (op.Outputs.map goTypeName ++ [str "error"]).length = op.Outputs.length + 1 ∧
      (op.Outputs.map goZeroValue ++ [errorValueFirstImage op]).length = op.Outputs.length + 1 ∧
      (op.Outputs.map genGoFuncRetVal ++ [str "nil"]).length = op.Outputs.length + 1 ∧
      (∀ v, v ∈ op.Outputs.map goTypeName ++ [str "error"] ∨
          v ∈ op.Outputs.map goZeroValue ++ [errorValueFirstImage op] ∨
          v ∈ op.Outputs.map genGoFuncRetVal ++ [str "nil"] → v ≠ []) ∧
      ((∀ a ∈ op.Outputs, (44 : Byte) ∉ a.Name) →
        ∀ v, v ∈ op.Outputs.map goTypeName ++ [str "error"] ∨
          v ∈ op.Outputs.map goZeroValue ++ [errorValueFirstImage op] ∨
          v ∈ op.Outputs.map genGoFuncRetVal ++ [str "nil"] → (44 : Byte) ∉ v) ∧
      (op.Outputs = [] →
        genGoFuncRetTypes op = str "error" ∧
        genGoFuncErr op = str "\tif ret != 0 \x7b\n\t\treturn handleVipsError()\n\t\x7d\n\n" ∧
        genGoFuncRet op = str "\treturn nil\n") := by
  refine ⟨?_, ?_, genGoFuncRetTypes_eq op, ?_, genGoFuncRet_eq op, by simp, by simp, by simp,
    ?_, ?_, ?_⟩
  · unfold genGoFunc genGoFuncEntry
    apply occursIn_append_right
    iterate 14 apply occursIn_append_left
    exact occursIn_suffix₃ _ _ _ _
  · obtain ⟨x, hx⟩ : ∃ x, genGoFuncEntry op =
        x ++ genGoFuncErr op ++ genGoFuncRet op ++ str "\x7d\n\n" := ⟨_, rfl⟩
    exact ⟨genGoFuncOptsStruct op ++ x, by
      unfold genGoFunc
      rw [hx]
      simp only [List.append_assoc]⟩
  · rw [genGoFuncErr_eq]
    unfold errorBranch
    have h1 : str "\tif ret != 0 \x7b\n\t\treturn " =
        str "\tif ret != 0 \x7b\n" ++ str "\t\treturn " := by decide
    have h2 : str "\n\t\x7d\n\n" = str "\n" ++ str "\t\x7d\n\n" := by decide
    rw [h1, h2]
    simp only [List.append_assoc]
  · intro v hv
    rcases hv with hv | hv | hv
    · rcases List.mem_append.mp hv with hv | hv
      · obtain ⟨a, _, rfl⟩ := List.mem_map.mp hv
        exact (goTypeName_value a).1
      · rw [List.mem_singleton.mp hv]
        decide
    · rcases List.mem_append.mp hv with hv | hv
      · obtain ⟨a, _, rfl⟩ := List.mem_map.mp hv
        exact (goZeroValue_value a).1
      · rw [List.mem_singleton.mp hv]
        exact errorValueFirstImage_ne_nil op
    · rcases List.mem_append.mp hv with hv | hv
      · obtain ⟨a, _, rfl⟩ := List.mem_map.mp hv
        exact genGoFuncRetVal_ne_nil a
      · rw [List.mem_singleton.mp hv]
        decide
  · intro h v hv
    rcases hv with hv | hv | hv
    · rcases List.mem_append.mp hv with hv | hv
      · obtain ⟨a, _, rfl⟩ := List.mem_map.mp hv
        exact (goTypeName_value a).2
      · rw [List.mem_singleton.mp hv]
        decide
    · rcases List.mem_append.mp hv with hv | hv
      · obtain ⟨a, _, rfl⟩ := List.mem_map.mp hv
        exact (goZeroValue_value a).2
      · rw [List.mem_singleton.mp hv]
        exact errorValueFirstImage_no_comma op h
    · rcases List.mem_append.mp hv with hv | hv
      · obtain ⟨a, ha, rfl⟩ := List.mem_map.mp hv
        exact genGoFuncRetVal_no_comma a (h a ha)
      · rw [List.mem_singleton.mp hv]
        decide
  · intro h
    have hlit : str "\tif ret != 0 \x7b\n\t\treturn handleVipsError()\n\t\x7d\n\n" =
        str "\tif ret != 0 \x7b\n" ++ str "\t\treturn handleVipsError()\n" ++ str "\t\x7d\n\n" := by
      decide
    refine ⟨?_, ?_, ?_⟩
    · simp [genGoFuncRetTypes, h]
    · rw [hlit]
      simp [genGoFuncErr, h]
    · simp [genGoFuncRet, h]

set_option maxRecDepth 100000 in
/-- Witness of C20: the names of the two outputs `segments` and `mask` hold
no comma, and none of the three values of the success return holds one; an
operation without outputs returns the single error value. -/
theorem genGoFunc_result_arity_witness :
    (∀ a ∈ labelOp.Outputs, (44 : Byte) ∉ a.Name) ∧
      (∀ v ∈ [str "int(out_segments)", str "out_mask", str "nil"], (44 : Byte) ∉ v) ∧
      (genGoFuncRetTypes ⟨str "nop", str "", str "create", []⟩ = str "error" ∧
        genGoFuncErr ⟨str "nop", str "", str "create", []⟩ =
          str "\tif ret != 0 \x7b\n\t\treturn handleVipsError()\n\t\x7d\n\n" ∧
        genGoFuncRet ⟨str "nop", str "", str "create", []⟩ = str "\treturn nil\n") :=
  ⟨by decide,
    fun v hv => (genGoFunc_result_arity labelOp).2.2.2.2.2.2.2.2.2.1 (by decide) v
      (Or.inr (Or.inr (by
        have hl : labelOp.Outputs.map genGoFuncRetVal ++ [str "nil"] =
            [str "int(out_segments)", str "out_mask", str "nil"] := by decide
        rw [hl]
        exact hv))),
    (genGoFunc_result_arity ⟨str "nop", str "", str "create", []⟩).2.2.2.2.2.2.2.2.2.2 rfl⟩

/-! ### The sort of the library on a short slice puts it in ascending order -/

theorem lessAt_of_getElem? {α : Type} (less : α → α → Bool) (d : List α) (i j : Nat) (x y : α)
    (hi : d[i]? = some x) (hj : d[j]? = some y) : lessAt less d i j = less x y := by
  unfold lessAt
  rw [hi, hj]

theorem swapAt_of_getElem? {α : Type} (d : List α) (i j : Nat) (x y : α)
    (hi : d[i]? = some x) (hj : d[j]? = some y) : swapAt d i j = (d.set i y).set j x := by
  unfold swapAt
  rw [hi, hj]

theorem getElem?_at_length {α : Type} (p r : List α) (y : α) :
    (p ++ y :: r)[p.length]? = some y := by
  induction p with
  | nil => simp
  | cons b p ih => simpa using ih

theorem set_at_length_append {α : Type} (p r : List α) (y z : α) :
    (p ++ y :: r).set p.length z = p ++ z :: r := by
  induction p with
  | nil => rfl
  | cons b p ih => simp

theorem getElem?_at_length_succ {α : Type} (p r : List α) (y x : α) :
    (p ++ y :: x :: r)[p.length + 1]? = some x := by
  have := getElem?_at_length (p ++ [y]) r x
  simpa using this

theorem lessAt_adjacent {α : Type} (less : α → α → Bool) (p r : List α) (y x : α) :
    lessAt less (p ++ y :: x :: r) (p.length + 1) p.length = less x y :=
  lessAt_of_getElem? less _ _ _ x y (getElem?_at_length_succ p r y x) (getElem?_at_length p _ y)

theorem swapAt_adjacent {α : Type} (p r : List α) (y x : α) :
    swapAt (p ++ y :: x :: r) (p.length + 1) p.length = p ++ x :: y :: r := by
  rw [swapAt_of_getElem? _ _ _ x y (getElem?_at_length_succ p r y x) (getElem?_at_length p _ y)]
  have h1 : (p ++ y :: x :: r).set (p.length + 1) y = p ++ y :: y :: r := by
    simp
  rw [h1, set_at_length_append]

theorem insertionInner_step {α : Type} (less : α → α → Bool) (a : Nat) (p r : List α) (y x : α)
    (ha : a ≤ p.length) :
    insertionInner less a (p.length + 1) (p ++ y :: x :: r) =
      if less x y = true then insertionInner less a p.length (p ++ x :: y :: r)
      else p ++ y :: x :: r := by
  rw [insertionInner, lessAt_adjacent, swapAt_adjacent]
  by_cases h : less x y = true
  · rw [if_pos ⟨by omega, h⟩, if_pos h]
  · rw [if_neg (fun hc => h hc.2), if_neg h]

theorem insertionInner_base {α : Type} (less : α → α → Bool) (a j : Nat) (d : List α)
    (h : j ≤ a) : insertionInner less a j d = d := by
  cases j with
  | zero => rfl
  | succ j =>
    rw [insertionInner, if_neg (fun hc => by omega)]

theorem insertionInner_inserts {α : Type} (less : α → α → Bool) (h : LessOrdering less)
    (pre : List α) (n : Nat) :
    ∀ (s rest : List α) (x : α), s.length = n →
      s.Pairwise (fun u v => less v u = false) →
      ∃ s', insertionInner less pre.length (pre ++ s).length (pre ++ s ++ x :: rest) =
          pre ++ s' ++ rest ∧
        s'.Perm (s ++ [x]) ∧ s'.Pairwise (fun u v => less v u = false) ∧
        s'.length = s.length + 1 := by
  induction n with
  | zero =>
    intro s rest x hn _
    have hs : s = [] := List.length_eq_zero.mp hn
    subst hs
    refine ⟨[x], ?_, List.Perm.refl _, List.pairwise_singleton _ _, rfl⟩
    rw [insertionInner_base less _ _ _ (by simp)]
    simp
  | succ n ih =>
    intro s rest x hn hsorted
    rcases List.eq_nil_or_concat s with hs | ⟨s₀, y, hs⟩
    · subst hs
      simp at hn
    · rw [List.concat_eq_append] at hs
      subst hs
      have hlen : s₀.length = n := by simpa using hn
      have hsplit := List.pairwise_append.mp hsorted
      have hrew : pre ++ (s₀ ++ [y]) ++ x :: rest = (pre ++ s₀) ++ y :: x :: rest := by simp
      have hlen' : (pre ++ (s₀ ++ [y])).length = (pre ++ s₀).length + 1 := by
        simp only [List.length_append, List.length_singleton]
        omega
      rw [hrew, hlen', insertionInner_step less _ _ _ _ _ (by simp)]
      by_cases hxy : less x y = true
      · rw [if_pos hxy]
        obtain ⟨s', heq, hperm, hsort, hl⟩ := ih s₀ (y :: rest) x hlen hsplit.1
        refine ⟨s' ++ [y], by rw [heq]; simp, ?_, ?_, by simp [hl]⟩
        · calc (s' ++ [y]).Perm ((s₀ ++ [x]) ++ [y]) := hperm.append_right [y]
            _ = s₀ ++ ([x] ++ [y]) := by simp
            _ |>.Perm (s₀ ++ ([y] ++ [x])) := (List.perm_append_comm).append_left s₀
            _ = (s₀ ++ [y]) ++ [x] := by simp
        · rw [List.pairwise_append]
          refine ⟨hsort, List.pairwise_singleton _ _, ?_⟩
          intro u hu v hv
          rw [List.mem_singleton] at hv
          subst hv
          rcases List.mem_append.mp (hperm.mem_iff.mp hu) with hm | hm
          · exact hsplit.2.2 u hm v (List.mem_singleton_self _)
          · rw [List.mem_singleton] at hm
            subst hm
            cases hvu : less v u with
            | false => rfl
            | true =>
              have := h.trans _ _ _ hxy hvu
              rw [h.irrefl] at this
              exact absurd this (by simp)
      · rw [if_neg hxy]
        have hle : less x y = false := by simpa using hxy
        refine ⟨s₀ ++ [y] ++ [x], by simp, List.Perm.refl _, ?_, by simp⟩
        rw [List.pairwise_append]
        refine ⟨hsorted, List.pairwise_singleton _ _, ?_⟩
        intro u hu v hv
        rw [List.mem_singleton] at hv
        subst hv
        rcases List.mem_append.mp hu with hm | hm
        · exact h.negTrans _ _ _ hle (hsplit.2.2 u hm y (List.mem_singleton_self _))
        · rw [List.mem_singleton] at hm
          subst hm
          exact hle

theorem insertionSort_func_outer {α : Type} (less : α → α → Bool) (h : LessOrdering less)
    (pre post : List α) (t : List α) :
    ∀ (s : List α), s.Pairwise (fun u v => less v u = false) →
      ∃ s', (List.range' (pre ++ s).length t.length).foldl
            (fun d i => insertionInner less pre.length i d) (pre ++ s ++ (t ++ post)) =
          pre ++ s' ++ post ∧
        s'.Perm (s ++ t) ∧ s'.Pairwise (fun u v => less v u = false) := by
  induction t with
  | nil =>
    intro s hs
    exact ⟨s, by simp, by simp, hs⟩
  | cons x t ih =>
    intro s hs
    obtain ⟨s₁, heq, hperm, hsort, hl⟩ :=
      insertionInner_inserts less h pre s.length s (t ++ post) x rfl hs
    have hlen : (pre ++ s₁).length = (pre ++ s).length + 1 := by
      simp only [List.length_append, hl]
      omega
    rw [List.length_cons, List.range'_succ, List.foldl_cons, List.cons_append, heq, ← hlen]
    obtain ⟨s', heq', hperm', hsort'⟩ := ih s₁ hsort
    refine ⟨s', heq', hperm'.trans ?_, hsort'⟩
    calc (s₁ ++ t).Perm ((s ++ [x]) ++ t) := hperm.append_right t
      _ = s ++ x :: t := by simp

theorem insertionSort_func_spec {α : Type} (less : α → α → Bool) (h : LessOrdering less)
    (pre seg post : List α) :
    ∃ seg', insertionSort_func less (pre ++ seg ++ post) pre.length (pre.length + seg.length) =
        pre ++ seg' ++ post ∧
      seg'.Perm seg ∧ seg'.Pairwise (fun u v => less v u = false) := by
  cases seg with
  | nil =>
    refine ⟨[], ?_, List.Perm.refl _, List.Pairwise.nil⟩
    unfold insertionSort_func
    have : pre.length + ([] : List α).length - (pre.length + 1) = 0 := by simp
    rw [this]
    simp
  | cons x t =>
    obtain ⟨s', heq, hperm, hsort⟩ :=
      insertionSort_func_outer less h pre post t [x] (List.pairwise_singleton _ _)
    refine ⟨s', ?_, hperm, hsort⟩
    unfold insertionSort_func
    have h1 : pre.length + (x :: t).length - (pre.length + 1) = t.length := by
      simp only [List.length_cons]
      omega
    have h2 : pre.length + 1 = (pre ++ [x]).length := by simp
    have h3 : pre ++ x :: t ++ post = pre ++ [x] ++ (t ++ post) := by simp
    rw [h1, h2, h3]
    exact heq

theorem swapAt_length {α : Type} (d : List α) (i j : Nat) : (swapAt d i j).length = d.length := by
  unfold swapAt
  split <;> simp

theorem swapAt_getElem? {α : Type} (d : List α) (i j : Nat) (x y : α)
    (hi : d[i]? = some x) (hj : d[j]? = some y) (k : Nat) :
    (swapAt d i j)[k]? = if k = j then some x else if k = i then some y else d[k]? := by
  rw [swapAt_of_getElem? d i j x y hi hj]
  obtain ⟨hil, _⟩ := List.getElem?_eq_some.mp hi
  obtain ⟨hjl, _⟩ := List.getElem?_eq_some.mp hj
  rw [List.getElem?_set, List.getElem?_set, List.length_set]
  by_cases hkj : k = j
  · subst hkj
    simp [hjl]
  · have hjk : ¬ j = k := fun h => hkj h.symm
    rw [if_neg hjk, if_neg hkj]
    by_cases hki : k = i
    · subst hki
      simp [hil]
    · have hik : ¬ i = k := fun h => hki h.symm
      rw [if_neg hik, if_neg hki]

theorem partitionUp_spec {α : Type} (less : α → α → Bool) (d : List α) (p : α)
    (h0 : d[0]? = some p) (j : Nat) :
    ∀ (fuel i : Nat),
      i ≤ partitionUp less d 0 j fuel i ∧
      partitionUp less d 0 j fuel i ≤ max i (j + 1) ∧
      (∀ k x, i ≤ k → k < partitionUp less d 0 j fuel i → d[k]? = some x → less x p = true) ∧
      (j + 1 ≤ fuel + i → partitionUp less d 0 j fuel i ≤ j →
        lessAt less d (partitionUp less d 0 j fuel i) 0 = false) := by
  intro fuel
  induction fuel with
  | zero =>
    intro i
    refine ⟨Nat.le_refl _, Nat.le_max_left _ _, ?_, ?_⟩
    · intro k x h1 h2
      simp only [partitionUp] at h2
      omega
    · intro h1 h2
      simp only [partitionUp] at h2
      omega
  | succ fuel ih =>
    intro i
    by_cases hc : i ≤ j ∧ lessAt less d i 0 = true
    · have hdef : partitionUp less d 0 j (fuel + 1) i = partitionUp less d 0 j fuel (i + 1) := by
        rw [partitionUp, if_pos hc]
      rw [hdef]
      obtain ⟨h1, h2, h3, h4⟩ := ih (i + 1)
      refine ⟨by omega, ?_, ?_, ?_⟩
      · have : max (i + 1) (j + 1) = j + 1 := by omega
        rw [this] at h2
        exact Nat.le_trans h2 (Nat.le_max_right _ _)
      · intro k x hk1 hk2 hkx
        by_cases hki : k = i
        · subst hki
          rw [lessAt_of_getElem? less d k 0 x p hkx h0] at hc
          exact hc.2
        · exact h3 k x (by omega) hk2 hkx
      · intro hf hle
        exact h4 (by omega) hle
    · have hdef : partitionUp less d 0 j (fuel + 1) i = i := by
        rw [partitionUp, if_neg hc]
      rw [hdef]
      refine ⟨Nat.le_refl _, Nat.le_max_left _ _, fun k x h1 h2 => by omega, ?_⟩
      intro _ hle
      cases hl : lessAt less d i 0 with
      | false => rfl
      | true => exact absurd ⟨hle, hl⟩ hc

theorem partitionDown_spec {α : Type} (less : α → α → Bool) (d : List α) (p : α)
    (h0 : d[0]? = some p) (i : Nat) (hi : 1 ≤ i) :
    ∀ (fuel j : Nat),
      partitionDown less d 0 i fuel j ≤ j ∧
      (i ≤ j + 1 → i ≤ partitionDown less d 0 i fuel j + 1) ∧
      (∀ k x, partitionDown less d 0 i fuel j < k → k ≤ j → d[k]? = some x →
        less x p = false) ∧
      (j + 1 ≤ fuel + i → i ≤ partitionDown less d 0 i fuel j →
        lessAt less d (partitionDown less d 0 i fuel j) 0 = true) := by
  intro fuel
  induction fuel with
  | zero =>
    intro j
    refine ⟨Nat.le_refl _, fun h => h, ?_, ?_⟩
    · intro k x h1 h2
      simp only [partitionDown] at h1
      omega
    · intro h1 h2
      simp only [partitionDown] at h2
      omega
  | succ fuel ih =>
    intro j
    by_cases hc : i ≤ j ∧ lessAt less d j 0 = false
    · have hdef : partitionDown less d 0 i (fuel + 1) j = partitionDown less d 0 i fuel (j - 1) := by
        rw [partitionDown, if_pos hc]
      rw [hdef]
      obtain ⟨h1, h2, h3, h4⟩ := ih (j - 1)
      refine ⟨by omega, fun _ => h2 (by omega), ?_, ?_⟩
      · intro k x hk1 hk2 hkx
        by_cases hkj : k = j
        · subst hkj
          rw [lessAt_of_getElem? less d k 0 x p hkx h0] at hc
          exact hc.2
        · exact h3 k x hk1 (by omega) hkx
      · intro hf hle
        exact h4 (by omega) hle
    · have hdef : partitionDown less d 0 i (fuel + 1) j = j := by
        rw [partitionDown, if_neg hc]
      rw [hdef]
      refine ⟨Nat.le_refl _, fun h => h, fun k x h1 h2 => by omega, ?_⟩
      intro _ hle
      cases hl : lessAt less d j 0 with
      | true => rfl
      | false => exact absurd ⟨hle, hl⟩ hc

theorem partitionLoop_spec {α : Type} (less : α → α → Bool) (p : α) (b : Nat) :
    ∀ (fuel : Nat) (d : List α) (i j : Nat),
      d[0]? = some p → 1 ≤ i → i ≤ j + 1 → j < d.length → d.length ≤ b →
      j + 1 ≤ 2 * fuel + i →
      (∀ k x, 1 ≤ k → k < i → d[k]? = some x → less x p = true) →
      (∀ k x, j < k → d[k]? = some x → less x p = false) →
      (partitionLoop less 0 b fuel d i j).1.length = d.length ∧
        (partitionLoop less 0 b fuel d i j).1[0]? = some p ∧
        (partitionLoop less 0 b fuel d i j).2 < d.length ∧
        (∀ k x, 1 ≤ k → k ≤ (partitionLoop less 0 b fuel d i j).2 →
          (partitionLoop less 0 b fuel d i j).1[k]? = some x → less x p = true) ∧
        (∀ k x, (partitionLoop less 0 b fuel d i j).2 < k →
          (partitionLoop less 0 b fuel d i j).1[k]? = some x → less x p = false) := by
  intro fuel
  induction fuel with
  | zero =>
    intro d i j h0 hi hij hj _ hf hA hB
    have hdef : partitionLoop less 0 b 0 d i j = (d, j) := rfl
    rw [hdef]
    exact ⟨rfl, h0, hj, fun k x h1 h2 hx => hA k x h1 (by omega) hx, hB⟩
  | succ fuel ih =>
    intro d i j h0 hi hij hj hb hf hA hB
    obtain ⟨u1, u2, u3, u4⟩ := partitionUp_spec less d p h0 j b i
    have hi' : 1 ≤ partitionUp less d 0 j b i := by omega
    obtain ⟨v1, v2, v3, v4⟩ :=
      partitionDown_spec less d p h0 (partitionUp less d 0 j b i) hi' b j
    have hmax : max i (j + 1) = j + 1 := by omega
    rw [hmax] at u2
    have v2' := v2 u2
    have hA' : ∀ k x, 1 ≤ k → k < partitionUp less d 0 j b i → d[k]? = some x →
        less x p = true := by
      intro k x h1 h2 hx
      by_cases hk : k < i
      · exact hA k x h1 hk hx
      · exact u3 k x (by omega) h2 hx
    have hB' : ∀ k x, partitionDown less d 0 (partitionUp less d 0 j b i) b j < k →
        d[k]? = some x → less x p = false := by
      intro k x h1 hx
      by_cases hk : j < k
      · exact hB k x hk hx
      · exact v3 k x h1 (by omega) hx
    by_cases hgt : partitionUp less d 0 j b i >
        partitionDown less d 0 (partitionUp less d 0 j b i) b j
    · have hdef : partitionLoop less 0 b (fuel + 1) d i j =
          (d, partitionDown less d 0 (partitionUp less d 0 j b i) b j) := by
        rw [partitionLoop]
        simp only [if_pos hgt]
      rw [hdef]
      exact ⟨rfl, h0, by omega, fun k x h1 h2 hx => hA' k x h1 (by omega) hx, hB'⟩
    · have hdef : partitionLoop less 0 b (fuel + 1) d i j =
          partitionLoop less 0 b fuel
            (swapAt d (partitionUp less d 0 j b i)
              (partitionDown less d 0 (partitionUp less d 0 j b i) b j))
            (partitionUp less d 0 j b i + 1)
            (partitionDown less d 0 (partitionUp less d 0 j b i) b j - 1) := by
        rw [partitionLoop]
        simp only [if_neg hgt]
      rw [hdef]
      generalize hI : partitionUp less d 0 j b i = I at *
      generalize hJ : partitionDown less d 0 I b j = J at *
      have hIJ : I ≤ J := by omega
      have hlI := u4 (by omega) (by omega)
      have hlJ := v4 (by omega) hIJ
      obtain ⟨xi, hxi⟩ : ∃ xi, d[I]? = some xi :=
        ⟨_, List.getElem?_eq_getElem (show I < d.length by omega)⟩
      obtain ⟨xj, hxj⟩ : ∃ xj, d[J]? = some xj :=
        ⟨_, List.getElem?_eq_getElem (show J < d.length by omega)⟩
      rw [lessAt_of_getElem? less d I 0 xi p hxi h0] at hlI
      rw [lessAt_of_getElem? less d J 0 xj p hxj h0] at hlJ
      have hne : I ≠ J := by
        intro he
        subst he
        rw [hxi] at hxj
        cases hxj
        rw [hlI] at hlJ
        exact absurd hlJ (by simp)
      have hget := swapAt_getElem? d I J xi xj hxi hxj
      have hlen := swapAt_length d I J
      have hres := ih (swapAt d I J) (I + 1) (J - 1)
        (by rw [hget, if_neg (by omega), if_neg (by omega)]; exact h0)
        (by omega) (by omega) (by rw [hlen]; omega) (by rw [hlen]; exact hb) (by omega)
        (by
          intro k x h1 h2 hx
          rw [hget] at hx
          by_cases hkJ : k = J
          · omega
          · rw [if_neg hkJ] at hx
            by_cases hkI : k = I
            · rw [if_pos hkI] at hx
              cases hx
              exact hlJ
            · rw [if_neg hkI] at hx
              exact hA' k x h1 (by omega) hx)
        (by
          intro k x h1 hx
          rw [hget] at hx
          by_cases hkJ : k = J
          · rw [if_pos hkJ] at hx
            cases hx
            exact hlI
          · rw [if_neg hkJ] at hx
            by_cases hkI : k = I
            · omega
            · rw [if_neg hkI] at hx
              exact hB' k x (by omega) hx)
      rw [hlen] at hres
      exact hres

theorem partition_func_eq {α : Type} (less : α → α → Bool) (d : List α) (n pivot : Nat) :
    (partition_func less d 0 n pivot).1 =
        swapAt (partitionLoop less 0 n (n + 1) (swapAt d 0 pivot) 1 (n - 1)).1
          (partitionLoop less 0 n (n + 1) (swapAt d 0 pivot) 1 (n - 1)).2 0 ∧
      (partition_func less d 0 n pivot).2.1 =
        (partitionLoop less 0 n (n + 1) (swapAt d 0 pivot) 1 (n - 1)).2 := by
  unfold partition_func
  rw [partitionLoop]
  simp only [Nat.zero_add]
  split <;> exact ⟨rfl, rfl⟩

theorem partition_func_spec {α : Type} (less : α → α → Bool) (d : List α) (pivot : Nat)
    (hd : 0 < d.length) :
    ∃ p, (partition_func less d 0 d.length pivot).1.length = d.length ∧
      (partition_func less d 0 d.length pivot).2.1 < d.length ∧
      (partition_func less d 0 d.length pivot).1[(partition_func less d 0 d.length pivot).2.1]? =
        some p ∧
      (∀ k x, k < (partition_func less d 0 d.length pivot).2.1 →
        (partition_func less d 0 d.length pivot).1[k]? = some x → less x p = true) ∧
      (∀ k x, (partition_func less d 0 d.length pivot).2.1 < k →
        (partition_func less d 0 d.length pivot).1[k]? = some x → less x p = false) := by
  obtain ⟨e1, e2⟩ := partition_func_eq less d d.length pivot
  rw [e1, e2]
  have hlen0 := swapAt_length d 0 pivot
  obtain ⟨p, hp⟩ : ∃ p, (swapAt d 0 pivot)[0]? = some p :=
    ⟨_, List.getElem?_eq_getElem (show 0 < (swapAt d 0 pivot).length by omega)⟩
  have hspec := partitionLoop_spec less p d.length (d.length + 1) (swapAt d 0 pivot) 1
    (d.length - 1) hp (Nat.le_refl 1) (by omega) (by omega) (by omega) (by omega)
    (fun k x h1 h2 => by omega)
    (fun k x h1 hx => by
      rw [List.getElem?_eq_none (by omega)] at hx
      exact absurd hx (by simp))
  generalize partitionLoop less 0 d.length (d.length + 1) (swapAt d 0 pivot) 1 (d.length - 1) = r
    at hspec
  obtain ⟨hl, h0, hm, hA, hB⟩ := hspec
  rw [hlen0] at hl hm
  obtain ⟨xm, hxm⟩ : ∃ xm, r.1[r.2]? = some xm :=
    ⟨_, List.getElem?_eq_getElem (show r.2 < r.1.length by omega)⟩
  have hget := swapAt_getElem? r.1 r.2 0 xm p hxm h0
  refine ⟨p, by rw [swapAt_length, hl], hm, ?_, ?_, ?_⟩
  · rw [hget]
    by_cases hz : r.2 = 0
    · rw [if_pos hz]
      rw [hz, h0] at hxm
      rw [← hxm]
    · rw [if_neg hz, if_pos rfl]
  · intro k x hk hx
    rw [hget] at hx
    by_cases hz : k = 0
    · rw [if_pos hz] at hx
      cases hx
      exact hA r.2 _ (by omega) (Nat.le_refl _) hxm
    · rw [if_neg hz, if_neg (by omega)] at hx
      exact hA k x (by omega) (by omega) hx
  · intro k x hk hx
    rw [hget, if_neg (by omega), if_neg (by omega)] at hx
    exact hB k x hk hx

theorem split_at_getElem? {α : Type} (f : List α) (m : Nat) (p : α) (h : f[m]? = some p) :
    f = f.take m ++ p :: f.drop (m + 1) ∧ (f.take m).length = m := by
  obtain ⟨hm, hp⟩ := List.getElem?_eq_some.mp h
  constructor
  · conv_lhs => rw [← List.take_append_drop m f]
    rw [List.drop_eq_getElem_cons hm, hp]
  · rw [List.length_take]
    omega

theorem ascending_of_parts {α : Type} (less : α → α → Bool) (h : LessOrdering less)
    (l r : List α) (p : α)
    (hl : l.Pairwise (fun u v => less v u = false))
    (hr : r.Pairwise (fun u v => less v u = false))
    (hlp : ∀ x ∈ l, less x p = true) (hrp : ∀ y ∈ r, less y p = false) :
    (l ++ p :: r).Pairwise (fun u v => less v u = false) := by
  rw [List.pairwise_append]
  refine ⟨hl, List.pairwise_cons.mpr ⟨fun y hy => hrp y hy, hr⟩, ?_⟩
  intro x hx y hy
  have hxp := hlp x hx
  rcases List.mem_cons.mp hy with hy | hy
  · subst hy
    cases hyx : less y x with
    | false => rfl
    | true =>
      have := h.trans _ _ _ hxp hyx
      rw [h.irrefl] at this
      exact absurd this (by simp)
  · cases hyx : less y x with
    | false => rfl
    | true =>
      have := h.trans _ _ _ hyx hxp
      rw [hrp y hy] at this
      exact absurd this (by simp)

theorem inOrderUpTo_spec {α : Type} (less : α → α → Bool) (d : List α) (b : Nat) :
    ∀ (fuel i : Nat),
      i ≤ inOrderUpTo less d b fuel i ∧
      ∀ k, i ≤ k → k < inOrderUpTo less d b fuel i → lessAt less d k (k - 1) = false := by
  intro fuel
  induction fuel with
  | zero =>
    intro i
    refine ⟨Nat.le_refl _, ?_⟩
    intro k h1 h2
    simp only [inOrderUpTo] at h2
    omega
  | succ fuel ih =>
    intro i
    by_cases hc : i < b ∧ lessAt less d i (i - 1) = false
    · have hdef : inOrderUpTo less d b (fuel + 1) i = inOrderUpTo less d b fuel (i + 1) := by
        rw [inOrderUpTo, if_pos hc]
      rw [hdef]
      obtain ⟨h1, h2⟩ := ih (i + 1)
      refine ⟨by omega, ?_⟩
      intro k hk1 hk2
      by_cases hki : k = i
      · subst hki
        exact hc.2
      · exact h2 k (by omega) hk2
    · have hdef : inOrderUpTo less d b (fuel + 1) i = i := by
        rw [inOrderUpTo, if_neg hc]
      rw [hdef]
      exact ⟨Nat.le_refl _, fun k h1 h2 => by omega⟩

theorem ascending_of_partialInsertionSort_func {α : Type} (less : α → α → Bool)
    (h : LessOrdering less) (d : List α)
    (hs : partialInsertionSort_func less d 0 d.length = true) :
    d.Pairwise (fun u v => less v u = false) := by
  haveI : IsTrans α (fun u v => less v u = false) :=
    ⟨fun a b c hab hbc => h.negTrans c b a hbc hab⟩
  rw [← List.chain'_iff_pairwise, List.chain'_iff_get]
  intro i hi
  unfold partialInsertionSort_func at hs
  have hs' : inOrderUpTo less d d.length d.length (0 + 1) = d.length := by simpa using hs
  obtain ⟨_, h2⟩ := inOrderUpTo_spec less d d.length d.length (0 + 1)
  rw [hs'] at h2
  have hk := h2 (i + 1) (by omega) (by omega)
  rw [lessAt_of_getElem? less d (i + 1) (i + 1 - 1) _ _
    (List.getElem?_eq_getElem (show i + 1 < d.length by omega))
    (List.getElem?_eq_getElem (show i + 1 - 1 < d.length by omega))] at hk
  simpa using hk

theorem ascending_after_partition {α : Type} (less : α → α → Bool) (h : LessOrdering less)
    (f : List α) (mid : Nat) (p : α) (hp : f[mid]? = some p)
    (hA : ∀ k x, k < mid → f[k]? = some x → less x p = true)
    (hB : ∀ k x, mid < k → f[k]? = some x → less x p = false) :
    (insertionSort_func less (insertionSort_func less f 0 mid) (mid + 1) f.length).Pairwise
        (fun u v => less v u = false) ∧
      (insertionSort_func less (insertionSort_func less f (mid + 1) f.length) 0 mid).Pairwise
        (fun u v => less v u = false) := by
  obtain ⟨hsplit, hlen⟩ := split_at_getElem? f mid p hp
  obtain ⟨hm, _⟩ := List.getElem?_eq_some.mp hp
  generalize hL : f.take mid = L at hsplit hlen
  generalize hR : f.drop (mid + 1) = Rt at hsplit
  have hLp : ∀ x ∈ L, less x p = true := by
    intro x hx
    rw [← hL] at hx
    obtain ⟨k, hk⟩ := List.mem_iff_getElem?.mp hx
    rw [List.getElem?_take] at hk
    by_cases hkm : k < mid
    · rw [if_pos hkm] at hk
      exact hA k x hkm hk
    · rw [if_neg hkm] at hk
      exact absurd hk (by simp)
  have hRp : ∀ y ∈ Rt, less y p = false := by
    intro y hy
    rw [← hR] at hy
    obtain ⟨k, hk⟩ := List.mem_iff_getElem?.mp hy
    rw [List.getElem?_drop] at hk
    exact hB _ y (by omega) hk
  have hflen : f.length = mid + 1 + Rt.length := by
    rw [hsplit]
    simp only [List.length_append, List.length_cons, hlen]
    omega
  rw [hflen]
  constructor
  · obtain ⟨L', e1, p1, s1⟩ := insertionSort_func_spec less h [] L (p :: Rt)
    have e1' : insertionSort_func less f 0 mid = L' ++ p :: Rt := by
      rw [hsplit]
      simpa [hlen] using e1
    rw [e1']
    obtain ⟨R', e2, p2, s2⟩ := insertionSort_func_spec less h (L' ++ [p]) Rt []
    have hl' : (L' ++ [p]).length = mid + 1 := by
      simp only [List.length_append, List.length_singleton, p1.length_eq, hlen]
    rw [hl'] at e2
    have e2' : insertionSort_func less (L' ++ p :: Rt) (mid + 1) (mid + 1 + Rt.length) =
        L' ++ p :: R' := by
      simpa using e2
    rw [e2']
    exact ascending_of_parts less h L' R' p s1 s2
      (fun x hx => hLp x (p1.mem_iff.mp hx)) (fun y hy => hRp y (p2.mem_iff.mp hy))
  · obtain ⟨R', e2, p2, s2⟩ := insertionSort_func_spec less h (L ++ [p]) Rt []
    have hl' : (L ++ [p]).length = mid + 1 := by
      simp only [List.length_append, List.length_singleton, hlen]
    rw [hl'] at e2
    have e2' : insertionSort_func less f (mid + 1) (mid + 1 + Rt.length) = L ++ p :: R' := by
      rw [hsplit]
      simpa using e2
    rw [e2']
    obtain ⟨L', e1, p1, s1⟩ := insertionSort_func_spec less h [] L (p :: R')
    have e1' : insertionSort_func less (L ++ p :: R') 0 mid = L' ++ p :: R' := by
      simpa [hlen] using e1
    rw [e1']
    exact ascending_of_parts less h L' R' p s1 s2
      (fun x hx => hLp x (p1.mem_iff.mp hx)) (fun y hy => hRp y (p2.mem_iff.mp hy))

theorem pdqsortShort_ascending {α : Type} (less : α → α → Bool) (h : LessOrdering less)
    (d : List α) : (pdqsortShort less d).Pairwise (fun u v => less v u = false) := by
  unfold pdqsortShort
  simp only []
  split
  · obtain ⟨s, e, _, hs⟩ := insertionSort_func_spec less h [] d []
    have e' : insertionSort_func less d 0 d.length = s := by simpa using e
    rw [e']
    exact hs
  · next hn =>
    split
    · next hc => exact ascending_of_partialInsertionSort_func less h d hc.2
    · obtain ⟨p, hl, hm, hp, hA, hB⟩ :=
        partition_func_spec less d (choosePivot_func less d 0 d.length).1 (by omega)
      have hboth := ascending_after_partition less h _ _ p hp hA hB
      rw [hl] at hboth
      split
      · exact hboth.1
      · exact hboth.2

theorem goSliceSort_short {α : Type} (S : SliceSort) (less : α → α → Bool)
    (h : LessOrdering less) (x : List α) (hx : x.length ≤ 13) :
    (goSliceSort S).sort less x = pdqsortShort less x := by
  show (if _ then _ else _ : List α) = _
  rw [if_pos ⟨hx, pdqsortShort_ascending less h x⟩]

end Vipsgen
